import Mathlib

/-!
qca-pkcs11: identifier codec, token registry, key catalog, private-key operations and
prompts; host-name matching of certificates.

A shallow embedding of the identifier codec (`escapeString`, `unescapeString`,
`serializeCertificateId`, `deserializeCertificateId`, `entryPassive`), of the token
registry (`registerTokenId`, `keyStores`, `clearStores`), of the key catalog (`entryList`),
of the private-key operations (`decrypt`, `startSign`, `update`, `endSign`) and of the
prompts (`tokenPrompt`, `pinPrompt`, `pinPromptHook`) of
`plugins/qca-pkcs11/qca-pkcs11.cpp`, and of `cnMatchesAddress` and
`Certificate::matchesAddress` of `src/qca_cert.cpp`, followed by the properties proved
about them.

Conventions of the embedding:
* a `QString` is the list of its UTF-16 code units, a `QByteArray` the list of its bytes;
* a `CK_RV` status is a natural number, `CKR_OK` being `0`;
* a C++ function that throws `pkcs11Exception` returns `Except pkcs11Exception _`;
* a pointer that may be `NULL` is an `Option`; a call that is undefined (an index past
  the end of a list, a call through a `NULL` pointer) gives `none`;
* the driver (pkcs11-helper), the text codecs of Qt and the certificate engine of QCA are
  not part of the sources; the functions used from them are the fields of `Env` and of
  `SessionEnv`; the character tables of Qt are the fields of `QtUnicode`.
-/

namespace pkcs11QCAPlugin

/-! ## Strings -/

/-- UTF-16 code unit held by a `QChar` (`QChar::unicode ()`). -/
abbrev QChar := Nat

/-- A `QString`, as the sequence of its code units. -/
abbrev QString := List QChar

/-- A `QByteArray` (also `SecureArray`), as the sequence of its bytes. -/
abbrev QByteArray := List Nat

/-- Code units of a string literal of the source. -/
def qs (s : String) : QString := s.toList.map Char.toNat

/-- Character `'/'`. -/
def slash : QChar := 47

/-- Character `'\\'`. -/
def backslash : QChar := 92

/-- Conversion `(ushort)` of an `int`. -/
def ushort (n : Int) : QChar := (n % 65536).toNat

/-- `QString::mid (position, n)`. -/
def mid (s : QString) (position n : Nat) : QString := (s.drop position).take n

/-- `QChar::isSpace` on the ASCII range. -/
def isSpace (c : QChar) : Bool := c == 32 || (9 ≤ c && c ≤ 13)

/-- Value of a digit character in bases up to 36. -/
def digitValue (c : QChar) : Option Nat :=
  if 48 ≤ c ∧ c ≤ 57 then some (c - 48)
  else if 97 ≤ c ∧ c ≤ 122 then some (c - 87)
  else if 65 ≤ c ∧ c ≤ 90 then some (c - 55)
  else none

/-- Reads a run of digits of the given base; fails on any other character. -/
def parseDigits (base : Nat) : QString → Nat → Option Nat
  | [], acc => some acc
  | c :: cs, acc =>
    match digitValue c with
    | some d => if d < base then parseDigits base cs (acc * base + d) else none
    | none => none

/-- Drops the optional `0x` / `0X` that may precede a base-16 number. -/
def stripBaseMark (base : Nat) (s : QString) : QString :=
  if base = 16 then
    match s with
    | 48 :: x :: rest => if x = 120 ∨ x = 88 then rest else s
    | _ => s
  else s

/-- Magnitude of an unsigned numeral: at least one digit, nothing else. -/
def parseMagnitude (base : Nat) (s : QString) : Option Nat :=
  match stripBaseMark base s with
  | [] => none
  | ds => parseDigits base ds 0

/-- Signed value of a numeral with the surrounding white space already removed. -/
def parseSigned (base : Nat) (s : QString) : Option Int :=
  match s with
  | 45 :: rest => (parseMagnitude base rest).map (fun m => - (m : Int))
  | 43 :: rest => (parseMagnitude base rest).map (fun m => (m : Int))
  | _ => (parseMagnitude base s).map (fun m => (m : Int))

/-- Removes white space at both ends. -/
def trimmed (s : QString) : QString :=
  ((s.dropWhile isSpace).reverse.dropWhile isSpace).reverse

/-- `QString::toInt (0, base)` of Qt in the C locale: the value of the numeral (optional
white space around it, optional sign, optional `0x` in base 16), and `0` when the text is
not a numeral or its value does not fit an `int`. -/
def toInt (s : QString) (base : Nat) : Int :=
  match parseSigned base (trimmed s) with
  | some v => if v < -2147483648 ∨ 2147483647 < v then 0 else v
  | none => 0

/-- Lower-case hexadecimal digit. -/
def hexDigit (d : Nat) : QChar := if d < 10 then 48 + d else 87 + d

/-- Hexadecimal digits of `n`, most significant first, with `fuel` bounding their number. -/
def hexDigits : Nat → Nat → QString
  | 0, _ => []
  | fuel + 1, n => if n < 16 then [hexDigit n] else hexDigits fuel (n / 16) ++ [hexDigit (n % 16)]

/-- `QString ().sprintf ("%04x", n)`: at least four lower-case hexadecimal digits. -/
def sprintf_04x (n : Nat) : QString :=
  let ds := hexDigits (n + 1) n
  List.replicate (4 - ds.length) 48 ++ ds

/-- `QString ().sprintf ("%d", n)` for `n ≥ 0`. -/
def sprintf_d (n : Nat) : QString := (Nat.toDigits 10 n).map Char.toNat

/-- `QString::split ("/")` continued: `cur` is the field being read, in reverse. -/
def splitAux : QString → QString → List QString
  | [], cur => [cur.reverse]
  | c :: cs, cur => if c = slash then cur.reverse :: splitAux cs [] else splitAux cs (c :: cur)

/-- `QString::split ("/")`, empty fields kept. -/
def split (s : QString) : List QString := splitAux s []

/-- `QStringList::join ("/")`. -/
def join : List QString → QString
  | [] => []
  | [x] => x
  | x :: y :: rest => x ++ slash :: join (y :: rest)

/-! ## `escapeString` and `unescapeString` -/

/-- `pkcs11KeyStoreListContext::escapeString`: `'/'` and `'\\'` become `\x` followed by
the four hexadecimal digits of the code unit. -/
def escapeString : QString → QString
  | [] => []
  | c :: cs =>
    (if c = slash ∨ c = backslash then qs "\\x" ++ sprintf_04x c else [c]) ++ escapeString cs

/-- Loop of `unescapeString`; `skip` is the number of characters still to be passed over
after a `'\\'` (the `i+=5` of the source). -/
def unescapeLoop : Nat → QString → QString
  | _, [] => []
  | skip + 1, _ :: cs => unescapeLoop skip cs
  | 0, c :: cs =>
    if c = backslash then ushort (toInt (mid cs 1 4) 16) :: unescapeLoop 5 cs
    else c :: unescapeLoop 0 cs

/-- `pkcs11KeyStoreListContext::unescapeString`. -/
def unescapeString (s : QString) : QString := unescapeLoop 0 s

/-! ## Driver, Qt and QCA interfaces -/

/-- Status code `CK_RV` of the driver. -/
abbrev CK_RV := Nat

/-- Status `CKR_OK`. -/
def CKR_OK : CK_RV := 0

/-- Status `CKR_FUNCTION_FAILED`. -/
def CKR_FUNCTION_FAILED : CK_RV := 6

/-- Status `CKR_ARGUMENTS_BAD`. -/
def CKR_ARGUMENTS_BAD : CK_RV := 7

/-- Class `pkcs11Exception`: a status and a text. -/
structure pkcs11Exception where
  rv : CK_RV
  msg : String
  deriving DecidableEq, Repr

/-- Modelled from the spec: the token descriptor `pkcs11h_token_id_t` of the driver, whose
declaration (pkcs11h-token.h) is not part of the sources: manufacturer, model, serial and
label, compared by value. -/
structure pkcs11h_token_id where
  manufacturerID : QByteArray
  model : QByteArray
  serialNumber : QByteArray
  label : QByteArray
  deriving DecidableEq, Repr

/-- Modelled from the spec: the certificate descriptor `pkcs11h_certificate_id_t` of the
driver, whose declaration (pkcs11h-certificate.h) is not part of the sources: the owning
token, the object-id attribute and the DER bytes of the certificate. -/
structure pkcs11h_certificate_id where
  token_id : pkcs11h_token_id
  attrCKA_ID : QByteArray
  certificate_blob : QByteArray
  deriving DecidableEq, Repr

/-- Calls made to the driver on certificate-identity handles, in the order they are made. -/
inductive DriverCall where
  | deserializeCertificateId (sz : QByteArray) (rv : CK_RV)
  | setCertificateIdCertificateBlob (blob : QByteArray) (rv : CK_RV)
  | duplicateCertificateId (rv : CK_RV)
  | freeCertificateId
  deriving DecidableEq, Repr

/-- The collaborators of the plugin, none of which is part of the sources. `Certificate` is
the certificate object of the certificate engine. A driver function with an out-parameter
that is set on success only returns `Except CK_RV _`, the error being its non-OK status. A
serialisation function of the driver receives the capacity of the buffer (`none` for a
`NULL` buffer) and returns its status, the length it reports and the buffer it leaves. -/
structure Env (Certificate : Type) where
  /-- Bytes seen through `myPrintable (s)`, which is `(s).toUtf8 ().constData ()`. -/
  toUtf8 : QString → QByteArray
  /-- `QString::fromUtf8`. -/
  fromUtf8 : QByteArray → QString
  /-- Text that `QString::sprintf` puts for a `%s` argument. -/
  sprintf_s : QByteArray → QString
  /-- `Base64 ().arrayToString`. -/
  arrayToString : QByteArray → QString
  /-- `Base64 ().stringToArray`. -/
  stringToArray : QString → QByteArray
  /-- `Certificate::toDER` of a certificate that is not null. -/
  toDER : Certificate → QByteArray
  /-- `Certificate::fromDER`. -/
  fromDER : QByteArray → Certificate
  /-- `Certificate::isNull`. -/
  isNull : Certificate → Bool
  /-- `CertificateChain (cert).complete (issuers)`. -/
  complete : Certificate → List Certificate → List Certificate
  /-- `Hash ("sha1").hashToString`. -/
  hashToString : QByteArray → QString
  /-- Text `cert.subjectInfoOrdered ().toString () + " by " +
  cert.issuerInfo ().value (CommonName, "Unknown")`. -/
  describe : Certificate → QString
  /-- `cert.subjectPublicKey ().toRSA ()`, in the encoding of the engine. -/
  subjectPublicKey : Certificate → QByteArray
  /-- `makeFriendlyNames`: the display names of a batch of certificates. -/
  makeFriendlyNames : List Certificate → List QString
  /-- `pkcs11h_getMessage`. -/
  getMessage : CK_RV → String
  /-- `pkcs11h_token_sameTokenId`. -/
  sameTokenId : pkcs11h_token_id → pkcs11h_token_id → Bool
  /-- `pkcs11h_token_serializeTokenId`. -/
  serializeTokenId : Option Nat → pkcs11h_token_id → CK_RV × Nat × QByteArray
  /-- `pkcs11h_certificate_serializeCertificateId`. -/
  serializeCertificateId : Option Nat → pkcs11h_certificate_id → CK_RV × Nat × QByteArray
  /-- `pkcs11h_certificate_deserializeCertificateId`. -/
  deserializeCertificateId : QByteArray → Except CK_RV pkcs11h_certificate_id
  /-- `pkcs11h_certificate_setCertificateIdCertificateBlob`; returns the updated identity. -/
  setCertificateIdCertificateBlob :
    pkcs11h_certificate_id → QByteArray → Except CK_RV pkcs11h_certificate_id
  /-- `pkcs11h_certificate_duplicateCertificateId`. -/
  duplicateCertificateId : pkcs11h_certificate_id → Except CK_RV pkcs11h_certificate_id

/-- `QByteArray::resize`: bytes beyond the old size are unspecified, here `0`. -/
def resize (b : QByteArray) (n : Nat) : QByteArray :=
  b.take n ++ List.replicate (n - b.length) 0

/-- `pkcs11Exception::message`. -/
def pkcs11Exception.message {Certificate : Type} (env : Env Certificate)
    (e : pkcs11Exception) : String :=
  e.msg ++ " " ++ env.getMessage e.rv

/-- `Certificate::toDER` as `src/qca_cert.cpp` has it: the call goes through `context ()`,
which is `NULL` in a null certificate, such as a failed `fromDER` leaves; `none` then. -/
def Certificate_toDER {Certificate : Type} (env : Env Certificate) (cert : Certificate) :
    Option QByteArray :=
  if env.isNull cert then none else some (env.toDER cert)

/-- `certificateHash`: `Hash ("sha1").hashToString (cert.toDER ())`; `none` when `toDER` is
applied to a null certificate. -/
def certificateHash {Certificate : Type} (env : Env Certificate) (cert : Certificate) :
    Option QString :=
  (Certificate_toDER env cert).map env.hashToString

/-! ## Serialised entry references -/

/-- `pkcs11KeyStoreListContext::tokenId2storeId`. -/
def tokenId2storeId {Certificate : Type} (env : Env Certificate)
    (token_id : pkcs11h_token_id) : Except pkcs11Exception QString :=
  match env.serializeTokenId none token_id with
  | (rv1, len1, _) =>
    if rv1 ≠ CKR_OK then .error ⟨CKR_FUNCTION_FAILED, "Cannot serialize token id"⟩
    else
      match env.serializeTokenId (some len1) token_id with
      | (rv2, len2, buf) =>
        if rv2 ≠ CKR_OK then .error ⟨CKR_FUNCTION_FAILED, "Cannot serialize token id"⟩
        else .ok (qs "qca-pkcs11/" ++ escapeString (env.fromUtf8 (resize buf len2)))

/-- `pkcs11KeyStoreListContext::serializeCertificateId`. -/
def serializeCertificateId {Certificate : Type} (env : Env Certificate)
    (certificate_id : pkcs11h_certificate_id) (chain : List Certificate)
    (has_private : Bool) : Except pkcs11Exception QString :=
  match env.serializeCertificateId none certificate_id with
  | (rv1, len1, _) =>
    if rv1 ≠ CKR_OK then .error ⟨CKR_FUNCTION_FAILED, "Cannot serialize certificate id"⟩
    else
      match env.serializeCertificateId (some len1) certificate_id with
      | (rv2, len2, buf) =>
        if rv2 ≠ CKR_OK then
          .error ⟨CKR_FUNCTION_FAILED, "Cannot serialize certificate id"⟩
        else
          let serialized :=
            qs "qca-pkcs11/0/"
              ++ env.sprintf_s (env.toUtf8 (escapeString (env.fromUtf8 (resize buf len2))))
              ++ qs "/" ++ sprintf_d (if has_private then 1 else 0) ++ qs "/"
          let list := chain.map (fun i => escapeString (env.arrayToString (env.toDER i)))
          .ok (serialized ++ join list)

/-- What `deserializeCertificateId` leaves behind: its three out-parameters, the exception
its `catch (...)` swallowed, if any, and the calls it made to the driver. -/
structure Deserialized (Certificate : Type) where
  certificate_id : Option pkcs11h_certificate_id
  has_private : Bool
  listIssuers : List Certificate
  caught : Option pkcs11Exception
  calls : List DriverCall

/-- `pkcs11KeyStoreListContext::deserializeCertificateId`; `listIssuers` is the list
`*p_listIssuers` as the caller passes it. -/
def deserializeCertificateId {Certificate : Type} (env : Env Certificate)
    (src : QString) (listIssuers : List Certificate) : Deserialized Certificate :=
  let list := split src
  if list.length < 5 then
    ⟨none, false, listIssuers, some ⟨CKR_FUNCTION_FAILED, "Invalid serialization"⟩, []⟩
  else if list.getD 0 [] ≠ qs "qca-pkcs11" then
    ⟨none, false, listIssuers, some ⟨CKR_FUNCTION_FAILED, "Invalid serialization"⟩, []⟩
  else if toInt (list.getD 1 []) 10 ≠ 0 then
    ⟨none, false, listIssuers,
      some ⟨CKR_FUNCTION_FAILED, "Invalid serialization version"⟩, []⟩
  else
    let sz := env.toUtf8 (unescapeString (list.getD 2 []))
    match env.deserializeCertificateId sz with
    | .error rv =>
      ⟨none, false, listIssuers, some ⟨rv, "Invalid serialization"⟩,
        [.deserializeCertificateId sz rv]⟩
    | .ok certificate_id =>
      let has_private := toInt (list.getD 3 []) 10 ≠ 0
      let arrayCertificate := env.stringToArray (unescapeString (list.getD 4 []))
      match env.setCertificateIdCertificateBlob certificate_id arrayCertificate with
      | .error rv =>
        ⟨none, has_private, listIssuers, some ⟨rv, "Invalid serialization"⟩,
          [.deserializeCertificateId sz CKR_OK,
           .setCertificateIdCertificateBlob arrayCertificate rv, .freeCertificateId]⟩
      | .ok certificate_id =>
        ⟨some certificate_id, has_private,
          listIssuers ++ (list.drop 5).map
            (fun f => env.fromDER (env.stringToArray (unescapeString f))),
          none,
          [.deserializeCertificateId sz CKR_OK,
           .setCertificateIdCertificateBlob arrayCertificate CKR_OK]⟩

/-- `KeyStoreEntry::Type`, the two values the plugin produces. -/
inductive KeyStoreEntryType where
  | TypeKeyBundle
  | TypeCertificate
  deriving DecidableEq, Repr

/-- Modelled from the spec: the enumeration `SignatureAlgorithm` of QCA, whose declaration
is not part of the sources: the values that `startSign` names, and `other` for any further
value of the type. -/
inductive SignatureAlgorithm where
  | SignatureUnknown
  | EMSA1_SHA1
  | EMSA3_SHA1
  | EMSA3_MD5
  | EMSA3_MD2
  | EMSA3_RIPEMD160
  | EMSA3_Raw
  | other (value : Nat)
  deriving DecidableEq, Repr

/-- Modelled from the spec: the enumeration `EncryptionAlgorithm` of QCA, whose declaration
is not part of the sources: the two values that `decrypt` names, and `other` for any
further value of the type. -/
inductive EncryptionAlgorithm where
  | EME_PKCS1v15
  | EME_PKCS1_OAEP
  | other (value : Nat)
  deriving DecidableEq, Repr

/-- A `Hash` object: the name it was created with and the bytes fed to it so far. -/
structure Hash where
  type : String
  data : QByteArray
  deriving DecidableEq, Repr

/-- Struct `_sign_data_s`; `hash` is `none` for `NULL`. -/
structure SignData where
  alg : SignatureAlgorithm
  hash : Option Hash
  raw : QByteArray
  deriving DecidableEq, Repr

/-- An `RSAPublicKey`: the key in the encoding of the engine, and the bytes fed to it by
`update` for a verification. -/
structure RSAPublicKey where
  encoded : QByteArray
  updated : QByteArray
  deriving DecidableEq, Repr

/-- Handle `pkcs11h_certificate_t` of the driver. -/
abbrev pkcs11h_certificate := Nat

/-- Class `pkcs11RSAContext`; `_pkcs11h_certificate` is `none` for `NULL`. -/
structure pkcs11RSAContext where
  _has_privateKeyRole : Bool
  _pkcs11h_certificate_id : pkcs11h_certificate_id
  _pkcs11h_certificate : Option pkcs11h_certificate
  _pubkey : RSAPublicKey
  _serialized_entry : QString
  _sign_data : SignData
  deriving DecidableEq, Repr

/-- A `KeyBundle`: a certificate chain and the private key bound to it. -/
structure KeyBundle (Certificate : Type) where
  certificateChain : List Certificate
  privateKey : pkcs11RSAContext

/-- Class `pkcs11KeyStoreEntryContext`; `_key` is set for a key bundle, `_cert` for a
certificate. -/
structure pkcs11KeyStoreEntryContext (Certificate : Type) where
  _item_type : KeyStoreEntryType
  _key : Option (KeyBundle Certificate)
  _cert : Option Certificate
  _storeId : QString
  _id : QString
  _serialized : QString
  _storeName : QString
  _name : QString

/-- `pkcs11KeyStoreEntryContext::storeId`. -/
def pkcs11KeyStoreEntryContext.storeId {Certificate : Type}
    (e : pkcs11KeyStoreEntryContext Certificate) : QString := e._storeId

/-- `pkcs11KeyStoreListContext::keyStoreEntryByCertificateId`; returns the entry or the
exception thrown, and the calls made to the driver on identity handles. The constructor of
the entry sets `_id` to `certificateHash` of the certificate, respectively of
`chain.primary ()`, the certificate the chain is built from; this is past the test
`cert.isNull ()`, so the hash is there. -/
def keyStoreEntryByCertificateId {Certificate : Type} (env : Env Certificate)
    (certificate_id : Option pkcs11h_certificate_id) (has_private : Bool)
    (listIssuers : List Certificate) (_description : QString) :
    Except pkcs11Exception (pkcs11KeyStoreEntryContext Certificate) × List DriverCall :=
  match certificate_id with
  | none => (.error ⟨CKR_ARGUMENTS_BAD, "Missing certificate object"⟩, [])
  | some certificate_id =>
    if certificate_id.certificate_blob.length = 0 then
      (.error ⟨CKR_ARGUMENTS_BAD, "Missing certificate"⟩, [])
    else
      let cert := env.fromDER certificate_id.certificate_blob
      if env.isNull cert then (.error ⟨CKR_ARGUMENTS_BAD, "Invalid certificate"⟩, [])
      else
        let chain := env.complete cert listIssuers
        match serializeCertificateId env certificate_id chain has_private with
        | .error e => (.error e, [])
        | .ok serialized =>
          let description := if _description.isEmpty then env.describe cert else _description
          if has_private then
            match env.duplicateCertificateId certificate_id with
            | .error rv => (.error ⟨rv, "Memory error"⟩, [.duplicateCertificateId rv])
            | .ok dup =>
              let rsakey : pkcs11RSAContext :=
                { _has_privateKeyRole := true
                  _pkcs11h_certificate_id := dup
                  _pkcs11h_certificate := none
                  _pubkey := ⟨env.subjectPublicKey cert, []⟩
                  _serialized_entry := []
                  _sign_data := ⟨.SignatureUnknown, none, []⟩ }
              match tokenId2storeId env certificate_id.token_id with
              | .error e => (.error e, [.duplicateCertificateId CKR_OK, .freeCertificateId])
              | .ok storeId =>
                (.ok
                  { _item_type := .TypeKeyBundle
                    _key := some ⟨chain, { rsakey with _serialized_entry := serialized }⟩
                    _cert := none
                    _storeId := storeId
                    _id := env.hashToString (env.toDER (chain.headD cert))
                    _serialized := serialized
                    _storeName := certificate_id.token_id.label
                    _name := description },
                  [.duplicateCertificateId CKR_OK])
          else
            match tokenId2storeId env certificate_id.token_id with
            | .error e => (.error e, [])
            | .ok storeId =>
              (.ok
                { _item_type := .TypeCertificate
                  _key := none
                  _cert := some cert
                  _storeId := storeId
                  _id := env.hashToString (env.toDER cert)
                  _serialized := serialized
                  _storeName := certificate_id.token_id.label
                  _name := description },
                [])

/-- Text handed to `emit_diagnosticText`: the fixed part of the format, the status and the
message of the exception. -/
structure Diagnostic where
  what : String
  rv : CK_RV
  message : String
  deriving DecidableEq, Repr

/-- What `entryPassive` returns and does: the entry (`none` for `NULL`), the diagnostics
emitted and the calls made to the driver on identity handles. -/
structure EntryPassive (Certificate : Type) where
  entry : Option (pkcs11KeyStoreEntryContext Certificate)
  diagnostics : List Diagnostic
  calls : List DriverCall

/-- `pkcs11KeyStoreListContext::entryPassive`. -/
def entryPassive {Certificate : Type} (env : Env Certificate) (serialized : QString) :
    EntryPassive Certificate :=
  let d := deserializeCertificateId env serialized []
  let free : List DriverCall :=
    match d.certificate_id with
    | some _ => [.freeCertificateId]
    | none => []
  match keyStoreEntryByCertificateId env d.certificate_id d.has_private d.listIssuers [] with
  | (.ok entry, calls) => ⟨some entry, [], d.calls ++ calls ++ free⟩
  | (.error e, calls) =>
    ⟨none, [⟨"PKCS#11: Add key store entry", e.rv, e.message env⟩], d.calls ++ calls ++ free⟩

/-- Number of certificate-identity handles the driver has handed out and not got back
after a sequence of calls. -/
def liveHandles : List DriverCall → Int
  | [] => 0
  | .deserializeCertificateId _ rv :: rest =>
    (if rv = CKR_OK then 1 else 0) + liveHandles rest
  | .duplicateCertificateId rv :: rest => (if rv = CKR_OK then 1 else 0) + liveHandles rest
  | .freeCertificateId :: rest => liveHandles rest - 1
  | .setCertificateIdCertificateBlob _ _ :: rest => liveHandles rest

/-- Struct `pkcs11KeyStoreItem`. The token descriptor is the copy made by
`pkcs11h_token_duplicateTokenId`; an item stands for the pointer to it, since the registry
never holds two pointers to one item. -/
structure pkcs11KeyStoreItem where
  id : Int
  token_id : pkcs11h_token_id
  deriving DecidableEq, Repr

/-- The registry fields of `pkcs11KeyStoreListContext`. The `QHash` `_storesById` is the
list of its bindings, one for each key. -/
structure Registry where
  _last_id : Int
  _stores : List pkcs11KeyStoreItem
  _storesById : List (Int × pkcs11KeyStoreItem)
  deriving DecidableEq, Repr

/-- The registry set up by the constructor of `pkcs11KeyStoreListContext`. -/
def Registry.initial : Registry := ⟨0, [], []⟩

/-- `QHash::keys`. -/
def hashKeys (m : List (Int × pkcs11KeyStoreItem)) : List Int := m.map Prod.fst

/-- `QHash::find`, also `operator[]` on a key that is present. -/
def hashFind (m : List (Int × pkcs11KeyStoreItem)) (k : Int) : Option pkcs11KeyStoreItem :=
  (m.find? (fun p => p.1 = k)).map Prod.snd

/-- `QHash::remove`. -/
def hashRemove (m : List (Int × pkcs11KeyStoreItem)) (k : Int) :
    List (Int × pkcs11KeyStoreItem) :=
  m.filter (fun p => p.1 ≠ k)

/-- `QHash::insert`: the binding of a key that is present is replaced. -/
def hashInsert (m : List (Int × pkcs11KeyStoreItem)) (k : Int) (v : pkcs11KeyStoreItem) :
    List (Int × pkcs11KeyStoreItem) :=
  if k ∈ hashKeys m then m.map (fun p => if p.1 = k then (k, v) else p) else m ++ [(k, v)]

/-- Increment `++` of an `int`: 32 bits, wrapping from `INT_MAX` to `INT_MIN`. -/
def incrInt (x : Int) : Int := (x + 1 + 2147483648) % 4294967296 - 2147483648

/-- Loop `while (_storesById.find (++_last_id) != _storesById.end ());`: the value of
`_last_id` when the loop ends, `none` when it has not ended after `fuel` increments. -/
def nextFreeId (keys : List Int) : Nat → Int → Option Int
  | 0, _ => none
  | fuel + 1, last =>
    let next := incrInt last
    if next ∈ keys then nextFreeId keys fuel next else some next

/-- `pkcs11KeyStoreListContext::registerTokenId`: the entry returned and the registry
afterwards; `none` when the search for a free id does not end, which takes a map that
holds every `int`. -/
def registerTokenId {Certificate : Type} (env : Env Certificate) (r : Registry)
    (token_id : pkcs11h_token_id) : Option (pkcs11KeyStoreItem × Registry) :=
  match r._stores.find? (fun i => env.sameTokenId token_id i.token_id) with
  | some entry => some (entry, r)
  | none =>
    match nextFreeId (hashKeys r._storesById) (r._storesById.length + 1) r._last_id with
    | none => none
    | some last_id =>
      let entry : pkcs11KeyStoreItem := ⟨last_id, token_id⟩
      some (entry,
        { _last_id := last_id
          _stores := r._stores ++ [entry]
          _storesById := hashInsert r._storesById entry.id entry })

/-- `pkcs11KeyStoreListContext::clearStores`. -/
def clearStores (r : Registry) : Registry :=
  { r with _storesById := [], _stores := [] }

/-- First loop of `keyStores`: registers every enumerated token, appends its id to `out`
and takes that id off `to_remove`. -/
def registerLoop {Certificate : Type} (env : Env Certificate) :
    Registry → List pkcs11h_token_id → List Int → List Int →
      Option (Registry × List Int × List Int)
  | r, [], out, to_remove => some (r, out, to_remove)
  | r, token_id :: rest, out, to_remove =>
    match registerTokenId env r token_id with
    | none => none
    | some (item, r1) =>
      registerLoop env r1 rest (out ++ [item.id]) (to_remove.filter (fun i => i ≠ item.id))

/-- Second loop of `keyStores`: removes the items left on `to_remove` from the map and from
the list; `none` when `_storesById[i]` is `NULL`, which the source dereferences. -/
def removeLoop : Registry → List Int → Option Registry
  | r, [] => some r
  | r, i :: rest =>
    match hashFind r._storesById i with
    | none => none
    | some item =>
      removeLoop
        { r with
          _storesById := hashRemove r._storesById item.id
          _stores := r._stores.filter (fun e => e ≠ item) }
        rest

/-- What `keyStores` returns and does: the list `out`, the registry afterwards and the
diagnostics emitted. -/
structure KeyStores where
  out : List Int
  registry : Registry
  diagnostics : List Diagnostic
  deriving DecidableEq, Repr

/-- `pkcs11KeyStoreListContext::keyStores`; `enum` is what `pkcs11h_token_enumTokenIds`
answers: its status and the tokens it lists. -/
def keyStores {Certificate : Type} (env : Env Certificate) (r : Registry)
    (enum : CK_RV × List pkcs11h_token_id) : Option KeyStores :=
  if enum.1 ≠ CKR_OK then
    let e : pkcs11Exception := ⟨enum.1, "Enumerating tokens"⟩
    some ⟨[], r, [⟨"PKCS#11: Cannot get key stores:", e.rv, e.message env⟩]⟩
  else
    match registerLoop env r enum.2 [] (hashKeys r._storesById) with
    | none => none
    | some (r1, out, to_remove) =>
      match removeLoop r1 to_remove with
      | none => none
      | some r2 => some ⟨out, r2, []⟩

/-- An operation on the registry: a call of `registerTokenId` or a call of `keyStores`
together with the answer of the token enumeration. -/
inductive RegistryOp where
  | registerTokenId (token_id : pkcs11h_token_id)
  | keyStores (enum : CK_RV × List pkcs11h_token_id)

/-- Ids of the entries appended to `_stores` between two registries, oldest first. -/
def createdIds (before after : Registry) : List Int :=
  (after._stores.drop before._stores.length).map (fun e => e.id)

/-- Runs a sequence of operations; returns the registry reached and, in the order of their
creation, the ids given to the entries created on the way. -/
def runOps {Certificate : Type} (env : Env Certificate) :
    Registry → List RegistryOp → Option (Registry × List Int)
  | r, [] => some (r, [])
  | r, .registerTokenId token_id :: ops =>
    match registerTokenId env r token_id with
    | none => none
    | some (_, r1) =>
      match runOps env r1 ops with
      | none => none
      | some (r2, log) => some (r2, createdIds r r1 ++ log)
  | r, .keyStores enum :: ops =>
    match keyStores env r enum with
    | none => none
    | some res =>
      let created :=
        if enum.1 ≠ CKR_OK then []
        else
          match registerLoop env r enum.2 [] (hashKeys r._storesById) with
          | none => []
          | some (r1, _, _) => createdIds r r1
      match runOps env res.registry ops with
      | none => none
      | some (r2, log) => some (r2, created ++ log)

/-- Whether the loop `while (_storesById.find (++_last_id) != _storesById.end ());`
applies `++` to `INT_MAX`, that is, whether `_last_id` overflows. -/
def nextFreeIdOverflows (keys : List Int) : Nat → Int → Bool
  | 0, _ => false
  | fuel + 1, last =>
    last == 2147483647 ||
      (decide (incrInt last ∈ keys) && nextFreeIdOverflows keys fuel (incrInt last))

/-- Whether `_last_id` overflows in a call of `registerTokenId`. -/
def registerTokenIdOverflows {Certificate : Type} (env : Env Certificate) (r : Registry)
    (token_id : pkcs11h_token_id) : Bool :=
  match r._stores.find? (fun i => env.sameTokenId token_id i.token_id) with
  | some _ => false
  | none => nextFreeIdOverflows (hashKeys r._storesById) (r._storesById.length + 1) r._last_id

/-- Whether `_last_id` overflows in the first loop of `keyStores`. -/
def registerLoopOverflows {Certificate : Type} (env : Env Certificate) :
    Registry → List pkcs11h_token_id → Bool
  | _, [] => false
  | r, token_id :: rest =>
    registerTokenIdOverflows env r token_id ||
      (match registerTokenId env r token_id with
        | none => false
        | some (_, r1) => registerLoopOverflows env r1 rest)

/-- Whether `_last_id` overflows in a sequence of operations. -/
def runOverflows {Certificate : Type} (env : Env Certificate) :
    Registry → List RegistryOp → Bool
  | _, [] => false
  | r, .registerTokenId token_id :: ops =>
    registerTokenIdOverflows env r token_id ||
      (match registerTokenId env r token_id with
        | none => false
        | some (_, r1) => runOverflows env r1 ops)
  | r, .keyStores enum :: ops =>
    (if enum.1 ≠ CKR_OK then false else registerLoopOverflows env r enum.2) ||
      (match keyStores env r enum with
        | none => false
        | some res => runOverflows env res.registry ops)

/-- Registries reached from the one of the constructor by `registerTokenId`, `keyStores`
and `clearStores`. -/
inductive Reachable {Certificate : Type} (env : Env Certificate) : Registry → Prop
  | initial : Reachable env Registry.initial
  | registerTokenId {r r1 : Registry} {t : pkcs11h_token_id} {e : pkcs11KeyStoreItem} :
      Reachable env r → registerTokenId env r t = some (e, r1) → Reachable env r1
  | keyStores {r : Registry} {enum : CK_RV × List pkcs11h_token_id} {res : KeyStores} :
      Reachable env r → keyStores env r enum = some res → Reachable env res.registry
  | clearStores {r : Registry} : Reachable env r → Reachable env (clearStores r)

/-- The id map binds the id of every entry of the list to that entry, in the order of the
list, and no two entries of the list have the same id. -/
abbrev Registry.Coherent (r : Registry) : Prop :=
  r._storesById = r._stores.map (fun e => (e.id, e)) ∧ (r._stores.map (fun e => e.id)).Nodup

/-- No entry of the list holds a token that compares equal to the token of an entry
before it. -/
abbrev Registry.TokensDistinct {Certificate : Type} (env : Env Certificate) (r : Registry) :
    Prop :=
  r._stores.Pairwise (fun a b => env.sameTokenId b.token_id a.token_id = false)

/-! ## Key catalog -/

/-- `QMap::insert` on a map from strings to strings, held as the list of its bindings. -/
def mapInsert (m : List (QString × QString)) (k v : QString) : List (QString × QString) :=
  if m.any (fun p => p.1 = k) then m.map (fun p => if p.1 = k then (k, v) else p)
  else m ++ [(k, v)]

/-- `QMap::operator[]` read as a value: the string bound to the key, the empty string when
there is none. -/
def mapValue (m : List (QString × QString)) (k : QString) : QString :=
  match m.find? (fun p => p.1 = k) with
  | some p => p.2
  | none => []

/-- Loop of `entryList` that fills `friendlyNames`: for each index `i` of `names` it binds
`certificateHash (listCerts[i])` to `names[i]`; `none` when `i` is not an index of
`listCerts`, where `QList::operator[]` is undefined, and when `listCerts[i]` is a null
certificate, where `certificateHash` is. -/
def friendlyNamesLoop {Certificate : Type} (env : Env Certificate)
    (listCerts : List Certificate) :
    List QString → Nat → List (QString × QString) → Option (List (QString × QString))
  | [], _, friendlyNames => some friendlyNames
  | name :: rest, i, friendlyNames =>
    match listCerts[i]? with
    | none => none
    | some cert =>
      match certificateHash env cert with
      | none => none
      | some hash =>
        friendlyNamesLoop env listCerts rest (i + 1) (mapInsert friendlyNames hash name)

/-- What `entryList` returns and does: the list `out`, the diagnostics emitted and the
calls made to the driver on identity handles. -/
structure EntryList (Certificate : Type) where
  out : List (pkcs11KeyStoreEntryContext Certificate)
  diagnostics : List Diagnostic
  calls : List DriverCall

/-- The two loops of `entryList` that build the records, one over `issuers` with
`has_private = false` and `list = listIssuers`, one over `certs` with `has_private = true`
and `list = listCerts`: the `i`-th identity is turned into a record named
`friendlyNames[certificateHash (list[i])]`; an exception is caught, reported and the
identity skipped. The hash of `list[i]` is taken before the call; on a null certificate
it calls through a `NULL` context, which is no exception for the `catch` of the record:
`none` then, as for an index past the end of `list`. -/
def entryLoop {Certificate : Type} (env : Env Certificate) (has_private : Bool)
    (listIssuers list : List Certificate) (friendlyNames : List (QString × QString)) :
    List pkcs11h_certificate_id → Nat → EntryList Certificate →
      Option (EntryList Certificate)
  | [], _, acc => some acc
  | current :: rest, i, acc =>
    match list[i]? with
    | none => none
    | some cert =>
      match certificateHash env cert with
      | none => none
      | some hash =>
        match keyStoreEntryByCertificateId env (some current) has_private listIssuers
            (mapValue friendlyNames hash) with
        | (.ok entry, calls) =>
          entryLoop env has_private listIssuers list friendlyNames rest (i + 1)
            ⟨acc.out ++ [entry], acc.diagnostics, acc.calls ++ calls⟩
        | (.error e, calls) =>
          entryLoop env has_private listIssuers list friendlyNames rest (i + 1)
            ⟨acc.out,
              acc.diagnostics ++ [⟨"PKCS#11: Add key store entry", e.rv, e.message env⟩],
              acc.calls ++ calls⟩

/-- `pkcs11KeyStoreListContext::entryList`; `enum` is what
`pkcs11h_certificate_enumTokenCertificateIds` answers for the token of the store: its
status, the issuer identities and the identities of the certificates with a private key.
`none` when the source reads a list past its end or takes the hash of a null
certificate. -/
def entryList {Certificate : Type} (env : Env Certificate) (r : Registry) (id : Int)
    (enum : CK_RV × List pkcs11h_certificate_id × List pkcs11h_certificate_id) :
    Option (EntryList Certificate) :=
  match hashFind r._storesById id with
  | none => some ⟨[], [], []⟩
  | some _ =>
    match enum with
    | (rv, issuers, certs) =>
      if rv ≠ CKR_OK then
        let e : pkcs11Exception := ⟨rv, "Enumerate certificates"⟩
        some ⟨[], [⟨"PKCS#11: Enumerating store failed", e.rv, e.message env⟩], []⟩
      else
        let listCerts := certs.map (fun c => env.fromDER c.certificate_blob)
        let listIssuers := issuers.map (fun c => env.fromDER c.certificate_blob)
        let names := env.makeFriendlyNames (listIssuers ++ listCerts)
        match friendlyNamesLoop env listCerts names 0 [] with
        | none => none
        | some friendlyNames =>
          match entryLoop env false listIssuers listIssuers friendlyNames issuers 0
              ⟨[], [], []⟩ with
          | none => none
          | some acc => entryLoop env true listIssuers listCerts friendlyNames certs 0 acc

/-! ## Private-key operations -/

/-- Mechanism identifier `CK_MECHANISM_TYPE` of the driver. -/
abbrev CK_MECHANISM_TYPE := Nat

/-- Mechanism `CKM_RSA_PKCS`. -/
def CKM_RSA_PKCS : CK_MECHANISM_TYPE := 1

/-- Mechanism `CKM_RSA_PKCS_OAEP`. -/
def CKM_RSA_PKCS_OAEP : CK_MECHANISM_TYPE := 9

/-- Status `CKR_FUNCTION_NOT_SUPPORTED`. -/
def CKR_FUNCTION_NOT_SUPPORTED : CK_RV := 84

/-- Calls made to the driver on the certificate handle of a key, in the order they are
made, each with the status it returned; `capacity` is the size of the output buffer,
`none` for a `NULL` buffer. -/
inductive SessionCall where
  | create (rv : CK_RV)
  | lockSession (rv : CK_RV)
  | decryptAny (mech : CK_MECHANISM_TYPE) (input : QByteArray) (capacity : Option Nat)
      (rv : CK_RV)
  | signAny (mech : CK_MECHANISM_TYPE) (input : QByteArray) (capacity : Option Nat)
      (rv : CK_RV)
  | releaseSession (rv : CK_RV)
  deriving DecidableEq, Repr

/-- The collaborators of `pkcs11RSAContext`, none of which is part of the sources. A
primitive of the driver receives the capacity of the output buffer (`none` for a `NULL`
buffer) and returns its status, the length it reports and the buffer it leaves. -/
structure SessionEnv where
  /-- `pkcs11h_certificate_create` for an identity and the serialised entry given as user
  data. -/
  create : pkcs11h_certificate_id → QString → Except CK_RV pkcs11h_certificate
  /-- `pkcs11h_certificate_lockSession`. -/
  lockSession : pkcs11h_certificate → CK_RV
  /-- `pkcs11h_certificate_releaseSession`. -/
  releaseSession : pkcs11h_certificate → CK_RV
  /-- `pkcs11h_certificate_decryptAny`. -/
  decryptAny : pkcs11h_certificate → CK_MECHANISM_TYPE → QByteArray → Option Nat →
    CK_RV × Nat × QByteArray
  /-- `pkcs11h_certificate_signAny`. -/
  signAny : pkcs11h_certificate → CK_MECHANISM_TYPE → QByteArray → Option Nat →
    CK_RV × Nat × QByteArray
  /-- `pkcs11h_getMessage`. -/
  getMessage : CK_RV → String
  /-- `Hash::final` of a hash of the given name fed with the given bytes. -/
  hashFinal : String → QByteArray → QByteArray
  /-- `emsa3Encode` of QCA for a hash name, a digest and a size in bytes. -/
  emsa3Encode : String → QByteArray → Int → QByteArray
  /-- `RSAPublicKey::bitSize`. -/
  bitSize : RSAPublicKey → Int

/-- `pkcs11Exception::message`, for the collaborators of a key. -/
def sessionMessage (drv : SessionEnv) (e : pkcs11Exception) : String :=
  e.msg ++ " " ++ drv.getMessage e.rv

/-- `pkcs11RSAContext::clearSign`. -/
def clearSign (k : pkcs11RSAContext) : pkcs11RSAContext :=
  { k with _sign_data := ⟨.SignatureUnknown, none, []⟩ }

/-- `pkcs11RSAContext::startSign`; the warning logged for an algorithm without a hash is
not modelled. -/
def startSign (k : pkcs11RSAContext) (alg : SignatureAlgorithm) : pkcs11RSAContext :=
  let k := clearSign k
  let hash : Option Hash :=
    match alg with
    | .EMSA3_SHA1 => some ⟨"sha1", []⟩
    | .EMSA3_MD5 => some ⟨"md5", []⟩
    | .EMSA3_MD2 => some ⟨"md2", []⟩
    | _ => none
  { k with _sign_data := ⟨alg, hash, k._sign_data.raw⟩ }

/-- `pkcs11RSAContext::update`. -/
def update (k : pkcs11RSAContext) (input : QByteArray) : pkcs11RSAContext :=
  if k._has_privateKeyRole then
    match k._sign_data.hash with
    | some hash =>
      { k with _sign_data := { k._sign_data with hash := some ⟨hash.type, hash.data ++ input⟩ } }
    | none => { k with _sign_data := { k._sign_data with raw := k._sign_data.raw ++ input } }
  else { k with _pubkey := ⟨k._pubkey.encoded, k._pubkey.updated ++ input⟩ }

/-- `pkcs11RSAContext::ensureCertificate`: the key with its handle and that handle, or the
exception thrown; and the call made to the driver, if any. -/
def ensureCertificate (drv : SessionEnv) (k : pkcs11RSAContext) :
    Except pkcs11Exception (pkcs11RSAContext × pkcs11h_certificate) × List SessionCall :=
  match k._pkcs11h_certificate with
  | some h => (.ok (k, h), [])
  | none =>
    match drv.create k._pkcs11h_certificate_id k._serialized_entry with
    | .error rv => (.error ⟨rv, "Cannot create low-level certificate"⟩, [.create rv])
    | .ok h => (.ok ({ k with _pkcs11h_certificate := some h }, h), [.create CKR_OK])

/-- Mechanism chosen by the `switch` of `decrypt`; `none` for its `default` branch. -/
def decryptMechanism : EncryptionAlgorithm → Option CK_MECHANISM_TYPE
  | .EME_PKCS1v15 => some CKM_RSA_PKCS
  | .EME_PKCS1_OAEP => some CKM_RSA_PKCS_OAEP
  | .other _ => none

/-- Release of the session by a `catch` block: the call is made when `session_locked` is
set. -/
def catchRelease (drv : SessionEnv) (k : pkcs11RSAContext) (session_locked : Bool) :
    List SessionCall :=
  if session_locked then
    match k._pkcs11h_certificate with
    | some h => [.releaseSession (drv.releaseSession h)]
    | none => []
  else []

/-- What `decrypt` returns and does: its result, the buffer `*out`, the key afterwards,
the calls made to the driver and the diagnostics emitted. -/
structure Decrypt where
  ret : Bool
  out : QByteArray
  key : pkcs11RSAContext
  calls : List SessionCall
  diagnostics : List Diagnostic
  deriving DecidableEq, Repr

/-- The `catch` block of `decrypt`; `listExists` tells whether `s_keyStoreList` is set. -/
def decryptCatch (drv : SessionEnv) (listExists : Bool) (k : pkcs11RSAContext)
    (out : QByteArray) (calls : List SessionCall) (session_locked : Bool)
    (e : pkcs11Exception) : Decrypt :=
  ⟨false, out, k, calls ++ catchRelease drv k session_locked,
    if listExists then [⟨"PKCS#11: Cannot decrypt:", e.rv, sessionMessage drv e⟩] else []⟩

/-- `pkcs11RSAContext::decrypt`; `out` is the buffer `*out` as the caller passes it. -/
def decrypt (drv : SessionEnv) (listExists : Bool) (k : pkcs11RSAContext)
    (input out : QByteArray) (alg : EncryptionAlgorithm) : Decrypt :=
  match decryptMechanism alg with
  | none =>
    decryptCatch drv listExists k out [] false ⟨CKR_FUNCTION_NOT_SUPPORTED, "Invalid algorithm"⟩
  | some mech =>
    match ensureCertificate drv k with
    | (.error e, calls) => decryptCatch drv listExists k out calls false e
    | (.ok (k, h), calls) =>
      let rv := drv.lockSession h
      let calls := calls ++ [.lockSession rv]
      if rv ≠ CKR_OK then
        decryptCatch drv listExists k out calls false ⟨rv, "Cannot lock session"⟩
      else
        match drv.decryptAny h mech input none with
        | (rv, my_size, _) =>
          let calls := calls ++ [.decryptAny mech input none rv]
          if rv ≠ CKR_OK then
            decryptCatch drv listExists k out calls true ⟨rv, "Decryption error"⟩
          else
            match drv.decryptAny h mech input (some my_size) with
            | (rv, my_size2, buffer) =>
              let out := resize buffer my_size
              let calls := calls ++ [.decryptAny mech input (some my_size) rv]
              if rv ≠ CKR_OK then
                decryptCatch drv listExists k out calls true ⟨rv, "Decryption error"⟩
              else
                let out := resize out my_size2
                let rv := drv.releaseSession h
                let calls := calls ++ [.releaseSession rv]
                if rv ≠ CKR_OK then
                  decryptCatch drv listExists k out calls true ⟨rv, "Cannot release session"⟩
                else ⟨true, out, k, calls, []⟩

/-- Value of an `int` expression: 32 bits, two's complement. -/
def toInt32 (x : Int) : Int := (x + 2147483648) % 4294967296 - 2147483648

/-- Expression `(_pubkey.bitSize () + 7) / 8` of `endSign`, in `int` arithmetic: the
division truncates. -/
def myrsa_size (bitSize : Int) : Int := Int.tdiv (toInt32 (bitSize + 7)) 8

/-- Message `final` of `endSign`: the encoded digest when a hash is active, the raw buffer
otherwise. -/
def signFinal (drv : SessionEnv) (k : pkcs11RSAContext) : QByteArray :=
  match k._sign_data.hash with
  | some hash =>
    drv.emsa3Encode hash.type (drv.hashFinal hash.type hash.data)
      (myrsa_size (drv.bitSize k._pubkey))
  | none => k._sign_data.raw

/-- What `endSign` returns and does: its result, the key afterwards, the calls made to the
driver and the diagnostics emitted. -/
structure EndSign where
  result : QByteArray
  key : pkcs11RSAContext
  calls : List SessionCall
  diagnostics : List Diagnostic
  deriving DecidableEq, Repr

/-- The `catch` block of `endSign` followed by the final `clearSign`; `listExists` tells
whether `s_keyStoreList` is set. -/
def endSignCatch (drv : SessionEnv) (listExists : Bool) (k : pkcs11RSAContext)
    (calls : List SessionCall) (session_locked : Bool) (e : pkcs11Exception) : EndSign :=
  ⟨[], clearSign k, calls ++ catchRelease drv k session_locked,
    if listExists then [⟨"PKCS#11: Cannot sign:", e.rv, sessionMessage drv e⟩] else []⟩

/-- `pkcs11RSAContext::endSign`. -/
def endSign (drv : SessionEnv) (listExists : Bool) (k : pkcs11RSAContext) : EndSign :=
  let final := signFinal drv k
  if final.length = 0 then
    endSignCatch drv listExists k [] false ⟨CKR_FUNCTION_FAILED, "Cannot encode signature"⟩
  else
    match ensureCertificate drv k with
    | (.error e, calls) => endSignCatch drv listExists k calls false e
    | (.ok (k, h), calls) =>
      let rv := drv.lockSession h
      let calls := calls ++ [.lockSession rv]
      if rv ≠ CKR_OK then
        endSignCatch drv listExists k calls false ⟨rv, "Cannot lock session"⟩
      else
        match drv.signAny h CKM_RSA_PKCS final none with
        | (rv, my_size, _) =>
          let calls := calls ++ [.signAny CKM_RSA_PKCS final none rv]
          if rv ≠ CKR_OK then
            endSignCatch drv listExists k calls true ⟨rv, "Signature failed"⟩
          else
            match drv.signAny h CKM_RSA_PKCS final (some my_size) with
            | (rv, my_size2, buffer) =>
              let calls := calls ++ [.signAny CKM_RSA_PKCS final (some my_size) rv]
              if rv ≠ CKR_OK then
                endSignCatch drv listExists k calls true ⟨rv, "Signature failed"⟩
              else
                let result := resize (resize buffer my_size) my_size2
                let rv := drv.releaseSession h
                let calls := calls ++ [.releaseSession rv]
                if rv ≠ CKR_OK then
                  endSignCatch drv listExists k calls true ⟨rv, "Cannot release session"⟩
                else ⟨result, clearSign k, calls, []⟩

/-- Whether after every `lockSession` that returned OK a `releaseSession` follows. -/
def lockReleased : List SessionCall → Bool
  | [] => true
  | .lockSession rv :: rest =>
    (rv ≠ CKR_OK || rest.any (fun c => match c with
      | .releaseSession _ => true
      | _ => false)) && lockReleased rest
  | _ :: rest => lockReleased rest

/-! ## Prompts -/

/-- How a C++ call ends: it returns a value, it throws an exception that nothing on the
way catches, or it is undefined (a `NULL` pointer is dereferenced, or it does not end). -/
inductive Outcome (α : Type) where
  | returned (a : α)
  | thrown (e : pkcs11Exception)
  | undefined

/-- What `pinPrompt` returns and does: its result, the array `pin`, the store id sent to
the UI and the registry afterwards. -/
structure PinPrompt where
  ret : Bool
  pin : QByteArray
  storeId : QString
  registry : Registry
  deriving DecidableEq, Repr

/-- `pkcs11KeyStoreListContext::pinPrompt`; `user_data` is the serialised entry the driver
passes, `none` for `NULL`; `ask` is the UI: for the store id of the request, whether the
user accepted and the password entered. -/
def pinPrompt {Certificate : Type} (env : Env Certificate)
    (ask : QString → Bool × QByteArray) (r : Registry) (user_data : Option QString)
    (token_id : pkcs11h_token_id) : Outcome PinPrompt :=
  let asked (storeId : QString) (r : Registry) : Outcome PinPrompt :=
    if (ask storeId).1 then .returned ⟨true, (ask storeId).2, storeId, r⟩
    else .returned ⟨false, [], storeId, r⟩
  match user_data with
  | some serialized =>
    match (entryPassive env serialized).entry with
    | none => .undefined
    | some context => asked context.storeId r
  | none =>
    match registerTokenId env r token_id with
    | none => .undefined
    | some (_, r1) =>
      match tokenId2storeId env token_id with
      | .error e => .thrown e
      | .ok storeId => asked storeId r1

/-- What `pinPromptHook` returns and does: its result, the buffer `pin` of the driver
afterwards and the registry of the keystore list, if there is one. -/
structure PinPromptHook where
  ret : Bool
  pin : QByteArray
  registry : Option Registry
  deriving DecidableEq, Repr

/-- Value of the `size_t` expression `pin_max-1` for a `size_t` of `w` bits. -/
def pinCapacity (w pin_max : Nat) : Nat := (pin_max + 2 ^ w - 1) % 2 ^ w

/-- Buffer of the driver after `memmove (pin, qpin.constData (), qpin.size ())` and
`pin[qpin.size ()] = '\0'`. -/
def writePin (pin qpin : QByteArray) : QByteArray :=
  qpin ++ [0] ++ pin.drop (qpin.length + 1)

/-- `pkcs11Provider::pinPromptHook`; `list` is the registry of `s_keyStoreList`, `none`
when that pointer is `NULL`; `pin` is the buffer of the driver and `w` the width of
`size_t`. -/
def pinPromptHook {Certificate : Type} (env : Env Certificate)
    (ask : QString → Bool × QByteArray) (w : Nat) (list : Option Registry)
    (user_data : Option QString) (token : pkcs11h_token_id) (pin : QByteArray)
    (pin_max : Nat) : Outcome PinPromptHook :=
  match list with
  | none => .returned ⟨false, pin, none⟩
  | some r =>
    match pinPrompt env ask r user_data token with
    | .thrown e => .thrown e
    | .undefined => .undefined
    | .returned p =>
      if p.ret then
        if p.pin.length % 2 ^ w < pinCapacity w pin_max then
          .returned ⟨true, writePin pin p.pin, some p.registry⟩
        else .returned ⟨false, pin, some p.registry⟩
      else .returned ⟨false, pin, some p.registry⟩

/-- What `tokenPrompt` returns and does: its result, the store id sent to the UI and the
registry afterwards. -/
structure TokenPrompt where
  ret : Bool
  storeId : QString
  registry : Registry
  deriving DecidableEq, Repr

/-- `pkcs11KeyStoreListContext::tokenPrompt`; `user_data` is the serialised entry the
driver passes, `none` for `NULL`; `ask` is the UI: for the store id of the request,
whether the user accepted. -/
def tokenPrompt {Certificate : Type} (env : Env Certificate) (ask : QString → Bool)
    (r : Registry) (user_data : Option QString) (token_id : pkcs11h_token_id) :
    Outcome TokenPrompt :=
  match user_data with
  | some serialized =>
    match (entryPassive env serialized).entry with
    | none => .undefined
    | some context => .returned ⟨ask context.storeId, context.storeId, r⟩
  | none =>
    match registerTokenId env r token_id with
    | none => .undefined
    | some (_, r1) =>
      match tokenId2storeId env token_id with
      | .error e => .thrown e
      | .ok storeId => .returned ⟨ask storeId, storeId, r1⟩

/-! ## Quantities used to state the properties -/

/-- Escaped text: no `'/'`, and every `'\\'` opens one of the two sequences `\x002f` and
`\x005c`; `skip` is the number of characters of such a sequence still to be passed over. -/
def escapedLoop : Nat → QString → Bool
  | _, [] => true
  | skip + 1, _ :: cs => escapedLoop skip cs
  | 0, c :: cs =>
    if c = backslash then
      (decide (cs.take 5 = qs "x002f") || decide (cs.take 5 = qs "x005c")) && escapedLoop 5 cs
    else decide (c ≠ slash) && escapedLoop 0 cs

/-- Whether a string is escaped text. -/
def escaped (t : QString) : Bool := escapedLoop 0 t

/-- Number of `releaseSession` calls in a sequence of calls. -/
def releaseCount : List SessionCall → Nat
  | [] => 0
  | .releaseSession _ :: rest => releaseCount rest + 1
  | _ :: rest => releaseCount rest

/-- Inputs handed to the sign primitive in a sequence of calls. -/
def signedInputs : List SessionCall → List QByteArray
  | [] => []
  | .signAny _ input _ _ :: rest => input :: signedInputs rest
  | _ :: rest => signedInputs rest

/-- A call of the sign interface made before a signature is started. -/
inductive SignOp where
  | startSign (alg : SignatureAlgorithm)
  | update (input : QByteArray)
  deriving DecidableEq, Repr

/-- The key after a sequence of `startSign` and `update` calls. -/
def runSign (k : pkcs11RSAContext) : List SignOp → pkcs11RSAContext
  | [] => k
  | .startSign alg :: rest => runSign (startSign k alg) rest
  | .update input :: rest => runSign (update k input) rest

/-- The key after `update (b_1)`, ..., `update (b_n)`. -/
def updates (k : pkcs11RSAContext) : List QByteArray → pkcs11RSAContext
  | [] => k
  | b :: rest => updates (update k b) rest

/-! ## Host names

`cnMatchesAddress` and `Certificate::matchesAddress` of `src/qca_cert.cpp`. The regular
expressions of the source are used on fixed patterns; each use is a function here. -/

/-- The character tables of Qt, which are not part of the sources. -/
structure QtUnicode where
  /-- `QChar::isSpace`. -/
  isSpace : QChar → Bool
  /-- `QChar::lower`. -/
  lower : QChar → QChar

/-- Character `'.'`. -/
def dot : QChar := 46

/-- Character `'*'`. -/
def star : QChar := 42

/-- `QString::stripWhiteSpace`. -/
def stripWhiteSpace (u : QtUnicode) (s : QString) : QString :=
  ((s.dropWhile u.isSpace).reverse.dropWhile u.isSpace).reverse

/-- `QString::lower`. -/
def lower (u : QtUnicode) (s : QString) : QString := s.map u.lower

/-- Loop `while (s.endsWith (".")) s.truncate (s.length () - 1)`. -/
def dropTrailingDots (s : QString) : QString :=
  (s.reverse.dropWhile (fun c => c = dot)).reverse

/-- Whether a character is in the class `[a-zA-Z0-9\.\*\-]`. -/
def allowedChar (c : QChar) : Bool :=
  (97 ≤ c && c ≤ 122) || (65 ≤ c && c ≤ 90) || (48 ≤ c && c ≤ 57) || c = dot || c = star
    || c = 45

/-- Test `QRegExp ("[^a-zA-Z0-9\\.\\*\\-]").search (cn) >= 0`: some character of `cn` is
outside the class. -/
def hasInvalidChar (cn : QString) : Bool := cn.any (fun c => !allowedChar c)

/-- Splitting at a separator, continued: `cur` is the field being read, in reverse. -/
def splitAtAux (sep : QChar) : QString → QString → List QString
  | [], cur => [cur.reverse]
  | c :: cs, cur =>
    if c = sep then cur.reverse :: splitAtAux sep cs [] else splitAtAux sep cs (c :: cur)

/-- `QStringList::split (sep, s, false)`: the fields of `s` between the separators, the
empty ones left out. -/
def QStringList_split (sep : QChar) (s : QString) : List QString :=
  (splitAtAux sep s []).filter (fun f => !f.isEmpty)

/-- Whether a text is one to three characters of the class `[0-9]`. -/
def digitRun (f : QString) : Bool :=
  decide (1 ≤ f.length) && decide (f.length ≤ 3) && f.all (fun c => 48 ≤ c && c ≤ 57)

/-- Test `rx.exactMatch (peerHost)` for the pattern
`[0-9]{1,3}\.[0-9]{1,3}\.[0-9]{1,3}\.[0-9]{1,3}`: four runs of one to three digits with a
`'.'` between them. -/
def rxIPv4 (peerHost : QString) : Bool :=
  match splitAtAux dot peerHost [] with
  | [a, b, c, d] => digitRun a && digitRun b && digitRun c && digitRun d
  | _ => false

/-- Test `rx.exactMatch (peerHost)` for the pattern `^\[.*\]$`: a `'['`, any characters
and a `']'`. -/
def rxIPv6 (peerHost : QString) : Bool :=
  match peerHost with
  | c :: rest => c = 91 && rest.getLast? = some 93
  | [] => false

/-- Test `QRegExp (pattern, false, true).exactMatch (text)`, a wildcard pattern compared
without regard to case, for a pattern made of letters, digits, `'.'`, `'-'` and `'*'`,
which are the characters `cn` is made of where the test is used: `'*'` stands for any
sequence of characters, every other character for itself, two characters being the same
when `QChar::lower` agrees on them. -/
def wildcardExactMatch (u : QtUnicode) : QString → QString → Bool
  | [], text => text.isEmpty
  | p :: ps, text =>
    if p = star then text.tails.any (fun t => wildcardExactMatch u ps t)
    else
      match text with
      | [] => false
      | t :: ts => u.lower p = u.lower t && wildcardExactMatch u ps ts

/-- Loop `while (parts.count () > 2) parts.remove (parts.begin ())`. -/
def keepLastTwo : List QString → List QString
  | _ :: b :: c :: rest => keepLastTwo (b :: c :: rest)
  | parts => parts

/-- `cnMatchesAddress`. -/
def cnMatchesAddress (u : QtUnicode) (_cn peerHost : QString) : Bool :=
  let cn := lower u (stripWhiteSpace u _cn)
  if hasInvalidChar cn then false
  else
    let cn := dropTrailingDots cn
    if cn.isEmpty then false
    else if rxIPv4 peerHost then peerHost = cn
    else if rxIPv6 peerHost then peerHost = cn
    else if cn.contains star then
      let parts := keepLastTwo (QStringList_split dot cn)
      if parts.length ≠ 2 then false
      else if (parts.getD 0 []).contains star || (parts.getD 1 []).contains star then false
      else
        wildcardExactMatch u cn peerHost &&
          decide ((QStringList_split dot cn).length
            = (QStringList_split dot peerHost).length)
    else cn = peerHost

/-- `Certificate::matchesAddress`; `commonName` is what `commonName ()` returns. -/
def matchesAddress (u : QtUnicode) (commonName realHost : QString) : Bool :=
  let peerHost := lower u (dropTrailingDots (stripWhiteSpace u realHost))
  cnMatchesAddress u commonName peerHost

/-! ## A reference environment

Standard Base64, certificates that are their own DER bytes, text codecs that copy code
units and a driver that serialises an identity as its object-id attribute: an instance of
`Env` on which the model can be run. -/

/-- Character of a 6-bit value in the Base64 alphabet. -/
def base64Char (n : Nat) : QChar :=
  if n < 26 then 65 + n
  else if n < 52 then 97 + (n - 26)
  else if n < 62 then 48 + (n - 52)
  else if n = 62 then 43
  else 47

/-- Six-bit value of a character of the Base64 alphabet. -/
def base64Value (c : QChar) : Nat :=
  if 65 ≤ c ∧ c ≤ 90 then c - 65
  else if 97 ≤ c ∧ c ≤ 122 then c - 97 + 26
  else if 48 ≤ c ∧ c ≤ 57 then c - 48 + 52
  else if c = 43 then 62
  else 63

/-- Base64 text of a byte sequence, with `=` padding. -/
def base64Encode : QByteArray → QString
  | a :: b :: c :: rest =>
    [base64Char (a / 4), base64Char (a % 4 * 16 + b / 16), base64Char (b % 16 * 4 + c / 64),
      base64Char (c % 64)] ++ base64Encode rest
  | [a, b] => [base64Char (a / 4), base64Char (a % 4 * 16 + b / 16), base64Char (b % 16 * 4), 61]
  | [a] => [base64Char (a / 4), base64Char (a % 4 * 16), 61, 61]
  | [] => []

/-- Bytes of a Base64 text. -/
def base64Decode : QString → QByteArray
  | c1 :: c2 :: c3 :: c4 :: rest =>
    let v1 := base64Value c1
    let v2 := base64Value c2
    let v3 := base64Value c3
    let v4 := base64Value c4
    if c3 = 61 then [v1 * 4 + v2 / 16]
    else if c4 = 61 then [v1 * 4 + v2 / 16, v2 % 16 * 16 + v3 / 4]
    else [v1 * 4 + v2 / 16, v2 % 16 * 16 + v3 / 4, v3 % 4 * 64 + v4] ++ base64Decode rest
  | _ => []

/-- Token of the reference environment. -/
def referenceToken : pkcs11h_token_id := ⟨[79], [77], [49], [84]⟩

/-- Reference environment. -/
def referenceEnv : Env QByteArray where
  toUtf8 := fun s => s
  fromUtf8 := fun b => b
  sprintf_s := fun b => b
  arrayToString := base64Encode
  stringToArray := base64Decode
  toDER := fun c => c
  fromDER := fun b => b
  isNull := fun c => c.isEmpty
  complete := fun c _ => [c]
  hashToString := fun b => b
  describe := fun c => c
  subjectPublicKey := fun c => c
  makeFriendlyNames := fun l => l
  getMessage := fun _ => "status"
  sameTokenId := fun a b => decide (a = b)
  serializeTokenId := fun _ t => (CKR_OK, t.label.length, t.label)
  serializeCertificateId := fun _ c => (CKR_OK, c.attrCKA_ID.length, c.attrCKA_ID)
  deserializeCertificateId := fun b => .ok ⟨referenceToken, b, []⟩
  setCertificateIdCertificateBlob := fun c b => .ok { c with certificate_blob := b }
  duplicateCertificateId := fun c => .ok c

/-- Reference collaborators of a key: every call succeeds, a primitive reports the length
of its input and leaves its input in the buffer, the digest is the data, and the encoding
pads the digest with `255` up to the size. -/
def referenceSession : SessionEnv where
  create := fun _ _ => .ok 1
  lockSession := fun _ => CKR_OK
  releaseSession := fun _ => CKR_OK
  decryptAny := fun _ _ input capacity =>
    (CKR_OK, input.length, match capacity with
      | none => []
      | some _ => input)
  signAny := fun _ _ input capacity =>
    (CKR_OK, input.length, match capacity with
      | none => []
      | some _ => input)
  getMessage := fun _ => "status"
  hashFinal := fun _ data => data
  emsa3Encode := fun _ digest size =>
    if digest.length ≤ size.toNat then List.replicate (size.toNat - digest.length) 255 ++ digest
    else []
  bitSize := fun k => 8 * k.encoded.length

/-- Reference key: private role, no handle yet, a public key of 16 bits, idle. -/
def referenceKey : pkcs11RSAContext :=
  { _has_privateKeyRole := true
    _pkcs11h_certificate_id := ⟨referenceToken, [1], [48, 1]⟩
    _pkcs11h_certificate := none
    _pubkey := ⟨[1, 1], []⟩
    _serialized_entry := qs "qca-pkcs11/0/a/1/MAE="
    _sign_data := ⟨.SignatureUnknown, none, []⟩ }

/-- Reference character tables: the ASCII range, where the white space is the space and
the characters 9 to 13 and lower-casing moves `A`-`Z` to `a`-`z`. -/
def referenceUnicode : QtUnicode where
  isSpace := isSpace
  lower := fun c => if 65 ≤ c ∧ c ≤ 90 then c + 32 else c

/-! ## Round trip of the escaping -/

theorem unescapeLoop_escape (s : QString) : unescapeLoop 0 (escapeString s) = s := by
  induction s with
  | nil => rfl
  | cons c cs ih =>
    by_cases h1 : c = slash
    · subst h1
      show unescapeLoop 0 ([92, 120, 48, 48, 50, 102] ++ escapeString cs) = _
      simp [unescapeLoop, ih, backslash, mid, slash]
      decide
    · by_cases h2 : c = backslash
      · subst h2
        show unescapeLoop 0 ([92, 120, 48, 48, 53, 99] ++ escapeString cs) = _
        simp [unescapeLoop, ih, backslash, mid]
        decide
      · simp [escapeString, h1, h2, unescapeLoop, ih]

theorem unescapeString_escapeString (s : QString) :
    unescapeString (escapeString s) = s :=
  unescapeLoop_escape s

/-- C1: `unescapeString (escapeString s) = s` for every string `s`, in particular for every
string made of `'/'`, `'\\'`, letters and digits. -/
theorem C1_unescape_escape (s : QString) : unescapeString (escapeString s) = s :=
  unescapeString_escapeString s

/-! ## Serialised entry references: properties -/

/-- C3: on a string that splits on `'/'` into fewer than 5 fields,
`deserializeCertificateId` fails with "Invalid serialization": it leaves no certificate
identity and makes no call to the driver, `entryPassive` returns no entry, and no
certificate-identity handle of the driver is left allocated. -/
theorem C3_too_few_fields {Certificate : Type} (env : Env Certificate) (src : QString)
    (listIssuers : List Certificate) (h : (split src).length < 5) :
    (deserializeCertificateId env src listIssuers).certificate_id = none ∧
      (deserializeCertificateId env src listIssuers).caught
        = some ⟨CKR_FUNCTION_FAILED, "Invalid serialization"⟩ ∧
      (deserializeCertificateId env src listIssuers).calls = [] ∧
      (entryPassive env src).entry = none ∧
      (entryPassive env src).calls = [] ∧
      liveHandles (entryPassive env src).calls = 0 := by
  have hd : ∀ l : List Certificate, deserializeCertificateId env src l
      = ⟨none, false, l, some ⟨CKR_FUNCTION_FAILED, "Invalid serialization"⟩, []⟩ := by
    intro l
    simp [deserializeCertificateId, h]
  simp [hd, entryPassive, keyStoreEntryByCertificateId, liveHandles]

/-- C3 at the reference `qca-pkcs11/0/a/1`, which has four fields. -/
theorem C3_witness :
    (deserializeCertificateId referenceEnv (qs "qca-pkcs11/0/a/1") []).certificate_id = none ∧
      (deserializeCertificateId referenceEnv (qs "qca-pkcs11/0/a/1") []).caught
        = some ⟨CKR_FUNCTION_FAILED, "Invalid serialization"⟩ ∧
      (deserializeCertificateId referenceEnv (qs "qca-pkcs11/0/a/1") []).calls = [] ∧
      (entryPassive referenceEnv (qs "qca-pkcs11/0/a/1")).entry = none ∧
      (entryPassive referenceEnv (qs "qca-pkcs11/0/a/1")).calls = [] ∧
      liveHandles (entryPassive referenceEnv (qs "qca-pkcs11/0/a/1")).calls = 0 :=
  C3_too_few_fields referenceEnv (qs "qca-pkcs11/0/a/1") [] (by decide)

/-- C4 fails as stated: with the version fields `abc` and `00`, both other than `0`,
`deserializeCertificateId` asks the driver to deserialise the identity and produces a
certificate identity. -/
theorem C4_counterexample :
    ((deserializeCertificateId referenceEnv (qs "qca-pkcs11/abc/a/1/AQI=") []).certificate_id
        = some ⟨referenceToken, qs "a", [1, 2]⟩ ∧
      (deserializeCertificateId referenceEnv (qs "qca-pkcs11/abc/a/1/AQI=") []).calls
        = [.deserializeCertificateId (qs "a") CKR_OK,
            .setCertificateIdCertificateBlob [1, 2] CKR_OK]) ∧
    ((deserializeCertificateId referenceEnv (qs "qca-pkcs11/00/a/1/AQI=") []).certificate_id
        = some ⟨referenceToken, qs "a", [1, 2]⟩ ∧
      (deserializeCertificateId referenceEnv (qs "qca-pkcs11/00/a/1/AQI=") []).calls
        = [.deserializeCertificateId (qs "a") CKR_OK,
            .setCertificateIdCertificateBlob [1, 2] CKR_OK]) := by
  decide

/-- C4, amended: on a string with at least 5 fields whose first field is `qca-pkcs11` and
whose version field has a non-zero value under `QString::toInt`, `deserializeCertificateId`
fails with "Invalid serialization version": it leaves no certificate identity and makes no
call to the driver. -/
theorem C4_nonzero_version {Certificate : Type} (env : Env Certificate) (src : QString)
    (listIssuers : List Certificate) (hlen : 5 ≤ (split src).length)
    (hhead : (split src).getD 0 [] = qs "qca-pkcs11")
    (hversion : toInt ((split src).getD 1 []) 10 ≠ 0) :
    (deserializeCertificateId env src listIssuers).certificate_id = none ∧
      (deserializeCertificateId env src listIssuers).caught
        = some ⟨CKR_FUNCTION_FAILED, "Invalid serialization version"⟩ ∧
      (deserializeCertificateId env src listIssuers).calls = [] := by
  have h5 : ¬ (split src).length < 5 := by omega
  have h0 : ¬ (split src).getD 0 [] ≠ qs "qca-pkcs11" := fun h => h hhead
  have hd : deserializeCertificateId env src listIssuers
      = ⟨none, false, listIssuers,
          some ⟨CKR_FUNCTION_FAILED, "Invalid serialization version"⟩, []⟩ := by
    unfold deserializeCertificateId
    simp only []
    rw [if_neg h5, if_neg h0, if_pos hversion]
  simp [hd]

/-- C4, amended, at the reference `qca-pkcs11/1/a/1/AQI=`. -/
theorem C4_witness :
    (deserializeCertificateId referenceEnv (qs "qca-pkcs11/1/a/1/AQI=") []).certificate_id
        = none ∧
      (deserializeCertificateId referenceEnv (qs "qca-pkcs11/1/a/1/AQI=") []).caught
        = some ⟨CKR_FUNCTION_FAILED, "Invalid serialization version"⟩ ∧
      (deserializeCertificateId referenceEnv (qs "qca-pkcs11/1/a/1/AQI=") []).calls = [] :=
  C4_nonzero_version referenceEnv (qs "qca-pkcs11/1/a/1/AQI=") [] (by decide) (by decide)
    (by decide)

theorem referenceEnv_refl (a : pkcs11h_token_id) : referenceEnv.sameTokenId a a = true := by
  simp [referenceEnv]

theorem referenceEnv_symm (a b : pkcs11h_token_id) :
    referenceEnv.sameTokenId a b = referenceEnv.sameTokenId b a := by
  simp [referenceEnv, eq_comm]

theorem referenceEnv_trans (a b c : pkcs11h_token_id)
    (h1 : referenceEnv.sameTokenId a b = true) (h2 : referenceEnv.sameTokenId b c = true) :
    referenceEnv.sameTokenId a c = true := by
  simp only [referenceEnv, decide_eq_true_eq] at *
  exact h1.trans h2

theorem nextFreeId_not_mem (keys : List Int) (fuel : Nat) (last id : Int)
    (h : nextFreeId keys fuel last = some id) : id ∉ keys := by
  induction fuel generalizing last with
  | zero => simp [nextFreeId] at h
  | succ n ih =>
    simp only [nextFreeId] at h
    split at h
    · exact ih _ h
    · cases h; assumption

theorem nextFreeId_of_not_mem (keys : List Int) (fuel : Nat) (last : Int)
    (h : incrInt last ∉ keys) : nextFreeId keys (fuel + 1) last = some (incrInt last) := by
  simp [nextFreeId, h]

theorem nextFreeId_none (keys : List Int) (fuel : Nat) (last : Int)
    (h : nextFreeId keys fuel last = none) (k : Nat) (h1 : 1 ≤ k) (h2 : k ≤ fuel) :
    (last + k + 2147483648) % 4294967296 - 2147483648 ∈ keys := by
  induction fuel generalizing last k with
  | zero => omega
  | succ n ih =>
    simp only [nextFreeId] at h
    split at h
    · rename_i hmem
      rcases Nat.eq_or_lt_of_le h1 with h1' | h1'
      · subst h1'
        simpa [incrInt] using hmem
      · have := ih (incrInt last) h (k - 1) (by omega) (by omega)
        have e : (incrInt last + ((k - 1 : Nat) : Int) + 2147483648) % 4294967296 - 2147483648
            = (last + k + 2147483648) % 4294967296 - 2147483648 := by
          unfold incrInt
          omega
        rwa [e] at this
    · cases h

theorem nextFreeId_isSome (keys : List Int) (last : Int) (h : keys.length < 4294967296) :
    ∃ id, nextFreeId keys (keys.length + 1) last = some id := by
  cases hn : nextFreeId keys (keys.length + 1) last with
  | some id => exact ⟨id, rfl⟩
  | none =>
    exfalso
    have hall := nextFreeId_none keys _ last hn
    let f : Nat → Int := fun k => (last + k + 2147483648) % 4294967296 - 2147483648
    have hsub : (Finset.Icc 1 (keys.length + 1)).image f ⊆ keys.toFinset := by
      intro x hx
      simp only [Finset.mem_image, Finset.mem_Icc] at hx
      obtain ⟨k, ⟨hk1, hk2⟩, rfl⟩ := hx
      simpa using hall k hk1 hk2
    have hinj : Set.InjOn f (Finset.Icc 1 (keys.length + 1)) := by
      intro a ha b hb hab
      simp only [Finset.coe_Icc, Set.mem_Icc] at ha hb
      simp only [f] at hab
      omega
    have hcard := Finset.card_le_card hsub
    rw [Finset.card_image_of_injOn hinj] at hcard
    have := List.toFinset_card_le keys
    simp at hcard
    omega

theorem incrInt_eq (x : Int) (h1 : -2147483648 ≤ x) (h2 : x < 2147483647) :
    incrInt x = x + 1 := by
  unfold incrInt
  omega

theorem length_hashKeys (m : List (Int × pkcs11KeyStoreItem)) :
    (hashKeys m).length = m.length := by
  simp [hashKeys]

theorem registerTokenId_found {Certificate : Type} (env : Env Certificate) (r : Registry)
    (t : pkcs11h_token_id) (e : pkcs11KeyStoreItem)
    (h : r._stores.find? (fun i => env.sameTokenId t i.token_id) = some e) :
    registerTokenId env r t = some (e, r) := by
  simp [registerTokenId, h]

theorem registerTokenId_new {Certificate : Type} (env : Env Certificate) (r : Registry)
    (t : pkcs11h_token_id) (id : Int)
    (h : r._stores.find? (fun i => env.sameTokenId t i.token_id) = none)
    (hid : nextFreeId (hashKeys r._storesById) (r._storesById.length + 1) r._last_id = some id) :
    registerTokenId env r t
      = some (⟨id, t⟩, ⟨id, r._stores ++ [⟨id, t⟩], r._storesById ++ [(id, ⟨id, t⟩)]⟩) := by
  have hn := nextFreeId_not_mem _ _ _ _ hid
  simp [registerTokenId, h, hid, hashInsert, hn]

/-- The two ways `registerTokenId` returns. -/
theorem registerTokenId_cases {Certificate : Type} (env : Env Certificate) (r r1 : Registry)
    (t : pkcs11h_token_id) (e : pkcs11KeyStoreItem)
    (h : registerTokenId env r t = some (e, r1)) :
    (r._stores.find? (fun i => env.sameTokenId t i.token_id) = some e ∧ r1 = r) ∨
    (r._stores.find? (fun i => env.sameTokenId t i.token_id) = none ∧ e.token_id = t ∧
      nextFreeId (hashKeys r._storesById) (r._storesById.length + 1) r._last_id = some e.id ∧
      r1 = ⟨e.id, r._stores ++ [e], r._storesById ++ [(e.id, e)]⟩) := by
  cases hf : r._stores.find? (fun i => env.sameTokenId t i.token_id) with
  | some e0 =>
    rw [registerTokenId_found env r t e0 hf] at h
    simp only [Option.some.injEq, Prod.mk.injEq] at h
    exact Or.inl ⟨by rw [h.1], h.2.symm⟩
  | none =>
    obtain ⟨id, hid⟩ : ∃ id, nextFreeId (hashKeys r._storesById) (r._storesById.length + 1)
        r._last_id = some id := by
      cases hn : nextFreeId (hashKeys r._storesById) (r._storesById.length + 1) r._last_id with
      | some id => exact ⟨id, rfl⟩
      | none => simp [registerTokenId, hf, hn] at h
    rw [registerTokenId_new env r t id hf hid] at h
    simp only [Option.some.injEq, Prod.mk.injEq] at h
    obtain ⟨he, hr⟩ := h
    subst he
    exact Or.inr ⟨rfl, rfl, hid, hr.symm⟩

theorem registerTokenId_total {Certificate : Type} (env : Env Certificate) (r : Registry)
    (t : pkcs11h_token_id) (hsize : r._storesById.length < 4294967296) :
    ∃ e r1, registerTokenId env r t = some (e, r1) := by
  cases hf : r._stores.find? (fun i => env.sameTokenId t i.token_id) with
  | some e0 => exact ⟨e0, r, registerTokenId_found env r t e0 hf⟩
  | none =>
    obtain ⟨id, hid⟩ := nextFreeId_isSome (hashKeys r._storesById) r._last_id
      (by rw [length_hashKeys]; exact hsize)
    rw [length_hashKeys] at hid
    exact ⟨_, _, registerTokenId_new env r t id hf hid⟩

/-- C6: in every registry state, with `sameTokenId` reflexive, when `registerTokenId (t)`
returns, a second call right after it returns the same entry (hence the same id) and
leaves the entry list, the id map and `_last_id` as the first call left them; and the
first call does return when the id map does not hold every `int`. -/
theorem C6_register_twice {Certificate : Type} (env : Env Certificate) (r : Registry)
    (t : pkcs11h_token_id) (hrefl : ∀ a, env.sameTokenId a a = true) :
    (r._storesById.length < 4294967296 → ∃ e r1, registerTokenId env r t = some (e, r1)) ∧
      ∀ e r1, registerTokenId env r t = some (e, r1) →
        registerTokenId env r1 t = some (e, r1) := by
  refine ⟨registerTokenId_total env r t, ?_⟩
  intro e r1 h
  rcases registerTokenId_cases env r r1 t e h with ⟨hf, hr⟩ | ⟨hf, ht, _, hr⟩
  · subst hr
    exact h
  · subst hr
    apply registerTokenId_found
    have hnone : ∀ x ∈ r._stores, ¬ (env.sameTokenId t x.token_id = true) := by
      simpa [List.find?_eq_none] using hf
    rw [List.find?_append, hf]
    simp [ht, hrefl]

/-- C6 in the reference environment, on a registry that holds another token: both calls
return the entry with id `2`. -/
theorem C6_witness :
    (∃ e r1, registerTokenId referenceEnv
        ⟨1, [⟨1, ⟨[], [], [], []⟩⟩], [(1, ⟨1, ⟨[], [], [], []⟩⟩)]⟩ referenceToken
          = some (e, r1)) ∧
      registerTokenId referenceEnv
        ⟨2, [⟨1, ⟨[], [], [], []⟩⟩, ⟨2, referenceToken⟩],
          [(1, ⟨1, ⟨[], [], [], []⟩⟩), (2, ⟨2, referenceToken⟩)]⟩ referenceToken
        = some (⟨2, referenceToken⟩,
            ⟨2, [⟨1, ⟨[], [], [], []⟩⟩, ⟨2, referenceToken⟩],
              [(1, ⟨1, ⟨[], [], [], []⟩⟩), (2, ⟨2, referenceToken⟩)]⟩) :=
  ⟨(C6_register_twice referenceEnv
      ⟨1, [⟨1, ⟨[], [], [], []⟩⟩], [(1, ⟨1, ⟨[], [], [], []⟩⟩)]⟩ referenceToken
      referenceEnv_refl).1 (by decide),
    (C6_register_twice referenceEnv
      ⟨1, [⟨1, ⟨[], [], [], []⟩⟩], [(1, ⟨1, ⟨[], [], [], []⟩⟩)]⟩ referenceToken
      referenceEnv_refl).2 _ _ (by decide)⟩

theorem coherent_register {Certificate : Type} (env : Env Certificate) (r r1 : Registry)
    (t : pkcs11h_token_id) (e : pkcs11KeyStoreItem) (hc : r.Coherent)
    (h : registerTokenId env r t = some (e, r1)) : r1.Coherent := by
  rcases registerTokenId_cases env r r1 t e h with ⟨_, hr⟩ | ⟨_, _, hid, hr⟩
  · subst hr; exact hc
  · subst hr
    have hn := nextFreeId_not_mem _ _ _ _ hid
    obtain ⟨hm, hnd⟩ := hc
    refine ⟨by simp [hm], ?_⟩
    have hn2 : e.id ∉ r._stores.map (fun e => e.id) := by
      simpa [hashKeys, hm, Function.comp_def] using hn
    simp only [List.map_append, List.map_cons, List.map_nil]
    rw [List.nodup_append]
    refine ⟨hnd, by simp, ?_⟩
    intro a ha hb
    simp only [List.mem_singleton] at hb
    subst hb
    exact hn2 ha

theorem tokens_register {Certificate : Type} (env : Env Certificate) (r r1 : Registry)
    (t : pkcs11h_token_id) (e : pkcs11KeyStoreItem) (hc : r.TokensDistinct env)
    (h : registerTokenId env r t = some (e, r1)) : r1.TokensDistinct env := by
  rcases registerTokenId_cases env r r1 t e h with ⟨_, hr⟩ | ⟨hf, ht, _, hr⟩
  · subst hr; exact hc
  · subst hr
    show List.Pairwise _ (r._stores ++ [e])
    rw [List.pairwise_append]
    refine ⟨hc, by simp, ?_⟩
    intro a ha b hb
    simp only [List.mem_singleton] at hb
    subst hb
    have hnone : ∀ x ∈ r._stores, ¬ (env.sameTokenId t x.token_id = true) := by
      simpa [List.find?_eq_none] using hf
    rw [ht]
    simpa using hnone a ha

theorem registerLoop_preserves {Certificate : Type} (env : Env Certificate)
    (P : Registry → Prop)
    (hP : ∀ r t e r1, P r → registerTokenId env r t = some (e, r1) → P r1)
    (ts : List pkcs11h_token_id) (r r1 : Registry) (out rem out1 rem1 : List Int) (h0 : P r)
    (h : registerLoop env r ts out rem = some (r1, out1, rem1)) : P r1 := by
  induction ts generalizing r out rem with
  | nil =>
    simp only [registerLoop, Option.some.injEq, Prod.mk.injEq] at h
    rw [← h.1]; exact h0
  | cons t ts ih =>
    simp only [registerLoop] at h
    cases hreg : registerTokenId env r t with
    | none => simp [hreg] at h
    | some p =>
      obtain ⟨e, r'⟩ := p
      simp only [hreg] at h
      exact ih r' _ _ (hP r t e r' h0 hreg) h

theorem hashFind_coherent (stores : List pkcs11KeyStoreItem) (i : Int) :
    hashFind (stores.map (fun e => (e.id, e))) i = stores.find? (fun e => e.id = i) := by
  have h1 : (Prod.snd ∘ fun e : pkcs11KeyStoreItem => (e.id, e)) = id := rfl
  have h2 : ((fun p : Int × pkcs11KeyStoreItem => decide (p.1 = i)) ∘ fun e => (e.id, e))
      = fun e => decide (e.id = i) := rfl
  unfold hashFind
  rw [List.find?_map, Option.map_map, h1, h2]
  simp

theorem removeLoop_step (r : Registry) (item : pkcs11KeyStoreItem) (hc : r.Coherent)
    (hmem : item ∈ r._stores) :
    ({ r with
        _storesById := hashRemove r._storesById item.id
        _stores := r._stores.filter (fun e => e ≠ item) } : Registry)
      = ⟨r._last_id, r._stores.filter (fun e => e.id ≠ item.id),
          (r._stores.filter (fun e => e.id ≠ item.id)).map (fun e => (e.id, e))⟩ := by
  obtain ⟨hm, hnd⟩ := hc
  have hinj := List.inj_on_of_nodup_map hnd
  have hf : r._stores.filter (fun e => e ≠ item) = r._stores.filter (fun e => e.id ≠ item.id) := by
    apply List.filter_congr
    intro x hx
    by_cases hxi : x = item
    · simp [hxi]
    · have : x.id ≠ item.id := fun h => hxi (hinj hx hmem h)
      simp [hxi, this]
  have hmp : hashRemove r._storesById item.id
      = (r._stores.filter (fun e => e.id ≠ item.id)).map (fun e => (e.id, e)) := by
    rw [hm, hashRemove, List.filter_map]
    rfl
  rw [hf, hmp]

theorem coherent_filter (r : Registry) (p : pkcs11KeyStoreItem → Bool) (hc : r.Coherent) :
    Registry.Coherent ⟨r._last_id, r._stores.filter p,
      (r._stores.filter p).map (fun e => (e.id, e))⟩ :=
  ⟨rfl, hc.2.sublist ((List.filter_sublist _).map _)⟩

theorem removeLoop_spec (rem : List Int) (r r2 : Registry) (hc : r.Coherent)
    (h : removeLoop r rem = some r2) :
    r2._stores = r._stores.filter (fun e => e.id ∉ rem) ∧ r2.Coherent ∧
      r2._last_id = r._last_id := by
  induction rem generalizing r with
  | nil =>
    simp only [removeLoop, Option.some.injEq] at h
    subst h
    exact ⟨by simp, hc, rfl⟩
  | cons i rest ih =>
    simp only [removeLoop] at h
    cases hfind : hashFind r._storesById i with
    | none => simp [hfind] at h
    | some item =>
      simp only [hfind] at h
      have hfind2 := hfind
      rw [hc.1, hashFind_coherent] at hfind2
      have hmem : item ∈ r._stores := List.mem_of_find?_eq_some hfind2
      have hid : item.id = i := by simpa using List.find?_some hfind2
      rw [removeLoop_step r item hc hmem] at h
      obtain ⟨h1, h2, h3⟩ := ih _ (coherent_filter r _ hc) h
      refine ⟨?_, h2, h3⟩
      rw [h1, List.filter_filter]
      apply List.filter_congr
      intro x _
      simp [hid, Bool.and_comm]

theorem removeLoop_total (rem : List Int) (r : Registry) (hc : r.Coherent)
    (hmem : ∀ i ∈ rem, i ∈ r._stores.map (fun e => e.id)) (hnd : rem.Nodup) :
    ∃ r2, removeLoop r rem = some r2 := by
  induction rem generalizing r with
  | nil => exact ⟨r, rfl⟩
  | cons i rest ih =>
    obtain ⟨item, hitem, hid⟩ : ∃ item ∈ r._stores, item.id = i := by
      simpa using hmem i (by simp)
    obtain ⟨item2, hfind⟩ : ∃ item2, r._stores.find? (fun e => e.id = i) = some item2 := by
      cases hf : r._stores.find? (fun e => e.id = i) with
      | some x => exact ⟨x, rfl⟩
      | none =>
        rw [List.find?_eq_none] at hf
        exact absurd (by simpa using hid) (hf item hitem)
    have hmem2 : item2 ∈ r._stores := List.mem_of_find?_eq_some hfind
    have hid2 : item2.id = i := by simpa using List.find?_some hfind
    have hfind3 : hashFind r._storesById i = some item2 := by
      rw [hc.1, hashFind_coherent]; exact hfind
    simp only [removeLoop, hfind3]
    rw [removeLoop_step r item2 hc hmem2]
    apply ih _ (coherent_filter r _ hc)
    · intro j hj
      have hji : j ≠ i := fun e => (List.nodup_cons.mp hnd).1 (e ▸ hj)
      obtain ⟨x, hx, hxj⟩ : ∃ x ∈ r._stores, x.id = j := by
        simpa using hmem j (List.mem_cons_of_mem _ hj)
      simp only [List.mem_map, List.mem_filter]
      exact ⟨x, ⟨hx, by simp [hxj, hid2, hji]⟩, hxj⟩
    · exact (List.nodup_cons.mp hnd).2

/-- The two ways `keyStores` returns. -/
theorem keyStores_cases {Certificate : Type} (env : Env Certificate) (r : Registry)
    (enum : CK_RV × List pkcs11h_token_id) (res : KeyStores)
    (h : keyStores env r enum = some res) :
    (enum.1 ≠ CKR_OK ∧ res.registry = r ∧ res.out = []) ∨
    (enum.1 = CKR_OK ∧ ∃ r1 rem,
      registerLoop env r enum.2 [] (hashKeys r._storesById) = some (r1, res.out, rem) ∧
      removeLoop r1 rem = some res.registry ∧ res.diagnostics = []) := by
  by_cases hrv : enum.1 = CKR_OK
  · right
    refine ⟨hrv, ?_⟩
    simp only [keyStores, hrv, ne_eq, not_true_eq_false, if_false] at h
    cases hl : registerLoop env r enum.2 [] (hashKeys r._storesById) with
    | none => simp [hl] at h
    | some p =>
      obtain ⟨r1, out, rem⟩ := p
      simp only [hl] at h
      cases hrm : removeLoop r1 rem with
      | none => simp [hrm] at h
      | some r2 =>
        simp only [hrm, Option.some.injEq] at h
        subst h
        exact ⟨r1, rem, rfl, hrm, rfl⟩
  · left
    simp only [keyStores, ne_eq, hrv, not_false_eq_true, if_true, Option.some.injEq] at h
    subst h
    exact ⟨hrv, rfl, rfl⟩

theorem reachable_coherent {Certificate : Type} (env : Env Certificate) (r : Registry)
    (h : Reachable env r) : r.Coherent ∧ r.TokensDistinct env := by
  induction h with
  | initial => exact ⟨⟨rfl, List.nodup_nil⟩, List.Pairwise.nil⟩
  | registerTokenId _ hreg ih =>
    exact ⟨coherent_register env _ _ _ _ ih.1 hreg, tokens_register env _ _ _ _ ih.2 hreg⟩
  | @keyStores r enum res _ hks ih =>
    rcases keyStores_cases env r enum res hks with ⟨_, hr, _⟩ | ⟨_, r1, rem, hl, hrm, _⟩
    · rw [hr]; exact ih
    · have hc1 : r1.Coherent :=
        registerLoop_preserves env Registry.Coherent
          (fun r t e r1 hP hreg => coherent_register env r r1 t e hP hreg) _ _ _ _ _ _ _ ih.1 hl
      have ht1 : r1.TokensDistinct env :=
        registerLoop_preserves env (Registry.TokensDistinct env)
          (fun r t e r1 hP hreg => tokens_register env r r1 t e hP hreg) _ _ _ _ _ _ _ ih.2 hl
      obtain ⟨hs, hc2, _⟩ := removeLoop_spec rem r1 res.registry hc1 hrm
      refine ⟨hc2, ?_⟩
      show List.Pairwise _ res.registry._stores
      rw [hs]
      exact List.Pairwise.sublist (List.filter_sublist _) ht1
  | clearStores _ _ => exact ⟨⟨rfl, List.nodup_nil⟩, List.Pairwise.nil⟩

theorem registerTokenId_mem {Certificate : Type} (env : Env Certificate) (r r1 : Registry)
    (t : pkcs11h_token_id) (e : pkcs11KeyStoreItem)
    (h : registerTokenId env r t = some (e, r1)) :
    e ∈ r1._stores ∧ (env.sameTokenId t e.token_id = true ∨ e.token_id = t) := by
  rcases registerTokenId_cases env r r1 t e h with ⟨hf, hr⟩ | ⟨_, ht, _, hr⟩
  · subst hr
    exact ⟨List.mem_of_find?_eq_some hf, Or.inl (by simpa using List.find?_some hf)⟩
  · subst hr
    exact ⟨by simp, Or.inr ht⟩

/-- C7: with `sameTokenId` symmetric and transitive, in every registry reached from the
one of the constructor by `registerTokenId`, `keyStores` and `clearStores` the entries have
pairwise distinct ids, the keys of the id map are the ids of the entry list, and no two
entries hold tokens that compare equal; and two successive registrations of tokens that do
not compare equal return entries with distinct ids. -/
theorem C7_registry_invariants {Certificate : Type} (env : Env Certificate)
    (hsymm : ∀ a b, env.sameTokenId a b = env.sameTokenId b a)
    (htrans : ∀ a b c, env.sameTokenId a b = true → env.sameTokenId b c = true →
      env.sameTokenId a c = true)
    (r : Registry) (h : Reachable env r) :
    (r._stores.map (fun e => e.id)).Nodup ∧
      (∀ k, k ∈ hashKeys r._storesById ↔ k ∈ r._stores.map (fun e => e.id)) ∧
      r._stores.Pairwise (fun a b => env.sameTokenId a.token_id b.token_id = false) ∧
      (∀ t1 t2 e1 r1 e2 r2, registerTokenId env r t1 = some (e1, r1) →
        registerTokenId env r1 t2 = some (e2, r2) → env.sameTokenId t1 t2 = false →
        e1.id ≠ e2.id) := by
  obtain ⟨hc, ht⟩ := reachable_coherent env r h
  refine ⟨hc.2, ?_, ?_, ?_⟩
  · intro k
    simp [hashKeys, hc.1, Function.comp_def]
  · exact List.Pairwise.imp (fun {a b} hab => by rw [hsymm]; exact hab) ht
  · intro t1 t2 e1 r1 e2 r2 h1 h2 hne heq
    have hc1 := coherent_register env r r1 t1 e1 hc h1
    obtain ⟨hm1, hs1⟩ := registerTokenId_mem env r r1 t1 e1 h1
    have hcontra : env.sameTokenId t2 e1.token_id = true → False := by
      intro h21
      rcases hs1 with hs1 | hs1
      · have := htrans t1 e1.token_id t2 hs1 (by rw [hsymm]; exact h21)
        rw [hne] at this
        cases this
      · rw [hs1, hsymm, hne] at h21
        cases h21
    rcases registerTokenId_cases env r1 r2 t2 e2 h2 with ⟨hf, _⟩ | ⟨_, _, hid, _⟩
    · have hm2 : e2 ∈ r1._stores := List.mem_of_find?_eq_some hf
      have hs2 : env.sameTokenId t2 e2.token_id = true := by simpa using List.find?_some hf
      have : e1 = e2 := List.inj_on_of_nodup_map hc1.2 hm1 hm2 heq
      subst this
      exact hcontra hs2
    · have hn := nextFreeId_not_mem _ _ _ _ hid
      apply hn
      rw [← heq, hc1.1]
      simp only [hashKeys, List.map_map, List.mem_map, Function.comp_apply]
      exact ⟨e1, hm1, rfl⟩

/-- C7 in the reference environment, on the registry reached by registering the reference
token, for the key `1` and for the registration of the reference token and of another. -/
theorem C7_witness :
    ([(⟨1, referenceToken⟩ : pkcs11KeyStoreItem)].map (fun e => e.id)).Nodup ∧
      ((1 : Int) ∈ hashKeys [(1, (⟨1, referenceToken⟩ : pkcs11KeyStoreItem))]
        ↔ (1 : Int) ∈ [(⟨1, referenceToken⟩ : pkcs11KeyStoreItem)].map (fun e => e.id)) ∧
      [(⟨1, referenceToken⟩ : pkcs11KeyStoreItem)].Pairwise
        (fun a b => referenceEnv.sameTokenId a.token_id b.token_id = false) ∧
      (1 : Int) ≠ 2 :=
  have hreach : Reachable referenceEnv ⟨1, [⟨1, referenceToken⟩], [(1, ⟨1, referenceToken⟩)]⟩ :=
    Reachable.registerTokenId (t := referenceToken) (e := ⟨1, referenceToken⟩)
      Reachable.initial (by decide)
  have hC := C7_registry_invariants referenceEnv
    referenceEnv_symm referenceEnv_trans
    _ hreach
  ⟨hC.1, hC.2.1 1, hC.2.2.1,
    hC.2.2.2 referenceToken ⟨[], [], [], []⟩ ⟨1, referenceToken⟩
      ⟨1, [⟨1, referenceToken⟩], [(1, ⟨1, referenceToken⟩)]⟩ ⟨2, ⟨[], [], [], []⟩⟩
      ⟨2, [⟨1, referenceToken⟩, ⟨2, ⟨[], [], [], []⟩⟩],
        [(1, ⟨1, referenceToken⟩), (2, ⟨2, ⟨[], [], [], []⟩⟩)]⟩
      (by decide) (by decide) (by decide)⟩

theorem createdIds_append (r r1 : Registry) (news : List pkcs11KeyStoreItem)
    (h : r1._stores = r._stores ++ news) : createdIds r r1 = news.map (fun e => e.id) := by
  simp [createdIds, h]

theorem hashKeys_coherent (r : Registry) (hc : r.Coherent) :
    hashKeys r._storesById = r._stores.map (fun e => e.id) := by
  rw [hc.1]
  simp [hashKeys, Function.comp_def]

/-- One registration without overflow while every id in use is at most `_last_id`: a new
entry gets `_last_id + 1`. -/
theorem registerTokenId_below {Certificate : Type} (env : Env Certificate) (r : Registry)
    (t : pkcs11h_token_id) (hc : r.Coherent) (hb : ∀ e ∈ r._stores, e.id ≤ r._last_id)
    (h0 : 0 ≤ r._last_id) (hmax : r._last_id ≤ 2147483647)
    (hno : registerTokenIdOverflows env r t = false) :
    ∃ e r1 news, registerTokenId env r t = some (e, r1) ∧
      r1._stores = r._stores ++ news ∧
      (∀ x ∈ r1._stores, x.id ≤ r1._last_id) ∧
      r._last_id ≤ r1._last_id ∧ r1._last_id ≤ 2147483647 ∧
      (news.map (fun e => e.id)).Pairwise (· < ·) ∧
      (∀ x ∈ news, r._last_id < x.id) := by
  cases hf : r._stores.find? (fun i => env.sameTokenId t i.token_id) with
  | some e0 =>
    exact ⟨e0, r, [], registerTokenId_found env r t e0 hf, by simp, hb, le_refl _, hmax,
      by simp, by simp⟩
  | none =>
    have hlt : r._last_id < 2147483647 := by
      simp only [registerTokenIdOverflows, hf, nextFreeIdOverflows, Bool.or_eq_false_iff,
        beq_eq_false_iff_ne, ne_eq] at hno
      have := hno.1
      omega
    have hinc : incrInt r._last_id = r._last_id + 1 := incrInt_eq _ (by omega) hlt
    have hnot : incrInt r._last_id ∉ hashKeys r._storesById := by
      rw [hinc, hashKeys_coherent r hc]
      simp only [List.mem_map, not_exists, not_and]
      intro x hx hxe
      have := hb x hx
      omega
    have hid := nextFreeId_of_not_mem _ r._storesById.length _ hnot
    rw [hinc] at hid
    refine ⟨_, _, [⟨r._last_id + 1, t⟩], registerTokenId_new env r t _ hf hid, rfl, ?_,
      by simp, by show r._last_id + 1 ≤ 2147483647; omega, by simp, by simp⟩
    intro x hx
    simp only [List.mem_append, List.mem_singleton] at hx
    rcases hx with hx | hx
    · have := hb x hx
      show x.id ≤ r._last_id + 1
      omega
    · subst hx
      exact le_refl _

/-- How the first loop of `keyStores` leaves `out` and `to_remove`. -/
theorem registerLoop_lists {Certificate : Type} (env : Env Certificate)
    (ts : List pkcs11h_token_id) (r r1 : Registry) (out rem out1 rem1 : List Int)
    (h : registerLoop env r ts out rem = some (r1, out1, rem1)) :
    ∃ outs, out1 = out ++ outs ∧ rem1 = rem.filter (fun i => i ∉ outs) := by
  induction ts generalizing r out rem with
  | nil =>
    simp only [registerLoop, Option.some.injEq, Prod.mk.injEq] at h
    exact ⟨[], by simp [h.2.1], by simp [h.2.2]⟩
  | cons t ts ih =>
    simp only [registerLoop] at h
    cases hreg : registerTokenId env r t with
    | none => simp [hreg] at h
    | some p =>
      obtain ⟨e, r'⟩ := p
      simp only [hreg] at h
      obtain ⟨outs, ho, hr⟩ := ih r' _ _ h
      refine ⟨e.id :: outs, by simp [ho], ?_⟩
      rw [hr, List.filter_filter]
      apply List.filter_congr
      intro x _
      simp [Bool.and_comm]

/-- The first loop of `keyStores` without overflow. -/
theorem registerLoop_below {Certificate : Type} (env : Env Certificate)
    (ts : List pkcs11h_token_id) (r : Registry) (out rem : List Int) (hc : r.Coherent)
    (hb : ∀ e ∈ r._stores, e.id ≤ r._last_id) (h0 : 0 ≤ r._last_id)
    (hmax : r._last_id ≤ 2147483647) (hno : registerLoopOverflows env r ts = false) :
    ∃ r1 out1 rem1 news, registerLoop env r ts out rem = some (r1, out1, rem1) ∧
      r1.Coherent ∧ r1._stores = r._stores ++ news ∧
      (∀ x ∈ r1._stores, x.id ≤ r1._last_id) ∧
      r._last_id ≤ r1._last_id ∧ r1._last_id ≤ 2147483647 ∧
      (news.map (fun e => e.id)).Pairwise (· < ·) ∧
      (∀ x ∈ news, r._last_id < x.id) := by
  induction ts generalizing r out rem with
  | nil => exact ⟨r, out, rem, [], rfl, hc, by simp, hb, le_refl _, hmax, by simp, by simp⟩
  | cons t ts ih =>
    simp only [registerLoopOverflows, Bool.or_eq_false_iff] at hno
    obtain ⟨e, r', n1, hreg, hs1, hb1, hl1, hu1, hp1, hn1⟩ :=
      registerTokenId_below env r t hc hb h0 hmax hno.1
    have hno2 : registerLoopOverflows env r' ts = false := by
      have := hno.2
      simpa only [hreg] using this
    have hc1 := coherent_register env r r' t e hc hreg
    obtain ⟨r1, out1, rem1, n2, hloop, hc2, hs2, hb2, hl2, hu2, hp2, hn2⟩ :=
      ih r' (out ++ [e.id]) (rem.filter (fun i => i ≠ e.id)) hc1 hb1 (by omega) hu1 hno2
    refine ⟨r1, out1, rem1, n1 ++ n2, by simp only [registerLoop, hreg]; exact hloop, hc2,
      by rw [hs2, hs1, List.append_assoc], hb2, by omega, hu2, ?_, ?_⟩
    · rw [List.map_append, List.pairwise_append]
      refine ⟨hp1, hp2, ?_⟩
      intro a ha b hb'
      simp only [List.mem_map] at ha hb'
      obtain ⟨x, hx, rfl⟩ := ha
      obtain ⟨y, hy, rfl⟩ := hb'
      have h1 := hb1 x (by rw [hs1]; simp [hx])
      have h2 := hn2 y hy
      show x.id < y.id
      omega
    · intro x hx
      simp only [List.mem_append] at hx
      rcases hx with hx | hx
      · exact hn1 x hx
      · have := hn2 x hx
        omega

/-- A successful enumeration without overflow: `keyStores` returns, and the entries it
creates get increasing ids above the former `_last_id`. -/
theorem keyStores_below {Certificate : Type} (env : Env Certificate) (r : Registry)
    (tokens : List pkcs11h_token_id) (hc : r.Coherent)
    (hb : ∀ e ∈ r._stores, e.id ≤ r._last_id) (h0 : 0 ≤ r._last_id)
    (hmax : r._last_id ≤ 2147483647) (hno : registerLoopOverflows env r tokens = false) :
    ∃ res r1 out1 rem1, keyStores env r (CKR_OK, tokens) = some res ∧
      registerLoop env r tokens [] (hashKeys r._storesById) = some (r1, out1, rem1) ∧
      res.registry.Coherent ∧ (∀ x ∈ res.registry._stores, x.id ≤ res.registry._last_id) ∧
      r._last_id ≤ res.registry._last_id ∧ res.registry._last_id ≤ 2147483647 ∧
      (createdIds r r1).Pairwise (· < ·) ∧
      (∀ i ∈ createdIds r r1, r._last_id < i ∧ i ≤ res.registry._last_id) ∧
      (∀ x ∈ res.registry._stores,
        x.id ∈ r._stores.map (fun e => e.id) ∨ x.id ∈ createdIds r r1) := by
  obtain ⟨r1, out1, rem1, news, hloop, hc1, hs1, hb1, hl1, hu1, hp1, hn1⟩ :=
    registerLoop_below env tokens r [] (hashKeys r._storesById) hc hb h0 hmax hno
  obtain ⟨outs, _, hrem⟩ := registerLoop_lists env tokens r r1 _ _ _ _ hloop
  have hkeys := hashKeys_coherent r hc
  have hnd : rem1.Nodup := by
    rw [hrem, hkeys]
    exact hc.2.sublist (List.filter_sublist _)
  have hmem : ∀ i ∈ rem1, i ∈ r1._stores.map (fun e => e.id) := by
    intro i hi
    rw [hrem, hkeys] at hi
    have := (List.mem_filter.mp hi).1
    rw [hs1, List.map_append]
    exact List.mem_append_left _ this
  obtain ⟨r2, hrm⟩ := removeLoop_total rem1 r1 hc1 hmem hnd
  obtain ⟨hs2, hc2, hl2⟩ := removeLoop_spec rem1 r1 r2 hc1 hrm
  have hcr := createdIds_append r r1 news hs1
  have hsub : ∀ x ∈ r2._stores, x ∈ r1._stores := by
    intro x hx
    rw [hs2] at hx
    exact (List.mem_filter.mp hx).1
  refine ⟨⟨out1, r2, []⟩, r1, out1, rem1, by simp [keyStores, CKR_OK, hloop, hrm], hloop, hc2,
    ?_, by show _ ≤ r2._last_id; omega, by show r2._last_id ≤ _; omega, by rw [hcr]; exact hp1,
    ?_, ?_⟩
  · intro x hx
    show x.id ≤ r2._last_id
    rw [hl2]
    exact hb1 x (hsub x hx)
  · intro i hi
    rw [hcr] at hi
    simp only [List.mem_map] at hi
    obtain ⟨x, hx, rfl⟩ := hi
    refine ⟨hn1 x hx, ?_⟩
    show x.id ≤ r2._last_id
    rw [hl2]
    exact hb1 x (by rw [hs1]; simp [hx])
  · intro x hx
    have := hsub x hx
    rw [hs1, List.mem_append] at this
    rw [hcr]
    rcases this with h | h
    · exact Or.inl (List.mem_map_of_mem _ h)
    · exact Or.inr (List.mem_map_of_mem _ h)

/-- A sequence of operations without overflow. -/
theorem runOps_below {Certificate : Type} (env : Env Certificate) (ops : List RegistryOp)
    (r : Registry) (hc : r.Coherent) (hb : ∀ e ∈ r._stores, e.id ≤ r._last_id)
    (h0 : 0 ≤ r._last_id) (hmax : r._last_id ≤ 2147483647)
    (hno : runOverflows env r ops = false) :
    ∃ r2 log, runOps env r ops = some (r2, log) ∧ log.Pairwise (· < ·) ∧
      (∀ i ∈ log, r._last_id < i) ∧
      (∀ x ∈ r2._stores, x.id ∈ r._stores.map (fun e => e.id) ∨ x.id ∈ log) := by
  induction ops generalizing r with
  | nil =>
    refine ⟨r, [], rfl, by simp, by simp, ?_⟩
    intro x hx
    exact Or.inl (List.mem_map_of_mem _ hx)
  | cons op ops ih =>
    cases op with
    | registerTokenId t =>
      simp only [runOverflows, Bool.or_eq_false_iff] at hno
      obtain ⟨e, r1, news, hreg, hs1, hb1, hl1, hu1, hp1, hn1⟩ :=
        registerTokenId_below env r t hc hb h0 hmax hno.1
      have hno2 : runOverflows env r1 ops = false := by
        have := hno.2
        simpa only [hreg] using this
      have hc1 := coherent_register env r r1 t e hc hreg
      obtain ⟨r2, log, hrun, hpw, hgt, hin⟩ := ih r1 hc1 hb1 (by omega) hu1 hno2
      have hcr := createdIds_append r r1 news hs1
      refine ⟨r2, createdIds r r1 ++ log, by simp [runOps, hreg, hrun], ?_, ?_, ?_⟩
      · rw [List.pairwise_append]
        refine ⟨by rw [hcr]; exact hp1, hpw, ?_⟩
        intro a ha b hb'
        rw [hcr, List.mem_map] at ha
        obtain ⟨x, hx, rfl⟩ := ha
        have h1 := hb1 x (by rw [hs1]; simp [hx])
        have h2 := hgt b hb'
        show x.id < b
        omega
      · intro i hi
        rw [List.mem_append] at hi
        rcases hi with hi | hi
        · rw [hcr, List.mem_map] at hi
          obtain ⟨x, hx, rfl⟩ := hi
          exact hn1 x hx
        · have := hgt i hi
          omega
      · intro x hx
        rcases hin x hx with h | h
        · rw [hs1, List.map_append, List.mem_append] at h
          rcases h with h | h
          · exact Or.inl h
          · exact Or.inr (List.mem_append_left _ (by rw [hcr]; exact h))
        · exact Or.inr (List.mem_append_right _ h)
    | keyStores enum =>
      obtain ⟨rv, tokens⟩ := enum
      simp only [runOverflows, Bool.or_eq_false_iff] at hno
      by_cases hrv : rv = CKR_OK
      · subst hrv
        have hno1 : registerLoopOverflows env r tokens = false := by
          simpa using hno.1
        obtain ⟨res, r1, out1, rem1, hks, hloop, hc2, hb2, hl2, hu2, hp, hcb, hsub⟩ :=
          keyStores_below env r tokens hc hb h0 hmax hno1
        have hno2 : runOverflows env res.registry ops = false := by
          have := hno.2
          simpa only [hks] using this
        obtain ⟨r2, log, hrun, hpw, hgt, hin⟩ := ih res.registry hc2 hb2 (by omega) hu2 hno2
        refine ⟨r2, createdIds r r1 ++ log, by simp [runOps, hks, hloop, hrun], ?_, ?_, ?_⟩
        · rw [List.pairwise_append]
          refine ⟨hp, hpw, ?_⟩
          intro a ha b hb'
          have h1 := (hcb a ha).2
          have h2 := hgt b hb'
          show a < b
          omega
        · intro i hi
          rw [List.mem_append] at hi
          rcases hi with hi | hi
          · exact (hcb i hi).1
          · have := hgt i hi
            omega
        · intro x hx
          rcases hin x hx with h | h
          · obtain ⟨y, hy, hyx⟩ := List.mem_map.mp h
            rcases hsub y hy with h' | h'
            · exact Or.inl (hyx ▸ h')
            · exact Or.inr (List.mem_append_left _ (hyx ▸ h'))
          · exact Or.inr (List.mem_append_right _ h)
      · have hks : keyStores env r (rv, tokens)
            = some ⟨[], r, [⟨"PKCS#11: Cannot get key stores:", rv,
                "Enumerating tokens" ++ " " ++ env.getMessage rv⟩]⟩ := by
          simp [keyStores, hrv, pkcs11Exception.message]
        have hno2 : runOverflows env r ops = false := by
          have := hno.2
          simpa only [hks] using this
        obtain ⟨r2, log, hrun, hpw, hgt, hin⟩ := ih r hc hb h0 hmax hno2
        exact ⟨r2, log, by simp [runOps, hks, hrv, hrun], hpw, hgt, hin⟩

/-- A token is discovered, is missing from the next discovery pass and is discovered
again: it gets the id `1`, then the id `2`. -/
theorem runOps_rediscovery {Certificate : Type} (env : Env Certificate) (t : pkcs11h_token_id) :
    runOps env Registry.initial
        [.keyStores (CKR_OK, [t]), .keyStores (CKR_OK, []), .keyStores (CKR_OK, [t])]
      = some (⟨2, [⟨2, t⟩], [(2, ⟨2, t⟩)]⟩, [1, 2]) := by
  have h1 : keyStores env Registry.initial (CKR_OK, [t])
      = some ⟨[1], ⟨1, [⟨1, t⟩], [(1, ⟨1, t⟩)]⟩, []⟩ := by
    simp [keyStores, registerLoop, registerTokenId, removeLoop, nextFreeId, hashKeys,
      hashInsert, incrInt, Registry.initial, CKR_OK]
  have h2 : keyStores env ⟨1, [⟨1, t⟩], [(1, ⟨1, t⟩)]⟩ (CKR_OK, [])
      = some ⟨[], ⟨1, [], []⟩, []⟩ := by
    simp [keyStores, registerLoop, removeLoop, hashKeys, hashFind, hashRemove, CKR_OK]
  have h3 : keyStores env ⟨1, [], []⟩ (CKR_OK, [t])
      = some ⟨[2], ⟨2, [⟨2, t⟩], [(2, ⟨2, t⟩)]⟩, []⟩ := by
    simp [keyStores, registerLoop, registerTokenId, removeLoop, nextFreeId, hashKeys,
      hashInsert, incrInt, CKR_OK]
  have l1 : registerLoop env Registry.initial [t] [] (hashKeys Registry.initial._storesById)
      = some (⟨1, [⟨1, t⟩], [(1, ⟨1, t⟩)]⟩, [1], []) := by
    simp [registerLoop, registerTokenId, nextFreeId, hashKeys, hashInsert, incrInt,
      Registry.initial]
  have l3 : registerLoop env ⟨1, [], []⟩ [t] [] (hashKeys [])
      = some (⟨2, [⟨2, t⟩], [(2, ⟨2, t⟩)]⟩, [2], []) := by
    simp [registerLoop, registerTokenId, nextFreeId, hashKeys, hashInsert, incrInt]
  simp only [runOps, h1, h2, h3, l1, l3]
  simp [createdIds, registerLoop, Registry.initial, CKR_OK]

/-- C8: in every sequence of `registerTokenId` and `keyStores` operations on the registry
of the constructor in which `_last_id` does not overflow, every operation returns, the ids
given to the entries created on the way are strictly increasing in the order of creation,
so that each one differs from every id given before, and every entry of the registry
reached has one of these ids; in particular a token that is discovered, then missing from
a discovery pass, then discovered again is given the id `1` and later the new id `2`. -/
theorem C8_ids_never_reused {Certificate : Type} (env : Env Certificate)
    (ops : List RegistryOp) (hno : runOverflows env Registry.initial ops = false) :
    (∃ r log, runOps env Registry.initial ops = some (r, log) ∧ log.Pairwise (· < ·) ∧
      log.Nodup ∧ (∀ x ∈ r._stores, x.id ∈ log)) ∧
    ∀ t, runOps env Registry.initial
        [.keyStores (CKR_OK, [t]), .keyStores (CKR_OK, []), .keyStores (CKR_OK, [t])]
      = some (⟨2, [⟨2, t⟩], [(2, ⟨2, t⟩)]⟩, [1, 2]) := by
  obtain ⟨r, log, hrun, hpw, _, hin⟩ :=
    runOps_below env ops Registry.initial ⟨rfl, List.nodup_nil⟩ (by simp [Registry.initial])
      (by simp [Registry.initial]) (by simp [Registry.initial]) hno
  refine ⟨⟨r, log, hrun, hpw, ?_, ?_⟩, runOps_rediscovery env⟩
  · exact List.Pairwise.imp (fun {a b} hab => by omega) hpw
  · intro x hx
    rcases hin x hx with h | h
    · simp [Registry.initial] at h
    · exact h

/-- C8 in the reference environment: for a registration, a discovery pass that lists
another token and a second registration of the first token; and for the reference token
discovered, missed and discovered again. -/
theorem C8_witness :
    (∃ r log, runOps referenceEnv Registry.initial
        [.registerTokenId referenceToken, .keyStores (CKR_OK, [⟨[7], [], [], []⟩]),
          .registerTokenId referenceToken] = some (r, log) ∧
      log.Pairwise (· < ·) ∧ log.Nodup ∧ (∀ x ∈ r._stores, x.id ∈ log)) ∧
    runOps referenceEnv Registry.initial
        [.keyStores (CKR_OK, [referenceToken]), .keyStores (CKR_OK, []),
          .keyStores (CKR_OK, [referenceToken])]
      = some (⟨2, [⟨2, referenceToken⟩], [(2, ⟨2, referenceToken⟩)]⟩, [1, 2]) :=
  have h := C8_ids_never_reused referenceEnv
    [.registerTokenId referenceToken, .keyStores (CKR_OK, [⟨[7], [], [], []⟩]),
      .registerTokenId referenceToken] (by decide)
  ⟨h.1, h.2 referenceToken⟩

theorem forall2_mem_right {α β : Type} (R : α → β → Prop) (l1 : List α) (l2 : List β)
    (h : List.Forall₂ R l1 l2) : List.Forall₂ (fun a b => R a b ∧ b ∈ l2) l1 l2 := by
  induction h with
  | nil => exact List.Forall₂.nil
  | cons hab _ ih =>
    exact List.Forall₂.cons ⟨hab, by simp⟩
      (List.Forall₂.imp (fun _ _ hx => ⟨hx.1, List.mem_cons_of_mem _ hx.2⟩) ih)

theorem forall2_exists_right {α β : Type} (R : α → β → Prop) (l1 : List α) (l2 : List β)
    (h : List.Forall₂ R l1 l2) : ∀ a ∈ l1, ∃ b ∈ l2, R a b := by
  induction h with
  | nil => simp
  | cons hab _ ih =>
    intro a ha
    rcases List.mem_cons.mp ha with ha | ha
    · subst ha
      exact ⟨_, by simp, hab⟩
    · obtain ⟨b, hb, hr⟩ := ih a ha
      exact ⟨b, List.mem_cons_of_mem _ hb, hr⟩

theorem forall2_exists_left {α β : Type} (R : α → β → Prop) (l1 : List α) (l2 : List β)
    (h : List.Forall₂ R l1 l2) : ∀ b ∈ l2, ∃ a ∈ l1, R a b := by
  induction h with
  | nil => simp
  | cons hab _ ih =>
    intro b hb
    rcases List.mem_cons.mp hb with hb | hb
    · subst hb
      exact ⟨_, by simp, hab⟩
    · obtain ⟨a, ha, hr⟩ := ih b hb
      exact ⟨a, List.mem_cons_of_mem _ ha, hr⟩

/-- With `sameTokenId` symmetric and transitive, a token compares equal to the token of at
most one entry. -/
theorem match_unique {Certificate : Type} (env : Env Certificate)
    (hsymm : ∀ a b, env.sameTokenId a b = env.sameTokenId b a)
    (htrans : ∀ a b c, env.sameTokenId a b = true → env.sameTokenId b c = true →
      env.sameTokenId a c = true)
    (r : Registry) (ht : r.TokensDistinct env) (t : pkcs11h_token_id)
    (x y : pkcs11KeyStoreItem) (hx : x ∈ r._stores) (hy : y ∈ r._stores)
    (hsx : env.sameTokenId t x.token_id = true) (hsy : env.sameTokenId t y.token_id = true) :
    x = y := by
  by_contra hne
  have hsym : Symmetric
      (fun a b : pkcs11KeyStoreItem => env.sameTokenId b.token_id a.token_id = false) := by
    intro a b hab
    show env.sameTokenId a.token_id b.token_id = false
    rw [hsymm]; exact hab
  have h1 : env.sameTokenId y.token_id x.token_id = false :=
    List.Pairwise.forall hsym ht hx hy hne
  have h2 := htrans y.token_id t x.token_id (by rw [hsymm]; exact hsy) hsx
  rw [h1] at h2
  cases h2

theorem registerLoop_total {Certificate : Type} (env : Env Certificate)
    (ts : List pkcs11h_token_id) (r : Registry) (out rem : List Int) (hc : r.Coherent)
    (hsize : r._stores.length + ts.length < 4294967296) :
    ∃ r1 out1 rem1, registerLoop env r ts out rem = some (r1, out1, rem1) := by
  induction ts generalizing r out rem with
  | nil => exact ⟨r, out, rem, rfl⟩
  | cons t ts ih =>
    simp only [List.length_cons] at hsize
    have hlen : r._storesById.length = r._stores.length := by rw [hc.1]; simp
    obtain ⟨e, r', hreg⟩ := registerTokenId_total env r t (by omega)
    have hc' := coherent_register env r r' t e hc hreg
    have hlen' : r'._stores.length ≤ r._stores.length + 1 := by
      rcases registerTokenId_cases env r r' t e hreg with ⟨_, hr⟩ | ⟨_, _, _, hr⟩
      · subst hr; omega
      · subst hr; simp
    obtain ⟨r1, out1, rem1, h⟩ :=
      ih r' (out ++ [e.id]) (rem.filter (fun i => i ≠ e.id)) hc' (by omega)
    exact ⟨r1, out1, rem1, by simp only [registerLoop, hreg]; exact h⟩

/-- What the first loop of `keyStores` does, with `sameTokenId` an equivalence. -/
theorem registerLoop_spec {Certificate : Type} (env : Env Certificate)
    (hrefl : ∀ a, env.sameTokenId a a = true)
    (hsymm : ∀ a b, env.sameTokenId a b = env.sameTokenId b a)
    (htrans : ∀ a b c, env.sameTokenId a b = true → env.sameTokenId b c = true →
      env.sameTokenId a c = true)
    (ts : List pkcs11h_token_id) (r r1 : Registry) (out rem out1 rem1 : List Int)
    (hc : r.Coherent) (ht : r.TokensDistinct env)
    (h : registerLoop env r ts out rem = some (r1, out1, rem1)) :
    ∃ news outs, r1._stores = r._stores ++ news ∧ out1 = out ++ outs ∧
      rem1 = rem.filter (fun i => i ∉ outs) ∧
      (∀ x ∈ news, ∃ t ∈ ts, env.sameTokenId t x.token_id = true) ∧
      List.Forall₂ (fun t i =>
        (∃ e ∈ r1._stores, e.id = i ∧ env.sameTokenId t e.token_id = true) ∧
        (∀ e ∈ r._stores, env.sameTokenId t e.token_id = true → i = e.id)) ts outs := by
  induction ts generalizing r out rem with
  | nil =>
    simp only [registerLoop, Option.some.injEq, Prod.mk.injEq] at h
    obtain ⟨h1, h2, h3⟩ := h
    subst h1
    exact ⟨[], [], by simp, by simp [h2], by simp [h3], by simp, List.Forall₂.nil⟩
  | cons t ts ih =>
    simp only [registerLoop] at h
    cases hreg : registerTokenId env r t with
    | none => simp [hreg] at h
    | some p =>
      obtain ⟨e, r'⟩ := p
      simp only [hreg] at h
      have hc' := coherent_register env r r' t e hc hreg
      have ht' := tokens_register env r r' t e ht hreg
      obtain ⟨news2, outs2, hs2, ho2, hr2, hn2, hf2⟩ := ih r' _ _ hc' ht' h
      obtain ⟨hmem, hsame⟩ := registerTokenId_mem env r r' t e hreg
      have hsame' : env.sameTokenId t e.token_id = true := by
        rcases hsame with h | h
        · exact h
        · rw [h]; exact hrefl t
      obtain ⟨n1, hs1, hn1⟩ : ∃ n1, r'._stores = r._stores ++ n1 ∧
          ∀ x ∈ n1, x = e := by
        rcases registerTokenId_cases env r r' t e hreg with ⟨_, hr⟩ | ⟨_, _, _, hr⟩
        · subst hr; exact ⟨[], by simp, by simp⟩
        · subst hr; exact ⟨[e], rfl, by simp⟩
      have hfirst : ∀ x ∈ r._stores, env.sameTokenId t x.token_id = true → e.id = x.id := by
        intro x hx hsx
        have hx' : x ∈ r'._stores := by rw [hs1]; exact List.mem_append_left _ hx
        rw [match_unique env hsymm htrans r' ht' t e x hmem hx' hsame' hsx]
      refine ⟨n1 ++ news2, e.id :: outs2, by rw [hs2, hs1, List.append_assoc],
        by simp [ho2], ?_, ?_, ?_⟩
      · rw [hr2, List.filter_filter]
        apply List.filter_congr
        intro x _
        simp [Bool.and_comm]
      · intro x hx
        rcases List.mem_append.mp hx with hx | hx
        · rw [hn1 x hx]
          exact ⟨t, by simp, hsame'⟩
        · obtain ⟨t', ht'm, hs'⟩ := hn2 x hx
          exact ⟨t', List.mem_cons_of_mem _ ht'm, hs'⟩
      · refine List.Forall₂.cons ⟨⟨e, ?_, rfl, hsame'⟩, hfirst⟩ ?_
        · rw [hs2]; exact List.mem_append_left _ hmem
        · refine List.Forall₂.imp ?_ hf2
          intro t' i hq
          refine ⟨hq.1, ?_⟩
          intro x hx hsx
          exact hq.2 x (by rw [hs1]; exact List.mem_append_left _ hx) hsx

/-- C9: with `sameTokenId` an equivalence, on a coherent registry whose entries hold
pairwise different tokens, when the token enumeration succeeds with `tokens`, `keyStores`
returns if the registry stays below `2^32` entries, and whenever it returns it emits no
diagnostic and its list `out` gives for each token, in the order of the enumeration, the
id of an entry of the registry afterwards that holds it, this id being the one of the
entry that held the token before the call, if any; afterwards every entry holds one of the
enumerated tokens, every former entry whose token was enumerated is still there, every
former entry whose token was not enumerated is gone from the entry list and from the id
map, and the registry is coherent with pairwise different tokens. -/
theorem C9_keyStores_success {Certificate : Type} (env : Env Certificate)
    (hrefl : ∀ a, env.sameTokenId a a = true)
    (hsymm : ∀ a b, env.sameTokenId a b = env.sameTokenId b a)
    (htrans : ∀ a b c, env.sameTokenId a b = true → env.sameTokenId b c = true →
      env.sameTokenId a c = true)
    (r : Registry) (tokens : List pkcs11h_token_id) (hc : r.Coherent)
    (ht : r.TokensDistinct env) :
    (r._stores.length + tokens.length < 4294967296 →
      ∃ res, keyStores env r (CKR_OK, tokens) = some res) ∧
    ∀ res, keyStores env r (CKR_OK, tokens) = some res →
      res.diagnostics = [] ∧
      List.Forall₂ (fun t i =>
        (∃ e ∈ res.registry._stores, e.id = i ∧ env.sameTokenId t e.token_id = true) ∧
        (∀ e ∈ r._stores, env.sameTokenId t e.token_id = true → i = e.id)) tokens res.out ∧
      (∀ e ∈ res.registry._stores, ∃ t ∈ tokens, env.sameTokenId t e.token_id = true) ∧
      (∀ e ∈ r._stores, (∃ t ∈ tokens, env.sameTokenId t e.token_id = true) →
        e ∈ res.registry._stores) ∧
      (∀ e ∈ r._stores, (∀ t ∈ tokens, env.sameTokenId t e.token_id = false) →
        e ∉ res.registry._stores ∧ e.id ∉ hashKeys res.registry._storesById) ∧
      res.registry.Coherent ∧ res.registry.TokensDistinct env := by
  have hkeys := hashKeys_coherent r hc
  have hsteps : ∀ r1 out1 rem1,
      registerLoop env r tokens [] (hashKeys r._storesById) = some (r1, out1, rem1) →
      r1.Coherent ∧ rem1.Nodup ∧ (∀ i ∈ rem1, i ∈ r1._stores.map (fun e => e.id)) := by
    intro r1 out1 rem1 hloop
    obtain ⟨news, outs, hs1, _, hrem, _, _⟩ :=
      registerLoop_spec env hrefl hsymm htrans tokens r r1 _ _ _ _ hc ht hloop
    refine ⟨registerLoop_preserves env Registry.Coherent
      (fun r t e r1 hP hreg => coherent_register env r r1 t e hP hreg) _ _ _ _ _ _ _ hc hloop,
      ?_, ?_⟩
    · rw [hrem, hkeys]
      exact hc.2.sublist (List.filter_sublist _)
    · intro i hi
      rw [hrem, hkeys] at hi
      have := (List.mem_filter.mp hi).1
      rw [hs1, List.map_append]
      exact List.mem_append_left _ this
  constructor
  · intro hsize
    obtain ⟨r1, out1, rem1, hloop⟩ :=
      registerLoop_total env tokens r [] (hashKeys r._storesById) hc hsize
    obtain ⟨hc1, hnd, hmem⟩ := hsteps r1 out1 rem1 hloop
    obtain ⟨r2, hrm⟩ := removeLoop_total rem1 r1 hc1 hmem hnd
    exact ⟨⟨out1, r2, []⟩, by simp [keyStores, CKR_OK, hloop, hrm]⟩
  intro res hks
  rcases keyStores_cases env r _ res hks with ⟨hne, _⟩ | ⟨_, r1, rem1, hloop, hrm, hdiag⟩
  · exact absurd rfl hne
  simp only at hloop
  obtain ⟨news, outs, hs1, ho1, hrem, hnews, hfa⟩ :=
    registerLoop_spec env hrefl hsymm htrans tokens r r1 _ _ _ _ hc ht hloop
  simp only [List.nil_append] at ho1
  rw [← ho1] at hrem hfa
  obtain ⟨hc1, _, _⟩ := hsteps r1 res.out rem1 hloop
  have ht1 : r1.TokensDistinct env :=
    registerLoop_preserves env (Registry.TokensDistinct env)
      (fun r t e r1 hP hreg => tokens_register env r r1 t e hP hreg) _ _ _ _ _ _ _ ht hloop
  obtain ⟨hs2, hc2, _⟩ := removeLoop_spec rem1 r1 res.registry hc1 hrm
  have hinj := List.inj_on_of_nodup_map hc1.2
  have hin : ∀ e, e ∈ res.registry._stores ↔ e ∈ r1._stores ∧
      (e.id ∈ r._stores.map (fun e => e.id) → e.id ∈ res.out) := by
    intro e
    rw [hs2, List.mem_filter, hrem, hkeys]
    simp only [List.mem_filter, decide_eq_true_eq, not_and, not_not, decide_not,
      Bool.not_eq_true', decide_eq_false_iff_not]
  have hout : ∀ i ∈ res.out, ∃ t ∈ tokens, ∃ e ∈ r1._stores, e.id = i ∧
      env.sameTokenId t e.token_id = true := by
    intro i hi
    obtain ⟨t, htm, hq⟩ := forall2_exists_left _ _ _ hfa i hi
    exact ⟨t, htm, hq.1⟩
  have hall : ∀ e ∈ res.registry._stores,
      ∃ t ∈ tokens, env.sameTokenId t e.token_id = true := by
    intro e he
    obtain ⟨he1, hid⟩ := (hin e).mp he
    rw [hs1] at he1
    rcases List.mem_append.mp he1 with h | h
    · obtain ⟨t, htm, e', he', hid', hs'⟩ := hout e.id (hid (List.mem_map_of_mem _ h))
      have : e' = e := hinj he' (by rw [hs1]; exact List.mem_append_left _ h) hid'
      subst this
      exact ⟨t, htm, hs'⟩
    · exact hnews e h
  have hkept : ∀ e ∈ r._stores, (∃ t ∈ tokens, env.sameTokenId t e.token_id = true) →
      e ∈ res.registry._stores := by
    intro e he hex
    obtain ⟨t, htm, hs⟩ := hex
    obtain ⟨i, hi, hq⟩ := forall2_exists_right _ _ _ hfa t htm
    have hie := hq.2 e he hs
    refine (hin e).mpr ⟨by rw [hs1]; exact List.mem_append_left _ he, fun _ => ?_⟩
    rw [← hie]; exact hi
  refine ⟨hdiag, ?_, hall, hkept, ?_, hc2, ?_⟩
  · refine List.Forall₂.imp ?_ (forall2_mem_right _ _ _ hfa)
    intro t i hq
    obtain ⟨⟨⟨e, he, hid, hs⟩, hold⟩, hi⟩ := hq
    refine ⟨⟨e, (hin e).mpr ⟨he, fun _ => by rw [hid]; exact hi⟩, hid, hs⟩, hold⟩
  · intro e he hno
    have hne : e ∉ res.registry._stores := by
      intro h2
      obtain ⟨t, htm, hs⟩ := hall e h2
      rw [hno t htm] at hs
      cases hs
    refine ⟨hne, ?_⟩
    rw [hashKeys_coherent res.registry hc2]
    intro hidm
    obtain ⟨x, hx, hxe⟩ := List.mem_map.mp hidm
    have hx1 : x ∈ r1._stores := ((hin x).mp hx).1
    have : x = e := hinj hx1 (by rw [hs1]; exact List.mem_append_left _ he) hxe
    subst this
    exact hne hx
  · show List.Pairwise _ res.registry._stores
    rw [hs2]
    exact List.Pairwise.sublist (List.filter_sublist _) ht1

/-- C9 in the reference environment: the registry holds the reference token under id `1`
and a second token under id `2`; the enumeration lists a third token and the reference
token; `keyStores` returns `[3, 1]`, the reference token keeps id `1`, the third token gets
id `3` and the second token is gone. -/
theorem C9_witness :
    (∃ res, keyStores referenceEnv
        ⟨2, [⟨1, referenceToken⟩, ⟨2, ⟨[], [], [], []⟩⟩],
          [(1, ⟨1, referenceToken⟩), (2, ⟨2, ⟨[], [], [], []⟩⟩)]⟩
        (CKR_OK, [⟨[7], [], [], []⟩, referenceToken]) = some res) ∧
    List.Forall₂ (fun t i =>
        (∃ e ∈ [(⟨1, referenceToken⟩ : pkcs11KeyStoreItem), ⟨3, ⟨[7], [], [], []⟩⟩],
          e.id = i ∧ referenceEnv.sameTokenId t e.token_id = true) ∧
        (∀ e ∈ [(⟨1, referenceToken⟩ : pkcs11KeyStoreItem), ⟨2, ⟨[], [], [], []⟩⟩],
          referenceEnv.sameTokenId t e.token_id = true → i = e.id))
      [⟨[7], [], [], []⟩, referenceToken] [3, 1] ∧
    (⟨2, ⟨[], [], [], []⟩⟩ : pkcs11KeyStoreItem)
      ∉ [(⟨1, referenceToken⟩ : pkcs11KeyStoreItem), ⟨3, ⟨[7], [], [], []⟩⟩] ∧
    (2 : Int) ∉ hashKeys [(1, (⟨1, referenceToken⟩ : pkcs11KeyStoreItem)),
      (3, ⟨3, ⟨[7], [], [], []⟩⟩)] :=
  have h := C9_keyStores_success referenceEnv referenceEnv_refl referenceEnv_symm
    referenceEnv_trans
    ⟨2, [⟨1, referenceToken⟩, ⟨2, ⟨[], [], [], []⟩⟩],
      [(1, ⟨1, referenceToken⟩), (2, ⟨2, ⟨[], [], [], []⟩⟩)]⟩
    [⟨[7], [], [], []⟩, referenceToken] (by decide) (by decide)
  have hres := h.2
    ⟨[3, 1],
      ⟨3, [⟨1, referenceToken⟩, ⟨3, ⟨[7], [], [], []⟩⟩],
        [(1, ⟨1, referenceToken⟩), (3, ⟨3, ⟨[7], [], [], []⟩⟩)]⟩, []⟩ (by decide)
  ⟨h.1 (by decide), hres.2.1,
    hres.2.2.2.2.1 ⟨2, ⟨[], [], [], []⟩⟩ (by decide) (by decide)⟩

/-- C10: when the token enumeration returns a non-OK status, `keyStores` returns: its
list is empty, it emits the diagnostic "Cannot get key stores" with that status, and the
registry (entry list, id map, `_last_id`) is the one before the call. -/
theorem C10_enumeration_error {Certificate : Type} (env : Env Certificate) (r : Registry)
    (rv : CK_RV) (tokens : List pkcs11h_token_id) (hrv : rv ≠ CKR_OK) :
    keyStores env r (rv, tokens)
      = some ⟨[], r, [⟨"PKCS#11: Cannot get key stores:", rv,
          "Enumerating tokens" ++ " " ++ env.getMessage rv⟩]⟩ := by
  simp [keyStores, hrv, pkcs11Exception.message]

/-- C10 in the reference environment, on a registry that holds a token. -/
theorem C10_witness :
    keyStores referenceEnv ⟨1, [⟨1, referenceToken⟩], [(1, ⟨1, referenceToken⟩)]⟩
        (5, [referenceToken])
      = some ⟨[], ⟨1, [⟨1, referenceToken⟩], [(1, ⟨1, referenceToken⟩)]⟩,
          [⟨"PKCS#11: Cannot get key stores:", 5, "Enumerating tokens" ++ " " ++ "status"⟩]⟩ :=
  C10_enumeration_error referenceEnv _ 5 [referenceToken] (by decide)

/-! ## Key catalog: properties -/

theorem friendlyNamesLoop_none {Certificate : Type} (env : Env Certificate)
    (listCerts : List Certificate) (names : List QString) (i : Nat)
    (friendlyNames : List (QString × QString)) (h1 : i ≤ listCerts.length)
    (h2 : listCerts.length < i + names.length) :
    friendlyNamesLoop env listCerts names i friendlyNames = none := by
  induction names generalizing i friendlyNames with
  | nil => simp at h2; omega
  | cons name rest ih =>
    rcases Nat.eq_or_lt_of_le h1 with heq | hlt
    · have : listCerts[i]? = none := List.getElem?_eq_none (by omega)
      simp [friendlyNamesLoop, this]
    · have : listCerts[i]? = some listCerts[i] := List.getElem?_eq_getElem hlt
      simp only [friendlyNamesLoop, this]
      cases certificateHash env listCerts[i] with
      | none => rfl
      | some hash =>
        apply ih
        · omega
        · simp only [List.length_cons] at h2
          omega

/-- The hash of a null certificate is not defined. -/
theorem certificateHash_null {Certificate : Type} (env : Env Certificate)
    (cert : Certificate) (h : env.isNull cert = true) : certificateHash env cert = none := by
  simp [certificateHash, Certificate_toDER, h]

/-- The hash of a certificate that is not null. -/
theorem certificateHash_some {Certificate : Type} (env : Env Certificate)
    (cert : Certificate) (h : env.isNull cert = false) :
    certificateHash env cert = some (env.hashToString (env.toDER cert)) := by
  simp [certificateHash, Certificate_toDER, h]

/-- The loop that fills `friendlyNames` is undefined when it comes to a null
certificate. -/
theorem friendlyNamesLoop_null {Certificate : Type} (env : Env Certificate)
    (listCerts : List Certificate) (names : List QString) (i j : Nat)
    (friendlyNames : List (QString × QString)) (cert : Certificate) (hij : i ≤ j)
    (hj : j < i + names.length) (hcert : listCerts[j]? = some cert)
    (hnull : env.isNull cert = true) :
    friendlyNamesLoop env listCerts names i friendlyNames = none := by
  induction names generalizing i friendlyNames with
  | nil => simp at hj; omega
  | cons name rest ih =>
    simp only [friendlyNamesLoop]
    cases hi : listCerts[i]? with
    | none => rfl
    | some c0 =>
      simp only
      cases hh : certificateHash env c0 with
      | none => rfl
      | some hash =>
        simp only
        rcases Nat.eq_or_lt_of_le hij with heq | hlt
        · subst heq
          rw [hi] at hcert
          simp only [Option.some.injEq] at hcert
          subst hcert
          rw [certificateHash_null env c0 hnull] at hh
          exact absurd hh (by simp)
        · apply ih
          · omega
          · simp only [List.length_cons] at hj
            omega

/-- The listing of a registered token is undefined as soon as the enumeration holds an
issuer and `makeFriendlyNames` gives one name for each certificate: the loop that fills
`friendlyNames` runs over the names of issuers and certificates and indexes `listCerts`. -/
theorem entryList_undefined {Certificate : Type} (env : Env Certificate) (r : Registry)
    (id : Int) (item : pkcs11KeyStoreItem)
    (issuers certs : List pkcs11h_certificate_id)
    (hitem : hashFind r._storesById id = some item) (hissuers : issuers ≠ [])
    (hnames : ∀ l : List Certificate, (env.makeFriendlyNames l).length = l.length) :
    entryList env r id (CKR_OK, issuers, certs) = none := by
  have hpos : 0 < issuers.length := List.length_pos.mpr hissuers
  have hloop := friendlyNamesLoop_none env
    (certs.map (fun c => env.fromDER c.certificate_blob))
    (env.makeFriendlyNames (issuers.map (fun c => env.fromDER c.certificate_blob)
      ++ certs.map (fun c => env.fromDER c.certificate_blob))) 0 [] (Nat.zero_le _)
    (by rw [hnames]; simp; omega)
  simp [entryList, hitem, hloop]

/-- The listing of a registered token is undefined as soon as one of the blobs of the
certificates with a private key does not parse, `makeFriendlyNames` giving one name for
each certificate: the loop that fills `friendlyNames` takes the hash of the null
certificate that `fromDER` left. -/
theorem entryList_undefined_of_null {Certificate : Type} (env : Env Certificate)
    (r : Registry) (id : Int) (item : pkcs11KeyStoreItem)
    (issuers certs : List pkcs11h_certificate_id) (bad : pkcs11h_certificate_id)
    (hitem : hashFind r._storesById id = some item) (hbad : bad ∈ certs)
    (hnull : env.isNull (env.fromDER bad.certificate_blob) = true)
    (hnames : ∀ l : List Certificate, (env.makeFriendlyNames l).length = l.length) :
    entryList env r id (CKR_OK, issuers, certs) = none := by
  obtain ⟨j, hjlt, hjget⟩ := List.getElem_of_mem hbad
  have hcert : (certs.map (fun c => env.fromDER c.certificate_blob))[j]?
      = some (env.fromDER bad.certificate_blob) := by
    rw [List.getElem?_map, List.getElem?_eq_getElem hjlt, hjget]
    rfl
  have hloop := friendlyNamesLoop_null env
    (certs.map (fun c => env.fromDER c.certificate_blob))
    (env.makeFriendlyNames (issuers.map (fun c => env.fromDER c.certificate_blob)
      ++ certs.map (fun c => env.fromDER c.certificate_blob))) 0 j []
    (env.fromDER bad.certificate_blob) (Nat.zero_le _)
    (by rw [hnames]; simp; omega) hcert hnull
  simp [entryList, hitem, hloop]

/-- The loop that fills `friendlyNames` ends when every index is one of `listCerts` and no
certificate of `listCerts` is null. -/
theorem friendlyNamesLoop_some {Certificate : Type} (env : Env Certificate)
    (listCerts : List Certificate) (names : List QString) (i : Nat)
    (friendlyNames : List (QString × QString))
    (hlen : i + names.length ≤ listCerts.length)
    (hgood : ∀ c ∈ listCerts, env.isNull c = false) :
    ∃ m, friendlyNamesLoop env listCerts names i friendlyNames = some m := by
  induction names generalizing i friendlyNames with
  | nil => exact ⟨friendlyNames, rfl⟩
  | cons name rest ih =>
    simp only [List.length_cons] at hlen
    have hi : i < listCerts.length := by omega
    have hget : listCerts[i]? = some listCerts[i] := List.getElem?_eq_getElem hi
    have hh := certificateHash_some env listCerts[i] (hgood _ (List.getElem_mem hi))
    simp only [friendlyNamesLoop, hget, hh]
    exact ih (i + 1) _ (by omega)

/-- A loop that builds the records ends when every index is one of `list` and no
certificate of `list` is null. -/
theorem entryLoop_some {Certificate : Type} (env : Env Certificate) (has_private : Bool)
    (listIssuers list : List Certificate) (friendlyNames : List (QString × QString))
    (ids : List pkcs11h_certificate_id) (i : Nat) (acc : EntryList Certificate)
    (hlen : i + ids.length ≤ list.length) (hgood : ∀ c ∈ list, env.isNull c = false) :
    ∃ l, entryLoop env has_private listIssuers list friendlyNames ids i acc = some l := by
  induction ids generalizing i acc with
  | nil => exact ⟨acc, rfl⟩
  | cons current rest ih =>
    simp only [List.length_cons] at hlen
    have hi : i < list.length := by omega
    have hget : list[i]? = some list[i] := List.getElem?_eq_getElem hi
    have hh := certificateHash_some env list[i] (hgood _ (List.getElem_mem hi))
    simp only [entryLoop, hget, hh]
    rcases hk : keyStoreEntryByCertificateId env (some current) has_private listIssuers
        (mapValue friendlyNames (env.hashToString (env.toDER list[i]))) with ⟨res, calls⟩
    cases res with
    | ok entry => exact ih (i + 1) _ (by omega)
    | error e => exact ih (i + 1) _ (by omega)

/-- The listing of a registered token is defined exactly when the enumeration holds no
issuer and every blob of a certificate with a private key parses, `makeFriendlyNames`
giving one name for each certificate. -/
theorem entryList_defined_iff {Certificate : Type} (env : Env Certificate) (r : Registry)
    (id : Int) (item : pkcs11KeyStoreItem) (issuers certs : List pkcs11h_certificate_id)
    (hitem : hashFind r._storesById id = some item)
    (hnames : ∀ l : List Certificate, (env.makeFriendlyNames l).length = l.length) :
    (∃ l, entryList env r id (CKR_OK, issuers, certs) = some l) ↔
      issuers = [] ∧ ∀ c ∈ certs, env.isNull (env.fromDER c.certificate_blob) = false := by
  constructor
  · rintro ⟨l, hl⟩
    constructor
    · by_contra hne
      rw [entryList_undefined env r id item issuers certs hitem hne hnames] at hl
      exact absurd hl (by simp)
    · intro c hc
      cases hn : env.isNull (env.fromDER c.certificate_blob) with
      | false => rfl
      | true =>
        rw [entryList_undefined_of_null env r id item issuers certs c hitem hc hn hnames] at hl
        exact absurd hl (by simp)
  · rintro ⟨rfl, hgood⟩
    have hgood2 : ∀ c ∈ certs.map (fun c => env.fromDER c.certificate_blob),
        env.isNull c = false := by
      intro c hc
      obtain ⟨c0, hc0, rfl⟩ := List.mem_map.mp hc
      exact hgood c0 hc0
    obtain ⟨m, hm⟩ := friendlyNamesLoop_some env
      (certs.map (fun c => env.fromDER c.certificate_blob))
      (env.makeFriendlyNames ([] ++ certs.map (fun c => env.fromDER c.certificate_blob)))
      0 [] (by rw [hnames]; simp) hgood2
    obtain ⟨l, hl⟩ := entryLoop_some env true []
      (certs.map (fun c => env.fromDER c.certificate_blob)) m certs 0 ⟨[], [], []⟩
      (by simp) hgood2
    refine ⟨l, ?_⟩
    simp only [List.nil_append] at hm
    simp [entryList, hitem, hm, entryLoop, hl]

/-- C11, failing input: for a registered token whose enumeration returns one issuer
certificate and one leaf certificate, both well-formed, `entryList` reads `listCerts[1]`
in a list of one element and is undefined; it returns no list of two records. Without
the issuer it returns one record of type key bundle whose chain starts with the leaf. -/
theorem C11_issuer_and_leaf_undefined :
    entryList referenceEnv ⟨1, [⟨1, referenceToken⟩], [(1, ⟨1, referenceToken⟩)]⟩ 1
        (CKR_OK, [⟨referenceToken, [1], [48, 1]⟩], [⟨referenceToken, [2], [48, 2]⟩]) = none ∧
      (entryList referenceEnv ⟨1, [⟨1, referenceToken⟩], [(1, ⟨1, referenceToken⟩)]⟩ 1
        (CKR_OK, [], [⟨referenceToken, [2], [48, 2]⟩])).map
          (fun l => l.out.map (fun e => (e._item_type, e._key.map (fun b => b.certificateChain))))
        = some [(.TypeKeyBundle, some [[48, 2]])] := by
  refine ⟨entryList_undefined referenceEnv _ 1 ⟨1, referenceToken⟩ _ _ (by decide) (by simp)
    (fun l => rfl), by decide⟩

/-- C12, failing input: for a registered token whose enumeration returns two blobs of
certificates with a private key, one well-formed and one of size 0, and no issuer,
`fromDER` leaves a null certificate for the second blob and the loop that fills
`friendlyNames` takes its hash, which calls through a `NULL` context: `entryList` is
undefined and returns no list of one record; the `try` around each record, which would
report "Missing certificate" and go on, is not reached. The same holds when the
malformed blob is the only one, and when the well-formed blob is an issuer. With the
well-formed blob alone the listing returns its one record. -/
theorem C12_malformed_blob_undefined :
    entryList referenceEnv ⟨1, [⟨1, referenceToken⟩], [(1, ⟨1, referenceToken⟩)]⟩ 1
        (CKR_OK, [], [⟨referenceToken, [2], [48, 2]⟩, ⟨referenceToken, [3], []⟩]) = none ∧
      referenceEnv.isNull (referenceEnv.fromDER []) = true ∧
      certificateHash referenceEnv (referenceEnv.fromDER []) = none ∧
      entryList referenceEnv ⟨1, [⟨1, referenceToken⟩], [(1, ⟨1, referenceToken⟩)]⟩ 1
        (CKR_OK, [], [⟨referenceToken, [3], []⟩]) = none ∧
      entryList referenceEnv ⟨1, [⟨1, referenceToken⟩], [(1, ⟨1, referenceToken⟩)]⟩ 1
        (CKR_OK, [⟨referenceToken, [1], [48, 1]⟩], [⟨referenceToken, [2], []⟩]) = none ∧
      (entryList referenceEnv ⟨1, [⟨1, referenceToken⟩], [(1, ⟨1, referenceToken⟩)]⟩ 1
        (CKR_OK, [], [⟨referenceToken, [2], [48, 2]⟩])).map
          (fun l => (l.out.map (fun e => e._key.map (fun b => b.certificateChain)),
            l.diagnostics))
        = some ([some [[48, 2]]], []) := by
  refine ⟨entryList_undefined_of_null referenceEnv _ 1 ⟨1, referenceToken⟩ _ _
      ⟨referenceToken, [3], []⟩ (by decide) (by simp) (by decide) (fun l => rfl),
    by decide, by decide,
    entryList_undefined_of_null referenceEnv _ 1 ⟨1, referenceToken⟩ _ _
      ⟨referenceToken, [3], []⟩ (by decide) (by simp) (by decide) (fun l => rfl),
    entryList_undefined referenceEnv _ 1 ⟨1, referenceToken⟩ _ _ (by decide) (by simp)
      (fun l => rfl), by decide⟩

/-! ## Private-key operations: properties -/

theorem length_resize (b : QByteArray) (n : Nat) : (resize b n).length = n := by
  simp [resize]
  omega

/-- What `ensureCertificate` gives when it succeeds. -/
theorem ensureCertificate_ok (drv : SessionEnv) (k k1 : pkcs11RSAContext)
    (h : pkcs11h_certificate) (calls : List SessionCall)
    (he : ensureCertificate drv k = (.ok (k1, h), calls)) :
    k1 = { k with _pkcs11h_certificate := some h } ∧
      ((k._pkcs11h_certificate = some h ∧ calls = []) ∨
        (k._pkcs11h_certificate = none ∧
          drv.create k._pkcs11h_certificate_id k._serialized_entry = .ok h ∧
          calls = [.create CKR_OK])) := by
  unfold ensureCertificate at he
  cases hk : k._pkcs11h_certificate with
  | some h0 =>
    simp only [hk, Prod.mk.injEq, Except.ok.injEq] at he
    obtain ⟨⟨rfl, rfl⟩, rfl⟩ := he
    refine ⟨?_, Or.inl ⟨rfl, rfl⟩⟩
    cases k
    simp_all
  | none =>
    simp only [hk] at he
    cases hc : drv.create k._pkcs11h_certificate_id k._serialized_entry with
    | error rv => simp [hc] at he
    | ok h1 =>
      simp only [hc, Prod.mk.injEq, Except.ok.injEq] at he
      obtain ⟨⟨rfl, rfl⟩, rfl⟩ := he
      exact ⟨rfl, Or.inr ⟨rfl, rfl, rfl⟩⟩

/-- What `ensureCertificate` gives when it throws. -/
theorem ensureCertificate_error (drv : SessionEnv) (k : pkcs11RSAContext)
    (e : pkcs11Exception) (calls : List SessionCall)
    (he : ensureCertificate drv k = (.error e, calls)) :
    k._pkcs11h_certificate = none ∧ ∃ rv,
      drv.create k._pkcs11h_certificate_id k._serialized_entry = .error rv ∧
      calls = [.create rv] := by
  unfold ensureCertificate at he
  cases hk : k._pkcs11h_certificate with
  | some h0 => simp [hk] at he
  | none =>
    simp only [hk] at he
    cases hc : drv.create k._pkcs11h_certificate_id k._serialized_entry with
    | error rv =>
      simp only [hc, Prod.mk.injEq] at he
      exact ⟨rfl, rv, rfl, he.2.symm⟩
    | ok h1 => simp [hc] at he

theorem lockReleased_spec (l : List SessionCall) (h : lockReleased l = true)
    (pre post : List SessionCall) (e : l = pre ++ .lockSession CKR_OK :: post) :
    ∃ rv, SessionCall.releaseSession rv ∈ post := by
  induction pre generalizing l with
  | nil =>
    subst e
    simp only [List.nil_append, lockReleased, ne_eq, not_true_eq_false, decide_False,
      Bool.false_or, Bool.and_eq_true, List.any_eq_true] at h
    obtain ⟨⟨c, hc, hrel⟩, _⟩ := h
    cases c <;> simp at hrel
    exact ⟨_, hc⟩
  | cons c pre ih =>
    subst e
    apply ih (pre ++ .lockSession CKR_OK :: post) _ rfl
    cases c <;> simp_all [lockReleased]

theorem decrypt_lockReleased (drv : SessionEnv) (listExists : Bool) (k : pkcs11RSAContext)
    (input out : QByteArray) (alg : EncryptionAlgorithm) :
    lockReleased (decrypt drv listExists k input out alg).calls = true := by
  unfold decrypt
  cases decryptMechanism alg with
  | none => simp [decryptCatch, catchRelease, lockReleased]
  | some mech =>
    simp only
    cases he : ensureCertificate drv k with
    | mk res calls =>
      cases res with
      | error e =>
        obtain ⟨_, rv, _, rfl⟩ := ensureCertificate_error drv k e calls he
        simp [decryptCatch, catchRelease, lockReleased]
      | ok p =>
        obtain ⟨k1, h⟩ := p
        obtain ⟨rfl, hc⟩ := ensureCertificate_ok drv k k1 h calls he
        have hcalls : calls = [] ∨ calls = [.create CKR_OK] := by
          rcases hc with ⟨_, h⟩ | ⟨_, _, h⟩
          · exact Or.inl h
          · exact Or.inr h
        simp only
        rcases hcalls with rfl | rfl <;>
        · split
          · simp_all [decryptCatch, catchRelease, lockReleased]
          · split
            · simp_all [decryptCatch, catchRelease, lockReleased]
            · split
              · simp_all [decryptCatch, catchRelease, lockReleased]
              · split <;> simp_all [decryptCatch, catchRelease, lockReleased]

theorem endSign_lockReleased (drv : SessionEnv) (listExists : Bool) (k : pkcs11RSAContext) :
    lockReleased (endSign drv listExists k).calls = true := by
  unfold endSign
  simp only
  split
  · simp [endSignCatch, catchRelease, lockReleased]
  · cases he : ensureCertificate drv k with
    | mk res calls =>
      cases res with
      | error e =>
        obtain ⟨_, rv, _, rfl⟩ := ensureCertificate_error drv k e calls he
        simp [endSignCatch, catchRelease, lockReleased]
      | ok p =>
        obtain ⟨k1, h⟩ := p
        obtain ⟨rfl, hc⟩ := ensureCertificate_ok drv k k1 h calls he
        have hcalls : calls = [] ∨ calls = [.create CKR_OK] := by
          rcases hc with ⟨_, h⟩ | ⟨_, _, h⟩
          · exact Or.inl h
          · exact Or.inr h
        simp only
        rcases hcalls with rfl | rfl <;>
        · split
          · simp_all [endSignCatch, catchRelease, lockReleased]
          · split
            · simp_all [endSignCatch, catchRelease, lockReleased]
            · split
              · simp_all [endSignCatch, catchRelease, lockReleased]
              · split <;> simp_all [endSignCatch, catchRelease, lockReleased]

/-- C13: in `decrypt` and in `endSign`, for every key, input and answers of the driver,
whenever the calls made to the driver contain a `lockSession` that returned OK, a
`releaseSession` is among the calls made after it before the operation returns. -/
theorem C13_lock_released (drv : SessionEnv) (listExists : Bool) (k : pkcs11RSAContext)
    (input out : QByteArray) (alg : EncryptionAlgorithm) :
    (∀ pre post, (decrypt drv listExists k input out alg).calls
        = pre ++ .lockSession CKR_OK :: post →
      ∃ rv, SessionCall.releaseSession rv ∈ post) ∧
    (∀ pre post, (endSign drv listExists k).calls = pre ++ .lockSession CKR_OK :: post →
      ∃ rv, SessionCall.releaseSession rv ∈ post) :=
  ⟨lockReleased_spec _ (decrypt_lockReleased drv listExists k input out alg),
    lockReleased_spec _ (endSign_lockReleased drv listExists k)⟩

/-- C15: for every encryption algorithm other than `EME_PKCS1v15` and `EME_PKCS1_OAEP`,
`decrypt` returns `false`, makes no call to the driver, leaves the output buffer and the
key as they were, and reports "Invalid algorithm" when the keystore list exists. -/
theorem C15_unsupported_algorithm (drv : SessionEnv) (listExists : Bool)
    (k : pkcs11RSAContext) (input out : QByteArray) (alg : EncryptionAlgorithm)
    (h1 : alg ≠ .EME_PKCS1v15) (h2 : alg ≠ .EME_PKCS1_OAEP) :
    decrypt drv listExists k input out alg
      = ⟨false, out, k, [],
          if listExists then
            [⟨"PKCS#11: Cannot decrypt:", CKR_FUNCTION_NOT_SUPPORTED,
              "Invalid algorithm" ++ " " ++ drv.getMessage CKR_FUNCTION_NOT_SUPPORTED⟩]
          else []⟩ := by
  cases alg with
  | EME_PKCS1v15 => exact absurd rfl h1
  | EME_PKCS1_OAEP => exact absurd rfl h2
  | other n => simp [decrypt, decryptMechanism, decryptCatch, catchRelease, sessionMessage]

/-- C15 for the reference key and collaborators and the algorithm value `2`. -/
theorem C15_witness :
    decrypt referenceSession true referenceKey [1, 2, 3] [9] (.other 2)
      = ⟨false, [9], referenceKey, [],
          [⟨"PKCS#11: Cannot decrypt:", CKR_FUNCTION_NOT_SUPPORTED,
            "Invalid algorithm" ++ " " ++ "status"⟩]⟩ :=
  C15_unsupported_algorithm referenceSession true referenceKey [1, 2, 3] [9] (.other 2)
    (by decide) (by decide)

/-- C18: for every key and every answer of the driver, the key that `endSign` leaves has
no digest accumulator, an empty raw buffer and the algorithm `SignatureUnknown`, and its
private-role flag, public key, certificate identity and serialised entry are those of the
key before the call; its certificate handle is the former one, or was `NULL` before. -/
theorem C18_endSign_idle (drv : SessionEnv) (listExists : Bool) (k : pkcs11RSAContext) :
    (endSign drv listExists k).key._sign_data = ⟨.SignatureUnknown, none, []⟩ ∧
      (endSign drv listExists k).key._has_privateKeyRole = k._has_privateKeyRole ∧
      (endSign drv listExists k).key._pubkey = k._pubkey ∧
      (endSign drv listExists k).key._pkcs11h_certificate_id = k._pkcs11h_certificate_id ∧
      (endSign drv listExists k).key._serialized_entry = k._serialized_entry ∧
      ((endSign drv listExists k).key._pkcs11h_certificate = k._pkcs11h_certificate ∨
        k._pkcs11h_certificate = none) := by
  unfold endSign
  simp only
  split
  · simp [endSignCatch, clearSign]
  · cases he : ensureCertificate drv k with
    | mk res calls =>
      cases res with
      | error e => simp [endSignCatch, clearSign]
      | ok p =>
        obtain ⟨k1, h⟩ := p
        obtain ⟨rfl, hc⟩ := ensureCertificate_ok drv k k1 h calls he
        have hh : some h = k._pkcs11h_certificate ∨ k._pkcs11h_certificate = none := by
          rcases hc with ⟨h, _⟩ | ⟨h, _⟩
          · exact Or.inl h.symm
          · exact Or.inr h
        simp only
        split
        · simpa [endSignCatch, clearSign] using hh
        · split
          · simpa [endSignCatch, clearSign] using hh
          · split
            · simpa [endSignCatch, clearSign] using hh
            · split <;> simpa [endSignCatch, clearSign] using hh

/-- `decrypt` once the mechanism is chosen and the handle is there. -/
theorem decrypt_of_handle (drv : SessionEnv) (listExists : Bool) (k k1 : pkcs11RSAContext)
    (input out : QByteArray) (alg : EncryptionAlgorithm) (mech : CK_MECHANISM_TYPE)
    (h : pkcs11h_certificate) (calls : List SessionCall)
    (hm : decryptMechanism alg = some mech)
    (he : ensureCertificate drv k = (.ok (k1, h), calls)) :
    ((decrypt drv listExists k input out alg).ret = true ↔
      drv.lockSession h = CKR_OK ∧ (drv.decryptAny h mech input none).1 = CKR_OK ∧
      (drv.decryptAny h mech input (some (drv.decryptAny h mech input none).2.1)).1 = CKR_OK ∧
      drv.releaseSession h = CKR_OK) ∧
    ((decrypt drv listExists k input out alg).ret = true →
      (decrypt drv listExists k input out alg).out.length
        = (drv.decryptAny h mech input (some (drv.decryptAny h mech input none).2.1)).2.1) := by
  unfold decrypt
  simp only [hm, he]
  by_cases hl : drv.lockSession h = CKR_OK
  · rcases hd1 : drv.decryptAny h mech input none with ⟨rv1, s1, b1⟩
    by_cases h1 : rv1 = CKR_OK
    · rcases hd2 : drv.decryptAny h mech input (some s1) with ⟨rv2, s2, b2⟩
      by_cases h2 : rv2 = CKR_OK
      · by_cases hr : drv.releaseSession h = CKR_OK
        · simp [hl, hd1, h1, h2, hr, hd2, length_resize]
        · simp [hl, hd1, h1, h2, hr, hd2, decryptCatch]
      · simp [hl, hd1, h1, h2, hd2, decryptCatch]
    · simp [hl, hd1, h1, decryptCatch]
  · simp [hl, decryptCatch]

/-- C14: `decrypt` returns `true` exactly when the algorithm is `EME_PKCS1v15` or
`EME_PKCS1_OAEP`, the certificate handle exists or `pkcs11h_certificate_create` returns
one, `lockSession` returns OK, the call of the decrypt primitive with a `NULL` buffer and
the call with a buffer of the length the first call reported both return OK, and
`releaseSession` returns OK; the output then has the length the second call reported. -/
theorem C14_decrypt_true_iff (drv : SessionEnv) (listExists : Bool) (k : pkcs11RSAContext)
    (input out : QByteArray) (alg : EncryptionAlgorithm) :
    ((decrypt drv listExists k input out alg).ret = true ↔
      ∃ mech h, (alg = .EME_PKCS1v15 ∨ alg = .EME_PKCS1_OAEP) ∧
        decryptMechanism alg = some mech ∧
        (k._pkcs11h_certificate = some h ∨ (k._pkcs11h_certificate = none ∧
          drv.create k._pkcs11h_certificate_id k._serialized_entry = .ok h)) ∧
        drv.lockSession h = CKR_OK ∧ (drv.decryptAny h mech input none).1 = CKR_OK ∧
        (drv.decryptAny h mech input (some (drv.decryptAny h mech input none).2.1)).1
          = CKR_OK ∧
        drv.releaseSession h = CKR_OK) ∧
    (∀ mech h, decryptMechanism alg = some mech →
      (k._pkcs11h_certificate = some h ∨ (k._pkcs11h_certificate = none ∧
        drv.create k._pkcs11h_certificate_id k._serialized_entry = .ok h)) →
      (decrypt drv listExists k input out alg).ret = true →
      (decrypt drv listExists k input out alg).out.length
        = (drv.decryptAny h mech input (some (drv.decryptAny h mech input none).2.1)).2.1) := by
  have hens : ∀ h, (k._pkcs11h_certificate = some h ∨ (k._pkcs11h_certificate = none ∧
      drv.create k._pkcs11h_certificate_id k._serialized_entry = .ok h)) →
      ∃ k1 calls, ensureCertificate drv k = (.ok (k1, h), calls) := by
    intro h hh
    rcases hh with hk | ⟨hk, hc⟩
    · exact ⟨k, [], by simp [ensureCertificate, hk]⟩
    · exact ⟨{ k with _pkcs11h_certificate := some h }, [.create CKR_OK],
        by simp [ensureCertificate, hk, hc]⟩
  constructor
  · constructor
    · intro hret
      cases hm : decryptMechanism alg with
      | none => simp [decrypt, hm, decryptCatch] at hret
      | some mech =>
        have halg : alg = .EME_PKCS1v15 ∨ alg = .EME_PKCS1_OAEP := by
          cases alg <;> simp [decryptMechanism] at hm ⊢
        cases he : ensureCertificate drv k with
        | mk res calls =>
          cases res with
          | error e => simp [decrypt, hm, he, decryptCatch] at hret
          | ok p =>
            obtain ⟨k1, h⟩ := p
            obtain ⟨_, hc⟩ := ensureCertificate_ok drv k k1 h calls he
            have hh : k._pkcs11h_certificate = some h ∨ (k._pkcs11h_certificate = none ∧
                drv.create k._pkcs11h_certificate_id k._serialized_entry = .ok h) := by
              rcases hc with ⟨h1, _⟩ | ⟨h1, h2, _⟩
              · exact Or.inl h1
              · exact Or.inr ⟨h1, h2⟩
            have := ((decrypt_of_handle drv listExists k k1 input out alg mech h calls hm
              he).1).mp hret
            exact ⟨mech, h, halg, rfl, hh, this⟩
    · rintro ⟨mech, h, _, hm, hh, hsteps⟩
      obtain ⟨k1, calls, he⟩ := hens h hh
      exact ((decrypt_of_handle drv listExists k k1 input out alg mech h calls hm he).1).mpr
        hsteps
  · intro mech h hm hh hret
    obtain ⟨k1, calls, he⟩ := hens h hh
    exact (decrypt_of_handle drv listExists k k1 input out alg mech h calls hm he).2 hret

/-- What `endSign` returns once the handle is there. -/
theorem endSign_of_handle (drv : SessionEnv) (listExists : Bool) (k k1 : pkcs11RSAContext)
    (h : pkcs11h_certificate) (calls : List SessionCall) (hf : signFinal drv k ≠ [])
    (he : ensureCertificate drv k = (.ok (k1, h), calls))
    (hne : (endSign drv listExists k).result ≠ []) :
    drv.lockSession h = CKR_OK ∧
      (drv.signAny h CKM_RSA_PKCS (signFinal drv k) none).1 = CKR_OK ∧
      (drv.signAny h CKM_RSA_PKCS (signFinal drv k)
        (some (drv.signAny h CKM_RSA_PKCS (signFinal drv k) none).2.1)).1 = CKR_OK ∧
      drv.releaseSession h = CKR_OK := by
  have hlen : ¬ (signFinal drv k).length = 0 := by
    simpa [List.length_eq_zero] using hf
  unfold endSign at hne
  simp only [hlen, if_false, he] at hne
  by_cases hl : drv.lockSession h = CKR_OK
  · rcases hd1 : drv.signAny h CKM_RSA_PKCS (signFinal drv k) none with ⟨rv1, s1, b1⟩
    by_cases h1 : rv1 = CKR_OK
    · rcases hd2 : drv.signAny h CKM_RSA_PKCS (signFinal drv k) (some s1) with ⟨rv2, s2, b2⟩
      by_cases h2 : rv2 = CKR_OK
      · by_cases hr : drv.releaseSession h = CKR_OK
        · simp [hl, hd1, h1, h2, hr, hd2]
        · simp [hl, hd1, h1, h2, hr, hd2, endSignCatch] at hne
      · simp [hl, hd1, h1, h2, hd2, endSignCatch] at hne
    · simp [hl, hd1, h1, endSignCatch] at hne
  · simp [hl, endSignCatch] at hne

/-- C17: `endSign` always returns a value; it returns the empty array, having made no
call to the driver, when the encoded message is empty, and it returns the empty array
whenever a later step fails, that is, unless the certificate handle exists or is created,
`lockSession` returns OK, both calls of the sign primitive return OK and `releaseSession`
returns OK. -/
theorem C17_endSign_empty_on_failure (drv : SessionEnv) (listExists : Bool)
    (k : pkcs11RSAContext) :
    (signFinal drv k = [] →
      (endSign drv listExists k).result = [] ∧ (endSign drv listExists k).calls = []) ∧
    ((¬ ∃ h, (k._pkcs11h_certificate = some h ∨ (k._pkcs11h_certificate = none ∧
          drv.create k._pkcs11h_certificate_id k._serialized_entry = .ok h)) ∧
        drv.lockSession h = CKR_OK ∧
        (drv.signAny h CKM_RSA_PKCS (signFinal drv k) none).1 = CKR_OK ∧
        (drv.signAny h CKM_RSA_PKCS (signFinal drv k)
          (some (drv.signAny h CKM_RSA_PKCS (signFinal drv k) none).2.1)).1 = CKR_OK ∧
        drv.releaseSession h = CKR_OK) →
      (endSign drv listExists k).result = []) := by
  constructor
  · intro hf
    simp [endSign, hf, endSignCatch, catchRelease]
  · intro hno
    by_contra hne
    apply hno
    have hf : signFinal drv k ≠ [] := by
      intro hf
      simp [endSign, hf, endSignCatch] at hne
    have hlen : ¬ (signFinal drv k).length = 0 := by
      simpa [List.length_eq_zero] using hf
    cases he : ensureCertificate drv k with
    | mk res calls =>
      cases res with
      | error e => simp [endSign, hlen, he, endSignCatch] at hne
      | ok p =>
        obtain ⟨k1, h⟩ := p
        obtain ⟨_, hc⟩ := ensureCertificate_ok drv k k1 h calls he
        have hh : k._pkcs11h_certificate = some h ∨ (k._pkcs11h_certificate = none ∧
            drv.create k._pkcs11h_certificate_id k._serialized_entry = .ok h) := by
          rcases hc with ⟨h1, _⟩ | ⟨h1, h2, _⟩
          · exact Or.inl h1
          · exact Or.inr ⟨h1, h2⟩
        exact ⟨h, hh, endSign_of_handle drv listExists k k1 h calls hf he hne⟩

theorem myrsa_size_eq (b : Int) (h0 : 0 ≤ b) (hmax : b + 7 ≤ 2147483647) :
    myrsa_size b = (b + 7) / 8 := by
  have h1 : toInt32 (b + 7) = b + 7 := by
    unfold toInt32
    omega
  unfold myrsa_size
  rw [h1, Int.tdiv_eq_ediv (by omega) (by decide)]

/-- C20: `endSign` passes to the signature encoding the size
`(_pubkey.bitSize () + 7) / 8`; for every bit size `b ≥ 0` with `b + 7` within `int` this
is the least `n` with `8 n ≥ b`; bit sizes 2047 and 2048 give 256 and bit size 2049 gives
257. -/
theorem C20_modulus_byte_length (drv : SessionEnv) (k : pkcs11RSAContext) (hash : Hash)
    (b : Int) (hhash : k._sign_data.hash = some hash) (hb : drv.bitSize k._pubkey = b)
    (h0 : 0 ≤ b) (hmax : b + 7 ≤ 2147483647) :
    signFinal drv k
        = drv.emsa3Encode hash.type (drv.hashFinal hash.type hash.data) (myrsa_size b) ∧
      b ≤ 8 * myrsa_size b ∧ (∀ n : Int, b ≤ 8 * n → myrsa_size b ≤ n) ∧
      myrsa_size 2047 = 256 ∧ myrsa_size 2048 = 256 ∧ myrsa_size 2049 = 257 := by
  have he := myrsa_size_eq b h0 hmax
  refine ⟨by simp [signFinal, hhash, hb], ?_, ?_, by decide, by decide, by decide⟩
  · rw [he]; omega
  · intro n hn
    rw [he]; omega

/-- C20 for the reference key, whose public key has 16 bits, after `startSign` with
`EMSA3_SHA1`: the size passed is 2. -/
theorem C20_witness :
    signFinal referenceSession (startSign referenceKey .EMSA3_SHA1)
        = referenceSession.emsa3Encode "sha1" (referenceSession.hashFinal "sha1" [])
            (myrsa_size 16) ∧
      (16 : Int) ≤ 8 * myrsa_size 16 ∧ myrsa_size 16 ≤ 2 ∧
      myrsa_size 2047 = 256 ∧ myrsa_size 2048 = 256 ∧ myrsa_size 2049 = 257 :=
  have h := C20_modulus_byte_length referenceSession (startSign referenceKey .EMSA3_SHA1)
    ⟨"sha1", []⟩ 16 (by decide) (by decide) (by decide) (by decide)
  ⟨h.1, h.2.1, h.2.2.1 2 (by decide), h.2.2.2⟩

/-- C16, failing input: after `startSign (EMSA1_SHA1)`, an algorithm that `startSign`
reports as invalid, and `update` with two bytes, `endSign` hands these two bytes to the
sign primitive of the driver and returns what the primitive leaves. -/
theorem C16_invalid_algorithm_signs :
    (endSign referenceSession true
        (update (startSign referenceKey .EMSA1_SHA1) [7, 7])).result = [7, 7] ∧
      (endSign referenceSession true
        (update (startSign referenceKey .EMSA1_SHA1) [7, 7])).calls
        = [.create CKR_OK, .lockSession CKR_OK, .signAny CKM_RSA_PKCS [7, 7] none CKR_OK,
            .signAny CKM_RSA_PKCS [7, 7] (some 2) CKR_OK, .releaseSession CKR_OK] := by
  decide

/-- C14 for the reference key and collaborators: `decrypt` returns `true` and the output
has the length 3 that the second call reports. -/
theorem C14_witness :
    (decrypt referenceSession true referenceKey [1, 2, 3] [9] .EME_PKCS1v15).ret = true ∧
      (decrypt referenceSession true referenceKey [1, 2, 3] [9] .EME_PKCS1v15).out.length
        = 3 :=
  have h := C14_decrypt_true_iff referenceSession true referenceKey [1, 2, 3] [9]
    .EME_PKCS1v15
  have hret := h.1.mpr ⟨CKM_RSA_PKCS, 1, Or.inl rfl, rfl, Or.inr ⟨rfl, rfl⟩, rfl, rfl, rfl, rfl⟩
  ⟨hret, h.2 CKM_RSA_PKCS 1 rfl (Or.inr ⟨rfl, rfl⟩) hret⟩

/-- C17 for the reference key: idle, so that the encoded message is empty; and with data
to sign and a driver whose `lockSession` fails. -/
theorem C17_witness :
    ((endSign referenceSession true referenceKey).result = [] ∧
      (endSign referenceSession true referenceKey).calls = []) ∧
    (endSign { referenceSession with lockSession := fun _ => 5 } true
      (update (startSign referenceKey .EMSA3_Raw) [7])).result = [] :=
  ⟨(C17_endSign_empty_on_failure referenceSession true referenceKey).1 rfl,
    (C17_endSign_empty_on_failure { referenceSession with lockSession := fun _ => 5 } true
      (update (startSign referenceKey .EMSA3_Raw) [7])).2
      (by
        rintro ⟨h, _, hl, _⟩
        simp [CKR_OK] at hl)⟩

/-! ## Prompts: properties -/

theorem pinCapacity_eq (w pin_max : Nat) (h1 : 1 ≤ pin_max) (h2 : pin_max < 2 ^ w) :
    pinCapacity w pin_max = pin_max - 1 := by
  unfold pinCapacity
  have : pin_max + 2 ^ w - 1 = (pin_max - 1) + 2 ^ w := by omega
  rw [this, Nat.add_mod_right, Nat.mod_eq_of_lt (by omega)]

/-- C21, failing input: for a registered token whose enumeration returns at least one
issuer, and display names given one for each certificate of the batch, the loop that fills
the map reads `listCerts[i]` for an index `i` past the end of `listCerts`, so `entryList`
is undefined. With the issuer `[48, 1]` and the leaf `[48, 2]`, whose names are
`[48, 1]` and `[48, 2]`, the first pass binds the hash of the leaf, `[48, 2]`, to the name
computed for the issuer, and the second pass reads `listCerts[1]` in a list of one
element. -/
theorem C21_names_indexed_by_leaves {Certificate : Type} (env : Env Certificate)
    (f : Certificate → QString) (token : pkcs11h_token_id) (issuer : pkcs11h_certificate_id)
    (issuers certs : List pkcs11h_certificate_id) :
    entryList { env with makeFriendlyNames := fun l => l.map f }
        ⟨1, [⟨1, token⟩], [(1, ⟨1, token⟩)]⟩ 1 (CKR_OK, issuer :: issuers, certs) = none ∧
      referenceEnv.makeFriendlyNames ([[48, 1]] ++ [[48, 2]]) = [[48, 1], [48, 2]] ∧
      certificateHash referenceEnv [48, 2] = some [48, 2] ∧
      friendlyNamesLoop referenceEnv [[48, 2]] [[48, 1]] 0 [] = some [([48, 2], [48, 1])] ∧
      friendlyNamesLoop referenceEnv [[48, 2]] [[48, 1], [48, 2]] 0 [] = none := by
  refine ⟨entryList_undefined _ _ 1 ⟨1, token⟩ _ _ (by simp [hashFind]) (by simp)
    (fun l => by simp), by decide, by decide, by decide, by decide⟩

/-! ## Prompts: the entry and the buffer -/

/-- No entry for a reference of fewer than five fields. -/
theorem entryPassive_short {Certificate : Type} (env : Env Certificate) (src : QString)
    (h : (split src).length < 5) : (entryPassive env src).entry = none := by
  simp [entryPassive, deserializeCertificateId, h, keyStoreEntryByCertificateId]

/-- No entry for a reference whose first field is not `qca-pkcs11`. -/
theorem entryPassive_other_head {Certificate : Type} (env : Env Certificate) (src : QString)
    (h : (split src).getD 0 [] ≠ qs "qca-pkcs11") : (entryPassive env src).entry = none := by
  by_cases h5 : (split src).length < 5
  · exact entryPassive_short env src h5
  · have hd : deserializeCertificateId env src []
        = ⟨none, false, [], some ⟨CKR_FUNCTION_FAILED, "Invalid serialization"⟩, []⟩ := by
      unfold deserializeCertificateId
      simp only []
      rw [if_neg h5, if_pos h]
    simp [entryPassive, hd, keyStoreEntryByCertificateId]

/-- C23, failing input: for the references `qca-pkcs11/0/a/1`, which has four fields, and
`pkcs11/0/a/1/MAE=`, whose first field is not `qca-pkcs11`, `entryPassive` returns no
entry, and `tokenPrompt` and `pinPrompt` read the `storeId` of that missing entry: they
are undefined, for every driver, UI answer, registry and token. The same holds in the
reference environment for a reference whose identity the driver does not decode and for
one whose certificate field is empty; a well-formed reference is resolved and its
`storeId` is sent to the UI. -/
theorem C23_missing_entry_read {Certificate : Type} (env : Env Certificate)
    (askToken : QString → Bool) (askPin : QString → Bool × QByteArray) (r : Registry)
    (token : pkcs11h_token_id) :
    ((entryPassive env (qs "qca-pkcs11/0/a/1")).entry = none ∧
      tokenPrompt env askToken r (some (qs "qca-pkcs11/0/a/1")) token = .undefined ∧
      pinPrompt env askPin r (some (qs "qca-pkcs11/0/a/1")) token = .undefined) ∧
    ((entryPassive env (qs "pkcs11/0/a/1/MAE=")).entry = none ∧
      tokenPrompt env askToken r (some (qs "pkcs11/0/a/1/MAE=")) token = .undefined ∧
      pinPrompt env askPin r (some (qs "pkcs11/0/a/1/MAE=")) token = .undefined) ∧
    (tokenPrompt { referenceEnv with deserializeCertificateId := fun _ => .error 5 }
        askToken r (some (qs "qca-pkcs11/0/a/1/MAE=")) token = .undefined ∧
      pinPrompt referenceEnv askPin r (some (qs "qca-pkcs11/0/a/1/")) token = .undefined) ∧
    tokenPrompt referenceEnv askToken r (some (qs "qca-pkcs11/0/a/1/MAE=")) token
      = .returned ⟨askToken (qs "qca-pkcs11/T"), qs "qca-pkcs11/T", r⟩ := by
  have h1 := entryPassive_short env (qs "qca-pkcs11/0/a/1") (by decide)
  have h2 := entryPassive_other_head env (qs "pkcs11/0/a/1/MAE=") (by decide)
  refine ⟨?_, ?_, ⟨rfl, rfl⟩, rfl⟩
  · simp [tokenPrompt, pinPrompt, h1]
  · simp [tokenPrompt, pinPrompt, h2]

/-- Value of `pin_max-1` at `pin_max = 0`. -/
theorem pinCapacity_zero (w : Nat) : pinCapacity w 0 = 2 ^ w - 1 := by
  unfold pinCapacity
  have hpos : 0 < 2 ^ w := Nat.two_pow_pos w
  rw [Nat.zero_add]
  exact Nat.mod_eq_of_lt (by omega)

/-- For `1 ≤ pin_max` and a PIN whose length is a `size_t`, what `pinPromptHook` writes,
the PIN and a NUL, is shorter than `pin_max`. -/
theorem pinPromptHook_fits {Certificate : Type} (env : Env Certificate)
    (ask : QString → Bool × QByteArray) (w : Nat) (r : Registry)
    (user_data : Option QString) (token : pkcs11h_token_id) (pin : QByteArray)
    (pin_max : Nat) (res : PinPromptHook) (h1 : 1 ≤ pin_max) (h2 : pin_max < 2 ^ w)
    (hres : pinPromptHook env ask w (some r) user_data token pin pin_max = .returned res)
    (hret : res.ret = true) :
    ∃ p, pinPrompt env ask r user_data token = .returned p ∧ res.pin = writePin pin p.pin ∧
      (p.pin.length < 2 ^ w → p.pin.length + 1 < pin_max) := by
  simp only [pinPromptHook] at hres
  cases hp : pinPrompt env ask r user_data token with
  | thrown e => simp [hp] at hres
  | undefined => simp [hp] at hres
  | returned p =>
    simp only [hp] at hres
    by_cases hr : p.ret = true
    · by_cases hfit : p.pin.length % 2 ^ w < pinCapacity w pin_max
      · simp only [hr, hfit, if_true, Outcome.returned.injEq] at hres
        subst hres
        refine ⟨p, rfl, rfl, ?_⟩
        intro hlen
        rw [pinCapacity_eq w pin_max h1 h2, Nat.mod_eq_of_lt hlen] at hfit
        omega
      · simp only [hr, hfit, if_true, if_false, Outcome.returned.injEq] at hres
        subst hres
        simp at hret
    · simp only [hr, Bool.false_eq_true, if_false, Outcome.returned.injEq] at hres
      subst hres
      simp at hret

/-- C22, failing input: with `pin_max = 0` the `size_t` value of `pin_max-1` is
`2 ^ w - 1`; for a `size_t` of 64 bits and an accepted PIN of two characters the test
`qpin.size () < pin_max-1` passes and `pinPromptHook` writes three bytes, the PIN and a
NUL, into a buffer of capacity 0. With `pin_max = 1` nothing is written. -/
theorem C22_zero_capacity_written (w : Nat) :
    pinCapacity w 0 = 2 ^ w - 1 ∧
      pinPromptHook referenceEnv (fun _ => (true, [49, 50])) 64
        (some ⟨1, [⟨1, referenceToken⟩], [(1, ⟨1, referenceToken⟩)]⟩) none referenceToken [] 0
        = .returned ⟨true, [49, 50, 0],
            some ⟨1, [⟨1, referenceToken⟩], [(1, ⟨1, referenceToken⟩)]⟩⟩ ∧
      pinPromptHook referenceEnv (fun _ => (true, [49, 50])) 64
        (some ⟨1, [⟨1, referenceToken⟩], [(1, ⟨1, referenceToken⟩)]⟩) none referenceToken [7] 1
        = .returned ⟨false, [7],
            some ⟨1, [⟨1, referenceToken⟩], [(1, ⟨1, referenceToken⟩)]⟩⟩ := by
  refine ⟨pinCapacity_zero w, rfl, rfl⟩

/-! ## Escaping after unescaping -/

/-- Every output of `escapeString` is escaped text. -/
theorem escapedLoop_escapeString (s : QString) : escapedLoop 0 (escapeString s) = true := by
  induction s with
  | nil => rfl
  | cons c cs ih =>
    by_cases h1 : c = slash
    · subst h1
      show escapedLoop 0 ([92, 120, 48, 48, 50, 102] ++ escapeString cs) = true
      simp [escapedLoop, ih, backslash]
      decide
    · by_cases h2 : c = backslash
      · subst h2
        show escapedLoop 0 ([92, 120, 48, 48, 53, 99] ++ escapeString cs) = true
        simp [escapedLoop, ih, backslash]
        decide
      · simp [escapeString, h1, h2, escapedLoop, ih]

/-- One escape sequence read by `unescapeString` and written back by `escapeString`. -/
theorem escape_unescape_sequence (a b : QChar) (rest : QString)
    (h : a = 50 ∧ b = 102 ∨ a = 53 ∧ b = 99)
    (ih : escapeString (unescapeLoop 0 rest) = rest) :
    escapeString (unescapeLoop 0 (92 :: 120 :: 48 :: 48 :: a :: b :: rest))
      = 92 :: 120 :: 48 :: 48 :: a :: b :: rest := by
  rcases h with ⟨rfl, rfl⟩ | ⟨rfl, rfl⟩
  · have hv : ushort (toInt [48, 48, 50, 102] 16) = 47 := by decide
    simp only [unescapeLoop, backslash, if_true, mid, List.drop, List.take, hv]
    show [92, 120, 48, 48, 50, 102] ++ escapeString (unescapeLoop 0 rest) = _
    rw [ih]
    rfl
  · have hv : ushort (toInt [48, 48, 53, 99] 16) = 92 := by decide
    simp only [unescapeLoop, backslash, if_true, mid, List.drop, List.take, hv]
    show [92, 120, 48, 48, 53, 99] ++ escapeString (unescapeLoop 0 rest) = _
    rw [ih]
    rfl

/-- On escaped text `escapeString` undoes `unescapeString`; `n` bounds the length. -/
theorem escape_unescape_of_escaped (n : Nat) (t : QString) (hn : t.length ≤ n)
    (h : escapedLoop 0 t = true) : escapeString (unescapeLoop 0 t) = t := by
  induction n generalizing t with
  | zero =>
    have : t = [] := List.length_eq_zero.mp (by omega)
    subst this
    rfl
  | succ n ih =>
    cases t with
    | nil => rfl
    | cons c cs =>
      by_cases hb : c = backslash
      · subst hb
        simp only [escapedLoop, if_true, Bool.and_eq_true, Bool.or_eq_true,
          decide_eq_true_eq] at h
        obtain ⟨hpre, hrest⟩ := h
        have hcs : cs = cs.take 5 ++ cs.drop 5 := (List.take_append_drop 5 cs).symm
        have hlen : (cs.drop 5).length ≤ n := by
          simp only [List.length_cons] at hn
          simp only [List.length_drop]
          omega
        rcases hpre with hp | hp
        · rw [hp] at hcs
          have hr : escapedLoop 0 (cs.drop 5) = true := by
            rw [hcs] at hrest
            simpa [escapedLoop, qs] using hrest
          rw [hcs]
          exact escape_unescape_sequence 50 102 _ (Or.inl ⟨rfl, rfl⟩) (ih _ hlen hr)
        · rw [hp] at hcs
          have hr : escapedLoop 0 (cs.drop 5) = true := by
            rw [hcs] at hrest
            simpa [escapedLoop, qs] using hrest
          rw [hcs]
          exact escape_unescape_sequence 53 99 _ (Or.inr ⟨rfl, rfl⟩) (ih _ hlen hr)
      · have hb2 : ¬ c = 92 := hb
        simp only [escapedLoop, hb, if_false, Bool.and_eq_true, decide_eq_true_eq] at h
        have hlen : cs.length ≤ n := by
          simp only [List.length_cons] at hn
          omega
        simp [unescapeLoop, hb, escapeString, h.1, ih cs hlen h.2]

/-- C24 fails as stated: `unescapeString` leaves `/` as it is and `escapeString` turns it
into `\x002f`; a lone `\` is unescaped to the character 0; and `\x002F`, with a capital
digit, comes back as `\x002f`. -/
theorem C24_counterexample :
    escapeString (unescapeString (qs "/")) = qs "\\x002f" ∧
      escapeString (unescapeString (qs "/")) ≠ qs "/" ∧
      escapeString (unescapeString (qs "\\")) ≠ qs "\\" ∧
      escapeString (unescapeString (qs "\\x002F")) = qs "\\x002f" ∧
      escapeString (unescapeString (qs "\\x002F")) ≠ qs "\\x002F" := by
  decide

/-- C24, amended: for every string `t`, `escapeString (unescapeString t) = t` exactly when
`t` is escaped text, that is, holds no `'/'` and every `'\'` of it opens one of the
sequences `\x002f` and `\x005c`; and the escaped texts are exactly the outputs of
`escapeString`. -/
theorem C24_escape_unescape_iff (t : QString) :
    (escapeString (unescapeString t) = t ↔ escaped t = true) ∧
      (escaped t = true ↔ ∃ s, t = escapeString s) := by
  have h1 : escaped t = true → escapeString (unescapeString t) = t :=
    fun h => escape_unescape_of_escaped t.length t (Nat.le_refl _) h
  have h2 : (∃ s, t = escapeString s) → escaped t = true := by
    rintro ⟨s, rfl⟩
    exact escapedLoop_escapeString s
  have h3 : escapeString (unescapeString t) = t → ∃ s, t = escapeString s :=
    fun h => ⟨unescapeString t, h.symm⟩
  exact ⟨⟨fun h => h2 (h3 h), h1⟩, ⟨fun h => h3 (h1 h), h2⟩⟩

/-! ## Fields of a serialised reference -/

/-- The handle `ensureCertificate` gives when the key has one or the driver creates one. -/
theorem ensureCertificate_of_handle (drv : SessionEnv) (k : pkcs11RSAContext)
    (h : pkcs11h_certificate)
    (hh : k._pkcs11h_certificate = some h ∨ (k._pkcs11h_certificate = none ∧
      drv.create k._pkcs11h_certificate_id k._serialized_entry = .ok h)) :
    (ensureCertificate drv k = (.ok (k, h), []) ∧ k._pkcs11h_certificate = some h) ∨
      ensureCertificate drv k
        = (.ok ({ k with _pkcs11h_certificate := some h }, h), [.create CKR_OK]) := by
  rcases hh with hk | ⟨hk, hc⟩
  · exact Or.inl ⟨by simp [ensureCertificate, hk], hk⟩
  · exact Or.inr (by simp [ensureCertificate, hk, hc])

/-- C26: in `decrypt`, once the mechanism is chosen, the handle is there and the session
is locked: when both calls of the decrypt primitive return OK and `releaseSession` returns
a non-OK status, `decrypt` returns `false` and the diagnostic carries the status of
`releaseSession`; when the first call, or the second after a first that returned OK,
returns a non-OK status, `decrypt` returns `false` and the diagnostic carries that status,
whatever `releaseSession` returns. The diagnostic is emitted when the keystore list
exists. -/
theorem C26_release_failure (drv : SessionEnv) (listExists : Bool) (k : pkcs11RSAContext)
    (input out : QByteArray) (alg : EncryptionAlgorithm) (mech : CK_MECHANISM_TYPE)
    (h : pkcs11h_certificate) (hm : decryptMechanism alg = some mech)
    (hh : k._pkcs11h_certificate = some h ∨ (k._pkcs11h_certificate = none ∧
      drv.create k._pkcs11h_certificate_id k._serialized_entry = .ok h))
    (hl : drv.lockSession h = CKR_OK) :
    ((drv.decryptAny h mech input none).1 = CKR_OK →
      (drv.decryptAny h mech input (some (drv.decryptAny h mech input none).2.1)).1
        = CKR_OK →
      drv.releaseSession h ≠ CKR_OK →
      (decrypt drv listExists k input out alg).ret = false ∧
        (decrypt drv listExists k input out alg).diagnostics
          = if listExists then
              [⟨"PKCS#11: Cannot decrypt:", drv.releaseSession h,
                "Cannot release session" ++ " " ++ drv.getMessage (drv.releaseSession h)⟩]
            else []) ∧
    ((drv.decryptAny h mech input none).1 ≠ CKR_OK →
      (decrypt drv listExists k input out alg).ret = false ∧
        (decrypt drv listExists k input out alg).diagnostics
          = if listExists then
              [⟨"PKCS#11: Cannot decrypt:", (drv.decryptAny h mech input none).1,
                "Decryption error" ++ " "
                  ++ drv.getMessage (drv.decryptAny h mech input none).1⟩]
            else []) ∧
    ((drv.decryptAny h mech input none).1 = CKR_OK →
      (drv.decryptAny h mech input (some (drv.decryptAny h mech input none).2.1)).1
        ≠ CKR_OK →
      (decrypt drv listExists k input out alg).ret = false ∧
        (decrypt drv listExists k input out alg).diagnostics
          = if listExists then
              [⟨"PKCS#11: Cannot decrypt:",
                (drv.decryptAny h mech input (some (drv.decryptAny h mech input none).2.1)).1,
                "Decryption error" ++ " " ++ drv.getMessage
                  (drv.decryptAny h mech input
                    (some (drv.decryptAny h mech input none).2.1)).1⟩]
            else []) := by
  rcases hd1 : drv.decryptAny h mech input none with ⟨rv1, s1, b1⟩
  rcases hd2 : drv.decryptAny h mech input (some s1) with ⟨rv2, s2, b2⟩
  rcases ensureCertificate_of_handle drv k h hh with ⟨he, _⟩ | he
  · refine ⟨?_, ?_, ?_⟩
    · intro h1 h2 hr
      simp only at h1 h2
      simp [decrypt, hm, he, hl, hd1, hd2, h1, h2, hr, decryptCatch, sessionMessage]
    · intro h1
      simp only at h1
      simp [decrypt, hm, he, hl, hd1, h1, decryptCatch, sessionMessage]
    · intro h1 h2
      simp only at h1 h2
      simp [decrypt, hm, he, hl, hd1, hd2, h1, h2, decryptCatch, sessionMessage]
  · refine ⟨?_, ?_, ?_⟩
    · intro h1 h2 hr
      simp only at h1 h2
      simp [decrypt, hm, he, hl, hd1, hd2, h1, h2, hr, decryptCatch, sessionMessage]
    · intro h1
      simp only at h1
      simp [decrypt, hm, he, hl, hd1, h1, decryptCatch, sessionMessage]
    · intro h1 h2
      simp only at h1 h2
      simp [decrypt, hm, he, hl, hd1, hd2, h1, h2, decryptCatch, sessionMessage]

/-- C26 for the reference key: with a driver whose `releaseSession` returns 5 the
diagnostic carries 5 and "Cannot release session"; with one whose decrypt primitive returns
48 as well, the diagnostic carries 48 and "Decryption error". -/
theorem C26_witness :
    ((decrypt { referenceSession with releaseSession := fun _ => 5 } true referenceKey
        [1, 2, 3] [9] .EME_PKCS1v15).ret = false ∧
      (decrypt { referenceSession with releaseSession := fun _ => 5 } true referenceKey
        [1, 2, 3] [9] .EME_PKCS1v15).diagnostics
        = [⟨"PKCS#11: Cannot decrypt:", 5, "Cannot release session" ++ " " ++ "status"⟩]) ∧
    ((decrypt { referenceSession with
          decryptAny := fun _ _ _ _ => (48, 0, []), releaseSession := fun _ => 5 } true
        referenceKey [1, 2, 3] [9] .EME_PKCS1v15).ret = false ∧
      (decrypt { referenceSession with
          decryptAny := fun _ _ _ _ => (48, 0, []), releaseSession := fun _ => 5 } true
        referenceKey [1, 2, 3] [9] .EME_PKCS1v15).diagnostics
        = [⟨"PKCS#11: Cannot decrypt:", 48, "Decryption error" ++ " " ++ "status"⟩]) :=
  ⟨(C26_release_failure { referenceSession with releaseSession := fun _ => 5 } true
      referenceKey [1, 2, 3] [9] .EME_PKCS1v15 CKM_RSA_PKCS 1 rfl (Or.inr ⟨rfl, rfl⟩) rfl).1
      rfl rfl (by decide),
    (C26_release_failure { referenceSession with
        decryptAny := fun _ _ _ _ => (48, 0, []), releaseSession := fun _ => 5 } true
      referenceKey [1, 2, 3] [9] .EME_PKCS1v15 CKM_RSA_PKCS 1 rfl (Or.inr ⟨rfl, rfl⟩) rfl).2.1
      (by decide)⟩

/-- C27: the number of `releaseSession` calls made by `decrypt`, and by `endSign`, is 0
when `lockSession` is not reached (no mechanism for the algorithm, respectively an empty
message, or no handle) or returns a non-OK status; it is 2 when both calls of the
primitive return OK and the `releaseSession` after them returns a non-OK status; and it
is 1 in every other case. -/
theorem C27_release_count (drv : SessionEnv) (listExists : Bool) (k : pkcs11RSAContext)
    (input out : QByteArray) (alg : EncryptionAlgorithm) :
    ((decryptMechanism alg = none →
        releaseCount (decrypt drv listExists k input out alg).calls = 0) ∧
      (∀ rv, k._pkcs11h_certificate = none →
        drv.create k._pkcs11h_certificate_id k._serialized_entry = .error rv →
        releaseCount (decrypt drv listExists k input out alg).calls = 0) ∧
      (∀ mech h, decryptMechanism alg = some mech →
        (k._pkcs11h_certificate = some h ∨ (k._pkcs11h_certificate = none ∧
          drv.create k._pkcs11h_certificate_id k._serialized_entry = .ok h)) →
        releaseCount (decrypt drv listExists k input out alg).calls
          = if drv.lockSession h ≠ CKR_OK then 0
            else if (drv.decryptAny h mech input none).1 = CKR_OK ∧
                (drv.decryptAny h mech input
                  (some (drv.decryptAny h mech input none).2.1)).1 = CKR_OK ∧
                drv.releaseSession h ≠ CKR_OK then 2
            else 1)) ∧
    ((signFinal drv k = [] → releaseCount (endSign drv listExists k).calls = 0) ∧
      (∀ rv, k._pkcs11h_certificate = none →
        drv.create k._pkcs11h_certificate_id k._serialized_entry = .error rv →
        releaseCount (endSign drv listExists k).calls = 0) ∧
      (∀ h, signFinal drv k ≠ [] →
        (k._pkcs11h_certificate = some h ∨ (k._pkcs11h_certificate = none ∧
          drv.create k._pkcs11h_certificate_id k._serialized_entry = .ok h)) →
        releaseCount (endSign drv listExists k).calls
          = if drv.lockSession h ≠ CKR_OK then 0
            else if (drv.signAny h CKM_RSA_PKCS (signFinal drv k) none).1 = CKR_OK ∧
                (drv.signAny h CKM_RSA_PKCS (signFinal drv k)
                  (some (drv.signAny h CKM_RSA_PKCS (signFinal drv k) none).2.1)).1
                  = CKR_OK ∧
                drv.releaseSession h ≠ CKR_OK then 2
            else 1)) := by
  refine ⟨⟨?_, ?_, ?_⟩, ?_, ?_, ?_⟩
  · intro hm
    simp [decrypt, hm, decryptCatch, catchRelease, releaseCount]
  · intro rv hk hc
    cases hm : decryptMechanism alg with
    | none => simp [decrypt, hm, decryptCatch, catchRelease, releaseCount]
    | some mech =>
      simp [decrypt, hm, ensureCertificate, hk, hc, decryptCatch, catchRelease, releaseCount]
  · intro mech h hm hh
    rcases hd1 : drv.decryptAny h mech input none with ⟨rv1, s1, b1⟩
    rcases hd2 : drv.decryptAny h mech input (some s1) with ⟨rv2, s2, b2⟩
    rcases ensureCertificate_of_handle drv k h hh with ⟨he, hk⟩ | he
    · by_cases hl : drv.lockSession h = CKR_OK
      · by_cases h1 : rv1 = CKR_OK
        · by_cases h2 : rv2 = CKR_OK
          · by_cases hr : drv.releaseSession h = CKR_OK
            · simp [decrypt, hm, he, hl, hd1, hd2, h1, h2, hr, releaseCount]
            · simp [decrypt, hm, he, hl, hd1, hd2, h1, h2, hr, decryptCatch, catchRelease, hk,
                releaseCount]
          · simp [decrypt, hm, he, hl, hd1, hd2, h1, h2, decryptCatch, catchRelease, hk,
              releaseCount]
        · simp [decrypt, hm, he, hl, hd1, h1, decryptCatch, catchRelease, hk, releaseCount]
      · simp [decrypt, hm, he, hl, decryptCatch, catchRelease, releaseCount]
    · by_cases hl : drv.lockSession h = CKR_OK
      · by_cases h1 : rv1 = CKR_OK
        · by_cases h2 : rv2 = CKR_OK
          · by_cases hr : drv.releaseSession h = CKR_OK
            · simp [decrypt, hm, he, hl, hd1, hd2, h1, h2, hr, releaseCount]
            · simp [decrypt, hm, he, hl, hd1, hd2, h1, h2, hr, decryptCatch, catchRelease,
                releaseCount]
          · simp [decrypt, hm, he, hl, hd1, hd2, h1, h2, decryptCatch, catchRelease,
              releaseCount]
        · simp [decrypt, hm, he, hl, hd1, h1, decryptCatch, catchRelease, releaseCount]
      · simp [decrypt, hm, he, hl, decryptCatch, catchRelease, releaseCount]
  · intro hf
    simp [endSign, hf, endSignCatch, catchRelease, releaseCount]
  · intro rv hk hc
    by_cases hf : (signFinal drv k).length = 0
    · simp [endSign, hf, endSignCatch, catchRelease, releaseCount]
    · simp [endSign, hf, ensureCertificate, hk, hc, endSignCatch, catchRelease, releaseCount]
  · intro h hf hh
    have hlen : ¬ (signFinal drv k).length = 0 := by
      simpa [List.length_eq_zero] using hf
    rcases hd1 : drv.signAny h CKM_RSA_PKCS (signFinal drv k) none with ⟨rv1, s1, b1⟩
    rcases hd2 : drv.signAny h CKM_RSA_PKCS (signFinal drv k) (some s1) with ⟨rv2, s2, b2⟩
    rcases ensureCertificate_of_handle drv k h hh with ⟨he, hk⟩ | he
    · by_cases hl : drv.lockSession h = CKR_OK
      · by_cases h1 : rv1 = CKR_OK
        · by_cases h2 : rv2 = CKR_OK
          · by_cases hr : drv.releaseSession h = CKR_OK
            · simp [endSign, hlen, he, hl, hd1, hd2, h1, h2, hr, releaseCount]
            · simp [endSign, hlen, he, hl, hd1, hd2, h1, h2, hr, endSignCatch, catchRelease, hk,
                releaseCount]
          · simp [endSign, hlen, he, hl, hd1, hd2, h1, h2, endSignCatch, catchRelease, hk,
              releaseCount]
        · simp [endSign, hlen, he, hl, hd1, h1, endSignCatch, catchRelease, hk, releaseCount]
      · simp [endSign, hlen, he, hl, endSignCatch, catchRelease, releaseCount]
    · by_cases hl : drv.lockSession h = CKR_OK
      · by_cases h1 : rv1 = CKR_OK
        · by_cases h2 : rv2 = CKR_OK
          · by_cases hr : drv.releaseSession h = CKR_OK
            · simp [endSign, hlen, he, hl, hd1, hd2, h1, h2, hr, releaseCount]
            · simp [endSign, hlen, he, hl, hd1, hd2, h1, h2, hr, endSignCatch, catchRelease,
                releaseCount]
          · simp [endSign, hlen, he, hl, hd1, hd2, h1, h2, endSignCatch, catchRelease,
              releaseCount]
        · simp [endSign, hlen, he, hl, hd1, h1, endSignCatch, catchRelease, releaseCount]
      · simp [endSign, hlen, he, hl, endSignCatch, catchRelease, releaseCount]

/-! ## Raw signatures -/

/-- The sign interface leaves the role, the identity, the handle and the serialised entry
of a key as they are. -/
theorem runSign_frame (k : pkcs11RSAContext) (ops : List SignOp) :
    (runSign k ops)._has_privateKeyRole = k._has_privateKeyRole ∧
      (runSign k ops)._pkcs11h_certificate_id = k._pkcs11h_certificate_id ∧
      (runSign k ops)._pkcs11h_certificate = k._pkcs11h_certificate ∧
      (runSign k ops)._serialized_entry = k._serialized_entry := by
  induction ops generalizing k with
  | nil => simp [runSign]
  | cons op rest ih =>
    cases op with
    | startSign alg =>
      have := ih (startSign k alg)
      simpa [runSign, startSign, clearSign] using this
    | update input =>
      have := ih (update k input)
      have hu : (update k input)._has_privateKeyRole = k._has_privateKeyRole ∧
          (update k input)._pkcs11h_certificate_id = k._pkcs11h_certificate_id ∧
          (update k input)._pkcs11h_certificate = k._pkcs11h_certificate ∧
          (update k input)._serialized_entry = k._serialized_entry := by
        unfold update
        split
        · split <;> simp
        · simp
      simp only [runSign]
      rw [this.1, this.2.1, this.2.2.1, this.2.2.2]
      exact hu

/-- Raw mode: `update` appends to the raw buffer and nothing else changes. -/
theorem updates_raw (k : pkcs11RSAContext) (bs : List QByteArray)
    (hrole : k._has_privateKeyRole = true) (hhash : k._sign_data.hash = none) :
    updates k bs
      = { k with _sign_data := { k._sign_data with raw := k._sign_data.raw ++ bs.flatten } } := by
  induction bs generalizing k with
  | nil => simp [updates]
  | cons b rest ih =>
    have hu : update k b
        = { k with _sign_data := { k._sign_data with raw := k._sign_data.raw ++ b } } := by
      simp [update, hrole, hhash]
    have hnext := ih (update k b) (by rw [hu]; exact hrole) (by rw [hu]; exact hhash)
    simp only [updates]
    rw [hnext, hu]
    simp

/-- Every input `endSign` hands to the sign primitive is the message `final`. -/
theorem endSign_signedInputs (drv : SessionEnv) (listExists : Bool) (k : pkcs11RSAContext) :
    ∀ x ∈ signedInputs (endSign drv listExists k).calls, x = signFinal drv k := by
  unfold endSign
  simp only
  split
  · simp [endSignCatch, catchRelease, signedInputs]
  · cases he : ensureCertificate drv k with
    | mk res calls =>
      cases res with
      | error e =>
        obtain ⟨_, rv, _, rfl⟩ := ensureCertificate_error drv k e calls he
        simp [endSignCatch, catchRelease, signedInputs]
      | ok p =>
        obtain ⟨k1, h⟩ := p
        obtain ⟨rfl, hc⟩ := ensureCertificate_ok drv k k1 h calls he
        have hcalls : calls = [] ∨ calls = [.create CKR_OK] := by
          rcases hc with ⟨_, h⟩ | ⟨_, _, h⟩
          · exact Or.inl h
          · exact Or.inr h
        simp only
        rcases hcalls with rfl | rfl <;>
        · split
          · simp [endSignCatch, catchRelease, signedInputs]
          · split
            · simp [endSignCatch, catchRelease, signedInputs]
            · split
              · simp [endSignCatch, catchRelease, signedInputs]
              · split <;> simp [endSignCatch, catchRelease, signedInputs]

/-- The sign primitive is called with the message `final` once the session is locked. -/
theorem endSign_signs (drv : SessionEnv) (listExists : Bool) (k : pkcs11RSAContext)
    (h : pkcs11h_certificate) (hf : signFinal drv k ≠ [])
    (hh : k._pkcs11h_certificate = some h ∨ (k._pkcs11h_certificate = none ∧
      drv.create k._pkcs11h_certificate_id k._serialized_entry = .ok h))
    (hl : drv.lockSession h = CKR_OK) :
    signFinal drv k ∈ signedInputs (endSign drv listExists k).calls := by
  have hlen : ¬ (signFinal drv k).length = 0 := by
    simpa [List.length_eq_zero] using hf
  rcases hd1 : drv.signAny h CKM_RSA_PKCS (signFinal drv k) none with ⟨rv1, s1, b1⟩
  rcases hd2 : drv.signAny h CKM_RSA_PKCS (signFinal drv k) (some s1) with ⟨rv2, s2, b2⟩
  rcases ensureCertificate_of_handle drv k h hh with ⟨he, hk⟩ | he
  · by_cases h1 : rv1 = CKR_OK
    · by_cases h2 : rv2 = CKR_OK
      · by_cases hr : drv.releaseSession h = CKR_OK
        · simp [endSign, hlen, he, hl, hd1, hd2, h1, h2, hr, signedInputs]
        · simp [endSign, hlen, he, hl, hd1, hd2, h1, h2, hr, endSignCatch, catchRelease, hk,
            signedInputs]
      · simp [endSign, hlen, he, hl, hd1, hd2, h1, h2, endSignCatch, catchRelease, hk,
          signedInputs]
    · simp [endSign, hlen, he, hl, hd1, h1, endSignCatch, catchRelease, hk, signedInputs]
  · by_cases h1 : rv1 = CKR_OK
    · by_cases h2 : rv2 = CKR_OK
      · by_cases hr : drv.releaseSession h = CKR_OK
        · simp [endSign, hlen, he, hl, hd1, hd2, h1, h2, hr, signedInputs]
        · simp [endSign, hlen, he, hl, hd1, hd2, h1, h2, hr, endSignCatch, catchRelease,
            signedInputs]
      · simp [endSign, hlen, he, hl, hd1, hd2, h1, h2, endSignCatch, catchRelease,
          signedInputs]
    · simp [endSign, hlen, he, hl, hd1, h1, endSignCatch, catchRelease, signedInputs]

/-- C28: for a key with the private-key role and every earlier sequence of `startSign`
and `update` calls, `startSign (EMSA3_Raw)` leaves no digest accumulator and an empty raw
buffer, and after `update (b_1)`, ..., `update (b_n)` the message of `endSign` is
`b_1 ++ ... ++ b_n`: every input `endSign` hands to the sign primitive is that message,
and it is handed to the primitive when it is not empty, the handle exists or is created
and `lockSession` returns OK. -/
theorem C28_raw_sign_message (drv : SessionEnv) (listExists : Bool) (k : pkcs11RSAContext)
    (ops : List SignOp) (bs : List QByteArray) (hrole : k._has_privateKeyRole = true) :
    (startSign (runSign k ops) .EMSA3_Raw)._sign_data = ⟨.EMSA3_Raw, none, []⟩ ∧
      signFinal drv (updates (startSign (runSign k ops) .EMSA3_Raw) bs) = bs.flatten ∧
      (∀ x ∈ signedInputs
          (endSign drv listExists (updates (startSign (runSign k ops) .EMSA3_Raw) bs)).calls,
        x = bs.flatten) ∧
      (∀ h, bs.flatten ≠ [] →
        (k._pkcs11h_certificate = some h ∨ (k._pkcs11h_certificate = none ∧
          drv.create k._pkcs11h_certificate_id k._serialized_entry = .ok h)) →
        drv.lockSession h = CKR_OK →
        bs.flatten ∈ signedInputs
          (endSign drv listExists (updates (startSign (runSign k ops) .EMSA3_Raw) bs)).calls) := by
  obtain ⟨f1, f2, f3, f4⟩ := runSign_frame k ops
  have hstart : (startSign (runSign k ops) .EMSA3_Raw)._sign_data = ⟨.EMSA3_Raw, none, []⟩ := by
    simp [startSign, clearSign]
  have hrole2 : (startSign (runSign k ops) .EMSA3_Raw)._has_privateKeyRole = true := by
    simp [startSign, clearSign, f1, hrole]
  have hkey := updates_raw (startSign (runSign k ops) .EMSA3_Raw) bs hrole2 (by rw [hstart])
  have hfinal : signFinal drv (updates (startSign (runSign k ops) .EMSA3_Raw) bs) = bs.flatten := by
    rw [hkey]
    simp [signFinal, hstart]
  refine ⟨hstart, hfinal, ?_, ?_⟩
  · intro x hx
    rw [← hfinal]
    exact endSign_signedInputs drv listExists _ x hx
  · intro h hne hh hl
    have := endSign_signs drv listExists
      (updates (startSign (runSign k ops) .EMSA3_Raw) bs) h (by rw [hfinal]; exact hne)
      (by
        rw [hkey]
        simpa [startSign, clearSign, f2, f3, f4] using hh) hl
    rwa [hfinal] at this

/-- C28 for the reference key: after a digest signature was started and fed, after
`startSign (EMSA3_Raw)` and the updates `[1, 2]`, `[]`, `[3]` the message is `[1, 2, 3]`
and the sign primitive receives it. -/
theorem C28_witness :
    (startSign (runSign referenceKey [.startSign .EMSA3_SHA1, .update [9, 9], .update [8]])
        .EMSA3_Raw)._sign_data = ⟨.EMSA3_Raw, none, []⟩ ∧
      signFinal referenceSession
        (updates (startSign
          (runSign referenceKey [.startSign .EMSA3_SHA1, .update [9, 9], .update [8]])
          .EMSA3_Raw) [[1, 2], [], [3]]) = [1, 2, 3] ∧
      [1, 2, 3] ∈ signedInputs
        (endSign referenceSession true (updates (startSign
          (runSign referenceKey [.startSign .EMSA3_SHA1, .update [9, 9], .update [8]])
          .EMSA3_Raw) [[1, 2], [], [3]])).calls :=
  have h := C28_raw_sign_message referenceSession true referenceKey
    [.startSign .EMSA3_SHA1, .update [9, 9], .update [8]] [[1, 2], [], [3]] rfl
  ⟨h.1, h.2.1, h.2.2.2 1 (by decide) (Or.inr ⟨rfl, rfl⟩) rfl⟩

/-! ## Host names: properties -/

/-- What `dropWhile` leaves was there. -/
theorem mem_of_mem_dropWhile {α : Type} (p : α → Bool) (l : List α) (c : α)
    (h : c ∈ l.dropWhile p) : c ∈ l :=
  (List.dropWhile_sublist p).subset h

/-- `dropWhile` keeps what the test rejects. -/
theorem mem_dropWhile_of_false {α : Type} (p : α → Bool) (l : List α) (c : α)
    (h : c ∈ l) (hp : p c = false) : c ∈ l.dropWhile p := by
  induction l with
  | nil => simp at h
  | cons x l ih =>
    by_cases hx : p x = true
    · have hne : c ≠ x := by
        rintro rfl
        rw [hp] at hx
        exact Bool.false_ne_true hx
      have hl : c ∈ l := by
        rcases List.mem_cons.mp h with h | h
        · exact absurd h hne
        · exact h
      simpa [List.dropWhile, hx] using ih hl
    · simpa [List.dropWhile, hx] using h

theorem mem_stripWhiteSpace (u : QtUnicode) (s : QString) (c : QChar)
    (h : c ∈ stripWhiteSpace u s) : c ∈ s := by
  unfold stripWhiteSpace at h
  rw [List.mem_reverse] at h
  have h1 := mem_of_mem_dropWhile _ _ _ h
  rw [List.mem_reverse] at h1
  exact mem_of_mem_dropWhile _ _ _ h1

theorem mem_stripWhiteSpace_of (u : QtUnicode) (s : QString) (c : QChar) (h : c ∈ s)
    (hc : u.isSpace c = false) : c ∈ stripWhiteSpace u s := by
  unfold stripWhiteSpace
  rw [List.mem_reverse]
  apply mem_dropWhile_of_false _ _ _ _ hc
  rw [List.mem_reverse]
  exact mem_dropWhile_of_false _ _ _ h hc

theorem mem_dropTrailingDots (s : QString) (c : QChar) (h : c ∈ dropTrailingDots s) :
    c ∈ s := by
  unfold dropTrailingDots at h
  rw [List.mem_reverse] at h
  have h1 := mem_of_mem_dropWhile _ _ _ h
  rwa [List.mem_reverse] at h1

theorem mem_dropTrailingDots_or (s : QString) (c : QChar) (h : c ∈ s) :
    c ∈ dropTrailingDots s ∨ c = dot := by
  by_cases hc : c = dot
  · exact Or.inr hc
  · left
    unfold dropTrailingDots
    rw [List.mem_reverse]
    apply mem_dropWhile_of_false _ _ _ (by rwa [List.mem_reverse])
    simpa using hc

/-- The loop that removes the first part while there are more than two keeps the last
two. -/
theorem keepLastTwo_eq (l : List QString) : keepLastTwo l = l.drop (l.length - 2) := by
  induction l with
  | nil => rfl
  | cons a l ih =>
    cases l with
    | nil => rfl
    | cons b l =>
      cases l with
      | nil => rfl
      | cons c rest =>
        simp only [keepLastTwo, ih, List.length_cons]
        have : rest.length + 1 + 1 + 1 - 2 = (rest.length + 1 + 1 - 2) + 1 := by omega
        rw [this, List.drop_succ_cons]

/-- The wildcard branch of `cnMatchesAddress`. -/
theorem cnMatchesAddress_wildcard (u : QtUnicode) (_cn peerHost : QString)
    (hstar : star ∈ dropTrailingDots (lower u (stripWhiteSpace u _cn)))
    (h4 : rxIPv4 peerHost = false) (h6 : rxIPv6 peerHost = false) :
    cnMatchesAddress u _cn peerHost = true ↔
      hasInvalidChar (lower u (stripWhiteSpace u _cn)) = false ∧
      2 ≤ (QStringList_split dot (dropTrailingDots (lower u (stripWhiteSpace u _cn)))).length ∧
      (∀ label ∈ (QStringList_split dot
            (dropTrailingDots (lower u (stripWhiteSpace u _cn)))).drop
          ((QStringList_split dot
            (dropTrailingDots (lower u (stripWhiteSpace u _cn)))).length - 2),
        star ∉ label) ∧
      wildcardExactMatch u (dropTrailingDots (lower u (stripWhiteSpace u _cn))) peerHost
        = true ∧
      (QStringList_split dot (dropTrailingDots (lower u (stripWhiteSpace u _cn)))).length
        = (QStringList_split dot peerHost).length := by
  generalize hcn0 : lower u (stripWhiteSpace u _cn) = cn0 at *
  generalize hcn : dropTrailingDots cn0 = cn at *
  have hne : cn.isEmpty = false := by
    cases cn with
    | nil => simp at hstar
    | cons c cs => rfl
  have hcont : cn.contains star = true := by simpa using hstar
  unfold cnMatchesAddress
  simp only [hcn0, hcn, hne, h4, h6, hcont, keepLastTwo_eq]
  generalize hparts : QStringList_split dot cn = parts
  by_cases hv : hasInvalidChar cn0 = true
  · simp [hv]
  · have hv2 : hasInvalidChar cn0 = false := by simpa using hv
    simp only [hv2, Bool.false_eq_true, if_false, true_and]
    by_cases hlen : 2 ≤ parts.length
    · have hdrop : ∃ p0 p1, parts.drop (parts.length - 2) = [p0, p1] := by
        have hl : (parts.drop (parts.length - 2)).length = 2 := by
          rw [List.length_drop]
          omega
        match hd : parts.drop (parts.length - 2), hl with
        | [p0, p1], _ => exact ⟨p0, p1, rfl⟩
      obtain ⟨p0, p1, hd⟩ := hdrop
      simp [hd, hlen]
    · have hl : (parts.drop (parts.length - 2)).length ≠ 2 := by
        rw [List.length_drop]
        omega
      rw [if_pos hl]
      simp [hlen]

/-- A name that holds `'*'` still holds it after `stripWhiteSpace`, `lower` and the removal
of the final dots, when `'*'` is no white space and is its own lower case. -/
theorem star_mem_normalised (u : QtUnicode) (_cn : QString) (hstar : star ∈ _cn)
    (hspace : u.isSpace star = false) (hlower : u.lower star = star) :
    star ∈ dropTrailingDots (lower u (stripWhiteSpace u _cn)) := by
  have h1 := mem_stripWhiteSpace_of u _cn star hstar hspace
  have h2 : star ∈ lower u (stripWhiteSpace u _cn) := by
    unfold lower
    exact List.mem_map.mpr ⟨star, h1, hlower⟩
  rcases mem_dropTrailingDots_or _ _ h2 with h | h
  · exact h
  · exact absurd h (by decide)

/-- No name matches a host of the form `[...]`: the name would have to hold `'['`. -/
theorem cnMatchesAddress_literal (u : QtUnicode) (_cn peerHost : QString)
    (hlit : rxIPv6 peerHost = true) : cnMatchesAddress u _cn peerHost = false := by
  unfold cnMatchesAddress
  simp only
  by_cases hv : hasInvalidChar (lower u (stripWhiteSpace u _cn)) = true
  · simp [hv]
  · have hne : peerHost ≠ dropTrailingDots (lower u (stripWhiteSpace u _cn)) := by
      intro he
      apply hv
      cases hp : peerHost with
      | nil => simp [hp, rxIPv6] at hlit
      | cons c rest =>
        simp only [hp, rxIPv6, Bool.and_eq_true, decide_eq_true_eq] at hlit
        have hmem : (91 : Nat) ∈ lower u (stripWhiteSpace u _cn) := by
          apply mem_dropTrailingDots
          rw [← he, hp, hlit.1]
          simp
        simp only [hasInvalidChar, List.any_eq_true]
        exact ⟨91, hmem, by decide⟩
    simp [hv, hlit, hne]

/-- The names `*.com` and `*` match no host. -/
theorem cnMatchesAddress_bare_wildcard (peerHost : QString) :
    cnMatchesAddress referenceUnicode (qs "*.com") peerHost = false ∧
      cnMatchesAddress referenceUnicode (qs "*") peerHost = false := by
  constructor
  · by_cases he : peerHost = qs "*.com"
    · subst he; decide
    · have h1 : lower referenceUnicode (stripWhiteSpace referenceUnicode (qs "*.com"))
          = qs "*.com" := by decide
      have h2 : dropTrailingDots (qs "*.com") = qs "*.com" := by decide
      have h3 : hasInvalidChar (qs "*.com") = false := by decide
      have h4 : keepLastTwo (QStringList_split dot (qs "*.com")) = [qs "*", qs "com"] := by
        decide
      have h5 : (qs "*.com").contains star = true := by decide
      have h6 : star ∈ qs "*" := by decide
      have h7 : (qs "*.com").isEmpty = false := by decide
      unfold cnMatchesAddress
      simp only [h1, h2, h3, h4, h5, h7]
      simp [he, h6]
  · by_cases he : peerHost = qs "*"
    · subst he; decide
    · have h1 : lower referenceUnicode (stripWhiteSpace referenceUnicode (qs "*"))
          = qs "*" := by decide
      have h2 : dropTrailingDots (qs "*") = qs "*" := by decide
      have h3 : hasInvalidChar (qs "*") = false := by decide
      have h4 : keepLastTwo (QStringList_split dot (qs "*")) = [qs "*"] := by
        decide
      have h5 : (qs "*").contains star = true := by decide
      have h7 : (qs "*").isEmpty = false := by decide
      unfold cnMatchesAddress
      simp only [h1, h2, h3, h4, h5, h7]
      simp [he]

/-- C29: for a common name that holds `'*'` (`'*'` being no white space and its own lower
case) and a host that is neither of the form of an IPv4 address nor of the form `[...]`,
`cnMatchesAddress` returns `true` exactly when the name holds no invalid character and,
trimmed, lower-cased and without its final dots, has at least two non-empty labels, holds
no `'*'` in its last two labels, matches the host as a wildcard pattern without regard to
case, and has as many non-empty labels as the host. So `*.example.com` matches
`foo.example.com` and not `bar.foo.example.com`, and `*.com` and `*` match no host. -/
theorem C29_wildcard_rule (u : QtUnicode) (_cn peerHost : QString) (hstar : star ∈ _cn)
    (hspace : u.isSpace star = false) (hlower : u.lower star = star)
    (h4 : rxIPv4 peerHost = false) (h6 : rxIPv6 peerHost = false) :
    (cnMatchesAddress u _cn peerHost = true ↔
      hasInvalidChar (lower u (stripWhiteSpace u _cn)) = false ∧
      2 ≤ (QStringList_split dot (dropTrailingDots (lower u (stripWhiteSpace u _cn)))).length ∧
      (∀ label ∈ (QStringList_split dot
            (dropTrailingDots (lower u (stripWhiteSpace u _cn)))).drop
          ((QStringList_split dot
            (dropTrailingDots (lower u (stripWhiteSpace u _cn)))).length - 2),
        star ∉ label) ∧
      wildcardExactMatch u (dropTrailingDots (lower u (stripWhiteSpace u _cn))) peerHost
        = true ∧
      (QStringList_split dot (dropTrailingDots (lower u (stripWhiteSpace u _cn)))).length
        = (QStringList_split dot peerHost).length) ∧
    matchesAddress referenceUnicode (qs "*.example.com") (qs "foo.example.com") = true ∧
    matchesAddress referenceUnicode (qs "*.example.com") (qs "bar.foo.example.com") = false ∧
    (∀ host, cnMatchesAddress referenceUnicode (qs "*.com") host = false) ∧
    (∀ host, cnMatchesAddress referenceUnicode (qs "*") host = false) :=
  ⟨cnMatchesAddress_wildcard u _cn peerHost (star_mem_normalised u _cn hstar hspace hlower)
      h4 h6,
    by decide, by decide, fun host => (cnMatchesAddress_bare_wildcard host).1,
    fun host => (cnMatchesAddress_bare_wildcard host).2⟩

/-- C29 for the reference character tables: ` *.Example.COM. ` matches `foo.example.com`;
`*.example.com` does not match `bar.foo.example.com`, which has four labels. -/
theorem C29_witness :
    cnMatchesAddress referenceUnicode (qs " *.Example.COM. ") (qs "foo.example.com") = true ∧
      cnMatchesAddress referenceUnicode (qs "*.example.com") (qs "bar.foo.example.com")
        = false :=
  ⟨(C29_wildcard_rule referenceUnicode (qs " *.Example.COM. ") (qs "foo.example.com")
      (by decide) (by decide) (by decide) (by decide) (by decide)).1.mpr (by decide),
    by
      have h := (C29_wildcard_rule referenceUnicode (qs "*.example.com")
        (qs "bar.foo.example.com") (by decide) (by decide) (by decide) (by decide)
        (by decide)).1
      cases hc : cnMatchesAddress referenceUnicode (qs "*.example.com")
          (qs "bar.foo.example.com") with
      | false => rfl
      | true => exact absurd (h.mp hc).2.2.2.2 (by decide)⟩

/-- `cnMatchesAddress` for a name whose normal form holds no `'*'`: the three ways out of
the function compare the name with the host. -/
theorem cnMatchesAddress_plain (u : QtUnicode) (_cn peerHost : QString)
    (hstar : star ∉ dropTrailingDots (lower u (stripWhiteSpace u _cn))) :
    cnMatchesAddress u _cn peerHost = true ↔
      hasInvalidChar (lower u (stripWhiteSpace u _cn)) = false ∧
      dropTrailingDots (lower u (stripWhiteSpace u _cn)) ≠ [] ∧
      dropTrailingDots (lower u (stripWhiteSpace u _cn)) = peerHost := by
  generalize hcn0 : lower u (stripWhiteSpace u _cn) = cn0 at *
  generalize hcn : dropTrailingDots cn0 = cn at *
  have hcont : cn.contains star = false := by simpa using hstar
  unfold cnMatchesAddress
  simp only [hcn0, hcn, hcont]
  by_cases hv : hasInvalidChar cn0 = true
  · simp [hv]
  · have hv2 : hasInvalidChar cn0 = false := by simpa using hv
    cases cn with
    | nil => simp [hv2]
    | cons c cs =>
      by_cases h4 : rxIPv4 peerHost = true
      · simp [hv2, h4, eq_comm]
      · by_cases h6 : rxIPv6 peerHost = true
        · simp [hv2, h4, h6, eq_comm]
        · simp [hv2, h4, h6]

/-- C30: for a common name without `'*'` (lower-casing gives `'*'` for `'*'` only and
gives no capital ASCII letter) and every host, `cnMatchesAddress` returns `true` exactly
when the name, trimmed, lower-cased and without its final dots, is not empty, is made of
characters of `[a-z0-9.-]` and is equal to the host. So a host of the form of an IPv4
address matches only the name equal to it, and a host of the form `[...]` matches no name
at all, with or without `'*'`. -/
theorem C30_exact_rule (u : QtUnicode) (_cn peerHost : QString) (hstar : star ∉ _cn)
    (hlower : ∀ c, u.lower c = star → c = star)
    (hupper : ∀ c, ¬ (65 ≤ u.lower c ∧ u.lower c ≤ 90)) :
    (cnMatchesAddress u _cn peerHost = true ↔
      dropTrailingDots (lower u (stripWhiteSpace u _cn)) ≠ [] ∧
      (∀ c ∈ dropTrailingDots (lower u (stripWhiteSpace u _cn)),
        (97 ≤ c ∧ c ≤ 122) ∨ (48 ≤ c ∧ c ≤ 57) ∨ c = dot ∨ c = 45) ∧
      dropTrailingDots (lower u (stripWhiteSpace u _cn)) = peerHost) ∧
    (rxIPv4 peerHost = true → cnMatchesAddress u _cn peerHost = true →
      peerHost = dropTrailingDots (lower u (stripWhiteSpace u _cn))) ∧
    (∀ name, rxIPv6 peerHost = true → cnMatchesAddress u name peerHost = false) := by
  have hs0 : star ∉ lower u (stripWhiteSpace u _cn) := by
    intro h
    unfold lower at h
    obtain ⟨c0, hc0, hl⟩ := List.mem_map.mp h
    have := hlower c0 hl
    subst this
    exact hstar (mem_stripWhiteSpace u _cn _ hc0)
  have hs1 : star ∉ dropTrailingDots (lower u (stripWhiteSpace u _cn)) :=
    fun h => hs0 (mem_dropTrailingDots _ _ h)
  have hup : ∀ c ∈ lower u (stripWhiteSpace u _cn), ¬ (65 ≤ c ∧ c ≤ 90) := by
    intro c hc
    unfold lower at hc
    obtain ⟨c0, _, hl⟩ := List.mem_map.mp hc
    rw [← hl]
    exact hupper c0
  have hvalid : hasInvalidChar (lower u (stripWhiteSpace u _cn)) = false ↔
      ∀ c ∈ dropTrailingDots (lower u (stripWhiteSpace u _cn)),
        (97 ≤ c ∧ c ≤ 122) ∨ (48 ≤ c ∧ c ≤ 57) ∨ c = dot ∨ c = 45 := by
    constructor
    · intro hv c hc
      have hc0 := mem_dropTrailingDots _ _ hc
      have hne : c ≠ star := fun e => hs0 (e ▸ hc0)
      have hu := hup c hc0
      have ha : allowedChar c = true := by
        by_contra hna
        have : hasInvalidChar (lower u (stripWhiteSpace u _cn)) = true := by
          simp only [hasInvalidChar, List.any_eq_true]
          exact ⟨c, hc0, by simpa using hna⟩
        rw [hv] at this
        exact Bool.false_ne_true this
      simp only [allowedChar, Bool.or_eq_true, Bool.and_eq_true, decide_eq_true_eq] at ha
      tauto
    · intro hall
      by_contra hv
      have hv2 : hasInvalidChar (lower u (stripWhiteSpace u _cn)) = true := by simpa using hv
      simp only [hasInvalidChar, List.any_eq_true] at hv2
      obtain ⟨c, hc, hna⟩ := hv2
      have hplain : (97 ≤ c ∧ c ≤ 122) ∨ (48 ≤ c ∧ c ≤ 57) ∨ c = dot ∨ c = 45 := by
        rcases mem_dropTrailingDots_or _ _ hc with h | h
        · exact hall c h
        · exact Or.inr (Or.inr (Or.inl h))
      have ha : allowedChar c = true := by
        simp only [allowedChar, Bool.or_eq_true, Bool.and_eq_true, decide_eq_true_eq]
        tauto
      rw [ha] at hna
      simp at hna
  have hmain := cnMatchesAddress_plain u _cn peerHost hs1
  refine ⟨?_, ?_, fun name h => cnMatchesAddress_literal u name peerHost h⟩
  · rw [hmain, hvalid]
    tauto
  · intro _ h
    exact ((hmain.mp h).2.2).symm

/-- Lower-casing of the reference tables gives `'*'` for `'*'` only. -/
theorem referenceUnicode_star (c : Nat) (h : referenceUnicode.lower c = star) :
    c = star := by
  have h2 : (if 65 ≤ c ∧ c ≤ 90 then c + 32 else c) = 42 := h
  by_cases hc : 65 ≤ c ∧ c ≤ 90
  · rw [if_pos hc] at h2
    omega
  · rw [if_neg hc] at h2
    exact h2

/-- Lower-casing of the reference tables gives no capital letter. -/
theorem referenceUnicode_upper (c : Nat) :
    ¬ (65 ≤ referenceUnicode.lower c ∧ referenceUnicode.lower c ≤ 90) := by
  show ¬ (65 ≤ (if 65 ≤ c ∧ c ≤ 90 then c + 32 else c) ∧
    (if 65 ≤ c ∧ c ≤ 90 then c + 32 else c) ≤ 90)
  by_cases hc : 65 ≤ c ∧ c ≤ 90
  · rw [if_pos hc]
    omega
  · rw [if_neg hc]
    exact hc

/-- C30 for the reference character tables: ` Example.COM.. ` matches `example.com`;
`exa_mple.com` does not match the host spelled the same; `10.0.0.1` matches the host
`10.0.0.1`; `[::1]` does not match the host `[::1]`. -/
theorem C30_witness :
    cnMatchesAddress referenceUnicode (qs " Example.COM.. ") (qs "example.com") = true ∧
      cnMatchesAddress referenceUnicode (qs "exa_mple.com") (qs "exa_mple.com") = false ∧
      cnMatchesAddress referenceUnicode (qs "10.0.0.1") (qs "10.0.0.1") = true ∧
      cnMatchesAddress referenceUnicode (qs "[::1]") (qs "[::1]") = false :=
  have hname : ¬ cnMatchesAddress referenceUnicode (qs "exa_mple.com") (qs "exa_mple.com")
      = true := fun hc =>
    absurd (((C30_exact_rule referenceUnicode (qs "exa_mple.com") (qs "exa_mple.com")
      (by decide) referenceUnicode_star
      referenceUnicode_upper).1.mp hc).2.1 95 (by decide))
      (by decide)
  ⟨(C30_exact_rule referenceUnicode (qs " Example.COM.. ") (qs "example.com") (by decide)
      referenceUnicode_star
      referenceUnicode_upper).1.mpr
      ⟨by decide, by decide, by decide⟩,
    by simpa using hname,
    (C30_exact_rule referenceUnicode (qs "10.0.0.1") (qs "10.0.0.1") (by decide)
      referenceUnicode_star
      referenceUnicode_upper).1.mpr
      ⟨by decide, by decide, by decide⟩,
    (C30_exact_rule referenceUnicode (qs "[::1]") (qs "[::1]") (by decide)
      referenceUnicode_star
      referenceUnicode_upper).2.2 (qs "[::1]")
      (by decide)⟩

end pkcs11QCAPlugin
